import Mathlib

/-!
Verification of the rectpack 2D rectangle-packing library.

This file gives a shallow embedding, in Lean, of the Go sources of the
rectpack repository (geometry primitives, heuristic descriptor, the
MaxRects / Skyline / Guillotine engines and the packer orchestrator) and
proves or refutes the frozen claims about the natural-language
specification.  All machine integers of the Go code (`int`) are modelled
as unbounded `Int`; the sentinel constants `math.MaxInt` / `math.MinInt`
are kept as the literal values `2^63 - 1` / `-2^63` used on a 64-bit
platform.  Go slices are modelled as `List`s, and the index-juggling
loops of the source (swap-removal, region bookkeeping) are translated
into structurally recursive functions over lists with explicit indices.
Functions that panic in Go (`Reset` with non-positive extents) return
`Option`.
-/

namespace Rectpack

/-- `math.MaxInt` on a 64-bit platform. -/
def MaxInt : Int := 9223372036854775807

/-- `math.MinInt` on a 64-bit platform. -/
def MinInt : Int := -9223372036854775808

/-- Size describes dimensions of an entity in 2D space (geometry.go). -/
structure Size where
  Width : Int
  Height : Int
  ID : Int
deriving DecidableEq, Repr

instance : Inhabited Size := ⟨⟨0, 0, 0⟩⟩

/-- Rect describes a location (top-left corner) and size in 2D space.
In Go, `Rect` embeds `Point` and `Size`; the embedding is flattened here. -/
structure Rect where
  X : Int
  Y : Int
  Width : Int
  Height : Int
  ID : Int
  Flipped : Bool
deriving DecidableEq, Repr

instance : Inhabited Rect := ⟨⟨0, 0, 0, 0, 0, false⟩⟩

/-- `NewSize` (geometry.go). -/
def NewSize (width height : Int) : Size := ⟨width, height, 0⟩

/-- `NewSizeID` (geometry.go). -/
def NewSizeID (id width height : Int) : Size := ⟨width, height, id⟩

/-- `Size.Area` (geometry.go). -/
def Size.Area (sz : Size) : Int := sz.Width * sz.Height

/-- `Size.Perimeter` (geometry.go). -/
def Size.Perimeter (sz : Size) : Int := (sz.Width + sz.Height) * 2

/-- `Size.MaxSide` (geometry.go). -/
def Size.MaxSide (sz : Size) : Int := max sz.Width sz.Height

/-- `Size.MinSide` (geometry.go). -/
def Size.MinSide (sz : Size) : Int := min sz.Width sz.Height

/-- `NewRect` (geometry.go). -/
def NewRect (x y w h : Int) : Rect := ⟨x, y, w, h, 0, false⟩

/-- `Rect.Right` (geometry.go). -/
def Rect.Right (r : Rect) : Int := r.X + r.Width

/-- `Rect.Bottom` (geometry.go). -/
def Rect.Bottom (r : Rect) : Int := r.Y + r.Height

/-- `Rect.Area`: a `Rect` inherits `Area` from its embedded `Size` in Go. -/
def Rect.Area (r : Rect) : Int := r.Width * r.Height

/-- `Rect.ContainsRect` (geometry.go). -/
def Rect.ContainsRect (r rect : Rect) : Prop :=
  r.X ≤ rect.X ∧ rect.X + rect.Width ≤ r.X + r.Width ∧
  r.Y ≤ rect.Y ∧ rect.Y + rect.Height ≤ r.Y + r.Height

instance (r rect : Rect) : Decidable (r.ContainsRect rect) := by
  unfold Rect.ContainsRect; infer_instance

/-- `Rect.Intersects` (geometry.go). -/
def Rect.Intersects (r rect : Rect) : Prop :=
  rect.X < r.X + r.Width ∧ r.X < rect.X + rect.Width ∧
  rect.Y < r.Y + r.Height ∧ r.Y < rect.Y + rect.Height

instance (r rect : Rect) : Decidable (r.Intersects rect) := by
  unfold Rect.Intersects; infer_instance

/-- `Rect.Intersect` (geometry.go): the overlapping area of two rectangles,
or the zero rectangle when there is no overlap. -/
def Rect.Intersect (r rect : Rect) : Rect :=
  let x1 := max r.X rect.X
  let x2 := min (r.X + r.Width) (rect.X + rect.Width)
  let y1 := max r.Y rect.Y
  let y2 := min (r.Y + r.Height) (rect.Y + rect.Height)
  if x1 ≤ x2 ∧ y1 ≤ y2 then ⟨x1, y1, x2 - x1, y2 - y1, 0, false⟩
  else ⟨0, 0, 0, 0, 0, false⟩

/-- `Rect.IsEmpty` (geometry.go). -/
def Rect.IsEmpty (r : Rect) : Prop := r.Width ≤ 0 ∨ r.Height ≤ 0

/-- `abs` helper (algorithm.go). -/
def goAbs (x : Int) : Int := if 0 ≤ x then x else -x

/-- `padSize` (algorithm.go): inflate a candidate size by `padding` before
placement scoring (no-op for non-positive padding). -/
def padSize (size : Size) (padding : Int) : Size :=
  if padding ≤ 0 then size
  else { size with Width := size.Width + padding, Height := size.Height + padding }

/-- `unpadRect` (algorithm.go): contract a placed rectangle after placement.
At `X == 0` the X coordinate is shifted by `padding` and the width shrunk by
`2*padding`; otherwise the width is shrunk by `padding` only.  Symmetric in Y. -/
def unpadRect (rect : Rect) (padding : Int) : Rect :=
  if padding ≤ 0 then rect
  else
    let r1 :=
      if rect.X = 0 then { rect with X := rect.X + padding, Width := rect.Width - padding * 2 }
      else { rect with Width := rect.Width - padding }
    if r1.Y = 0 then { r1 with Y := r1.Y + padding, Height := r1.Height - padding * 2 }
    else { r1 with Height := r1.Height - padding }

/-! ## Heuristic descriptor (heuristic.go) -/

/-- Algorithm nibble `MaxRects = 0x0`. -/
def MaxRects : Nat := 0x0

/-- Algorithm nibble `Skyline = 0x1`. -/
def Skyline : Nat := 0x1

/-- Algorithm nibble `Guillotine = 0x2`. -/
def Guillotine : Nat := 0x2

/-- Bin-selection nibble `BestShortSideFit = 0x00`. -/
def BestShortSideFit : Nat := 0x00

/-- Bin-selection nibble `BestLongSideFit = 0x10`. -/
def BestLongSideFit : Nat := 0x10

/-- Bin-selection nibble `BestAreaFit = 0x20`. -/
def BestAreaFit : Nat := 0x20

/-- Bin-selection nibble `BottomLeft = 0x30`. -/
def BottomLeft : Nat := 0x30

/-- Bin-selection nibble `ContactPoint = 0x40`. -/
def ContactPoint : Nat := 0x40

/-- Bin-selection nibble `WorstAreaFit = 0x50`. -/
def WorstAreaFit : Nat := 0x50

/-- Bin-selection nibble `WorstShortSideFit = 0x60`. -/
def WorstShortSideFit : Nat := 0x60

/-- Bin-selection nibble `WorstLongSideFit = 0x70`. -/
def WorstLongSideFit : Nat := 0x70

/-- Bin-selection nibble `MinWaste = 0x80`. -/
def MinWaste : Nat := 0x80

/-- Split-method nibble `SplitShorterLeftoverAxis = 0x0000`. -/
def SplitShorterLeftoverAxis : Nat := 0x0000

/-- Split-method nibble `SplitLongerLeftoverAxis = 0x0100`. -/
def SplitLongerLeftoverAxis : Nat := 0x0100

/-- Split-method nibble `SplitMinimizeArea = 0x0200`. -/
def SplitMinimizeArea : Nat := 0x0200

/-- Split-method nibble `SplitMaximizeArea = 0x0300`. -/
def SplitMaximizeArea : Nat := 0x0300

/-- Split-method nibble `SplitShorterAxis = 0x0400`. -/
def SplitShorterAxis : Nat := 0x0400

/-- Split-method nibble `SplitLongerAxis = 0x0500`. -/
def SplitLongerAxis : Nat := 0x0500

/-- Mask `typeMask = 0x000F` extracting the algorithm nibble. -/
def typeMask : Nat := 0x000F

/-- Mask `fitMask = 0x00F0` extracting the bin-selection nibble. -/
def fitMask : Nat := 0x00F0

/-- Mask `splitMask = 0x0F00` extracting the split-method nibble. -/
def splitMask : Nat := 0x0F00

/-- The three error values `algoErr`, `splitErr`, `binErr` of heuristic.go. -/
inductive HError where
  | algoErr
  | splitErr
  | binErr
deriving DecidableEq, Repr

/-- `Heuristic.Validate` (heuristic.go): `none` models the Go `nil` result.
Note the Guillotine branch of the source accepts only the five "best"
bin-fit methods and answers `splitErr` for any other bin nibble. -/
def Validate (e : Nat) : Option HError :=
  let bin := e &&& fitMask
  let split := e &&& splitMask
  let algo := e &&& typeMask
  if algo = MaxRects then
    if split ≠ 0 then some .splitErr
    else if bin = BestShortSideFit ∨ bin = BestAreaFit ∨ bin = BottomLeft ∨
            bin = ContactPoint ∨ bin = BestLongSideFit then none
    else some .binErr
  else if algo = Skyline then
    if split ≠ 0 then some .splitErr
    else if bin = BottomLeft ∨ bin = MinWaste then none
    else some .binErr
  else if algo = Guillotine then
    if split = SplitShorterLeftoverAxis ∨ split = SplitLongerLeftoverAxis ∨
       split = SplitMinimizeArea ∨ split = SplitMaximizeArea ∨
       split = SplitShorterAxis ∨ split = SplitLongerAxis then
      if bin = BestShortSideFit ∨ bin = BottomLeft ∨ bin = ContactPoint ∨
         bin = BestLongSideFit ∨ bin = BestAreaFit then none
      else some .splitErr
    else some .splitErr
  else some .algoErr

/-! ## Guillotine free-list merge (guillotine.go) -/

/-- Inner loop of `guillotinePack.mergeFreeList` for a fixed outer index `i`:
`ri` is the current value of `freeRects[i]`, and the list argument holds the
elements at indices `j = i+1, ...`.  The source conditions compare the fields
of `freeRects[i]` against themselves (the `j` index is never consulted), which
is translated literally here. -/
def mergeInnerGo (ri : Rect) : List Rect → Rect × List Rect
  | [] => (ri, [])
  | x :: xs =>
    if ri.Width = ri.Width ∧ ri.X = ri.X then
      if ri.Y = ri.Y + ri.Height then
        mergeInnerGo { ri with Y := ri.Y - ri.Height, Height := ri.Height + ri.Height } xs
      else if ri.Y + ri.Height = ri.Y then
        mergeInnerGo { ri with Height := ri.Height + ri.Height } xs
      else
        let (ri2, rest) := mergeInnerGo ri xs
        (ri2, x :: rest)
    else if ri.Height = ri.Height ∧ ri.Y = ri.Y then
      if ri.X = ri.X + ri.Width then
        mergeInnerGo { ri with X := ri.X - ri.Width, Width := ri.Width + ri.Width } xs
      else if ri.X + ri.Width = ri.X then
        mergeInnerGo { ri with Width := ri.Width + ri.Width } xs
      else
        let (ri2, rest) := mergeInnerGo ri xs
        (ri2, x :: rest)
    else
      let (ri2, rest) := mergeInnerGo ri xs
      (ri2, x :: rest)

theorem mergeInnerGo_snd_length (x : Rect) (xs : List Rect) :
    (mergeInnerGo x xs).2.length ≤ xs.length := by
  induction xs generalizing x with
  | nil => simp [mergeInnerGo]
  | cons y ys ih =>
    simp only [mergeInnerGo]
    repeat' split
    all_goals simp_all
    all_goals exact Nat.le_trans (ih _) (Nat.le_succ _)

/-- Outer loop of `guillotinePack.mergeFreeList`: advances the index `i`
(consuming the list) after running the inner pass on the elements behind it.
The inner pass never lengthens the remainder (`mergeInnerGo_snd_length`), so
the wrapper's fuel `l.length` is exact and the fuel-0 case is unreachable for
a non-empty list. -/
def mergeOuterLoop : Nat → List Rect → List Rect
  | 0, l => l
  | _+1, [] => []
  | fuel+1, x :: xs =>
    (mergeInnerGo x xs).1 :: mergeOuterLoop fuel (mergeInnerGo x xs).2

/-- Outer loop wrapper of `guillotinePack.mergeFreeList`. -/
def mergeOuterGo (l : List Rect) : List Rect := mergeOuterLoop l.length l

/-- `guillotinePack.mergeFreeList` (guillotine.go). -/
def mergeFreeList (l : List Rect) : List Rect := mergeOuterGo l

theorem mergeInnerGo_noop (ri : Rect) (xs : List Rect) (h : ri.Height ≠ 0) :
    mergeInnerGo ri xs = (ri, xs) := by
  induction xs with
  | nil => simp [mergeInnerGo]
  | cons y ys ih =>
    have h1 : ¬ ri.Y = ri.Y + ri.Height := by omega
    have h2 : ¬ ri.Y + ri.Height = ri.Y := by omega
    simp [mergeInnerGo, h1, h2, ih]

theorem mergeOuterLoop_noop (fuel : Nat) (l : List Rect) (hf : l.length ≤ fuel)
    (h : ∀ r ∈ l, r.Height ≠ 0) : mergeOuterLoop fuel l = l := by
  induction fuel generalizing l with
  | zero => cases l <;> simp_all [mergeOuterLoop]
  | succ n ih =>
    cases l with
    | nil => simp [mergeOuterLoop]
    | cons x xs =>
      have hx : x.Height ≠ 0 := h x (by simp)
      simp only [mergeOuterLoop, mergeInnerGo_noop x xs hx]
      exact congrArg (x :: ·)
        (ih xs (by simpa using Nat.le_of_succ_le_succ hf) fun r hr => h r (by simp [hr]))

theorem mergeOuterGo_noop (l : List Rect) (h : ∀ r ∈ l, r.Height ≠ 0) :
    mergeOuterGo l = l := mergeOuterLoop_noop l.length l le_rfl h

/-- `mergeFreeList` never changes a free list whose rectangles all have
non-zero height: the (buggy) merge conditions of the source can only fire on
zero-height entries, which the engine never produces. -/
theorem mergeFreeList_noop (l : List Rect) (h : ∀ r ∈ l, r.Height ≠ 0) :
    mergeFreeList l = l := mergeOuterGo_noop l h

/-! ## Guillotine engine (guillotine.go) -/

/-- The `scoreFunc` value installed by `newGuillotine`. -/
inductive GFit where
  | bestShort
  | bestLong
  | worstArea
  | worstShort
  | worstLong
  | bestArea
deriving DecidableEq, Repr

/-- `scoreBestArea` (guillotine.go). -/
def scoreBestArea (width height : Int) (freeRect : Rect) : Int :=
  freeRect.Width * freeRect.Height - width * height

/-- `scoreBestShort` (guillotine.go). -/
def scoreBestShort (width height : Int) (freeRect : Rect) : Int :=
  min (goAbs (freeRect.Width - width)) (goAbs (freeRect.Height - height))

/-- `scoreBestLong` (guillotine.go). -/
def scoreBestLong (width height : Int) (freeRect : Rect) : Int :=
  max (goAbs (freeRect.Width - width)) (goAbs (freeRect.Height - height))

/-- Dispatch of the installed `scoreRect` closure (`newGuillotine`). -/
def gScore : GFit → Int → Int → Rect → Int
  | .bestShort, w, h, r => scoreBestShort w h r
  | .bestLong, w, h, r => scoreBestLong w h r
  | .worstArea, w, h, r => -(scoreBestArea w h r)
  | .worstShort, w, h, r => -(scoreBestShort w h r)
  | .worstLong, w, h, r => -(scoreBestLong w h r)
  | .bestArea, w, h, r => scoreBestArea w h r

/-- Bin-fit selection of `newGuillotine` (default `BestAreaFit`). -/
def gFitOf (heuristic : Nat) : GFit :=
  let f := heuristic &&& fitMask
  if f = BestShortSideFit then .bestShort
  else if f = BestLongSideFit then .bestLong
  else if f = WorstAreaFit then .worstArea
  else if f = WorstShortSideFit then .worstShort
  else if f = WorstLongSideFit then .worstLong
  else .bestArea

/-- State of a `guillotinePack` (the `algorithmBase` fields are inlined). -/
structure GState where
  maxWidth : Int
  maxHeight : Int
  packed : List Rect
  usedArea : Int
  allowFlip : Bool
  Merge : Bool
  splitMethod : Nat
  fit : GFit
  freeRects : List Rect
deriving Repr

/-- `guillotinePack.splitAlongAxis` (guillotine.go): form the bottom/right
children of the guillotine cut and append the non-degenerate ones. -/
def splitAlongAxis (freeRect placedRect : Rect) (splitHorizontal : Bool)
    (freeRects : List Rect) : List Rect :=
  let bottom : Rect :=
    { X := freeRect.X, Y := freeRect.Y + placedRect.Height,
      Width := if splitHorizontal then freeRect.Width else placedRect.Width,
      Height := freeRect.Height - placedRect.Height, ID := 0, Flipped := false }
  let right : Rect :=
    { X := freeRect.X + placedRect.Width, Y := freeRect.Y,
      Width := freeRect.Width - placedRect.Width,
      Height := if splitHorizontal then placedRect.Height else freeRect.Height,
      ID := 0, Flipped := false }
  let l1 := if 0 < bottom.Width ∧ 0 < bottom.Height then freeRects ++ [bottom] else freeRects
  if 0 < right.Width ∧ 0 < right.Height then l1 ++ [right] else l1

/-- `guillotinePack.splitByHeuristic` (guillotine.go): choose the cut
direction from the split method (default: horizontal). -/
def splitByHeuristic (splitMethod : Nat) (freeRect placedRect : Rect)
    (freeRects : List Rect) : List Rect :=
  let w := freeRect.Width - placedRect.Width
  let h := freeRect.Height - placedRect.Height
  let splitHorizontal : Bool :=
    if splitMethod = SplitShorterLeftoverAxis then decide (w ≤ h)
    else if splitMethod = SplitLongerLeftoverAxis then decide (w > h)
    else if splitMethod = SplitMinimizeArea then decide (placedRect.Width * h > w * placedRect.Height)
    else if splitMethod = SplitMaximizeArea then decide (placedRect.Width * h ≤ w * placedRect.Height)
    else if splitMethod = SplitShorterAxis then decide (freeRect.Width ≤ freeRect.Height)
    else if splitMethod = SplitLongerAxis then decide (freeRect.Width > freeRect.Height)
    else true
  splitAlongAxis freeRect placedRect splitHorizontal freeRects

/-- Accumulator of the best packing choice of `guillotinePack.Insert`. -/
structure GBest where
  score : Int
  freeIdx : Nat
  rectIdx : Nat
  flipped : Bool
deriving Repr

/-- Inner loop of the selection in `guillotinePack.Insert`: iterate the sizes
`j = 0, 1, ...` against one free rectangle (index `i`).  A perfect fit takes
the slot unconditionally (`bestScore = math.MinInt`) and `break`s out of this
sizes loop only: the `i = len(p.freeRects)` assignment in the source writes
to the per-iteration copy of a `range` variable and so does not end the outer
loop; later free rectangles are still scanned and a later perfect fit
overwrites the selection, while ordinary score branches cannot beat
`math.MinInt`. -/
def gInner (fit : GFit) (allowFlip : Bool) (padding : Int) (freeRect : Rect)
    (i : Nat) : List Size → Nat → GBest → GBest
  | [], _, best => best
  | size :: rest, j, best =>
    let sz := padSize size padding
    if sz.Width = freeRect.Width ∧ sz.Height = freeRect.Height then
      { score := MinInt, freeIdx := i, rectIdx := j, flipped := false }
    else if allowFlip ∧ sz.Height = freeRect.Width ∧ sz.Width = freeRect.Height then
      { score := MinInt, freeIdx := i, rectIdx := j, flipped := true }
    else if sz.Width ≤ freeRect.Width ∧ sz.Height ≤ freeRect.Height then
      let score := gScore fit sz.Width sz.Height freeRect
      let best2 := if score < best.score then
        { score := score, freeIdx := i, rectIdx := j, flipped := false } else best
      gInner fit allowFlip padding freeRect i rest (j+1) best2
    else if allowFlip ∧ sz.Height ≤ freeRect.Width ∧ sz.Width ≤ freeRect.Height then
      let score := gScore fit sz.Height sz.Width freeRect
      let best2 := if score < best.score then
        { score := score, freeIdx := i, rectIdx := j, flipped := true } else best
      gInner fit allowFlip padding freeRect i rest (j+1) best2
    else gInner fit allowFlip padding freeRect i rest (j+1) best

/-- Outer loop of the selection in `guillotinePack.Insert`: iterate the free
rectangles `i = 0, 1, ...`; every free rectangle is scanned (a perfect fit
does not terminate this loop, see `gInner`). -/
def gOuter (fit : GFit) (allowFlip : Bool) (padding : Int) (sizes : List Size) :
    List Rect → Nat → GBest → GBest
  | [], _, best => best
  | f :: fs, i, best =>
    gOuter fit allowFlip padding sizes fs (i+1)
      (gInner fit allowFlip padding f i sizes 0 best)

/-- One iteration of the packing loop of `guillotinePack.Insert`: `none` when
no rectangle can be placed (the `bestScore == math.MaxInt` break). -/
def gRound (g : GState) (padding : Int) (sizes : List Size) :
    Option (GState × List Size) :=
  let best := gOuter g.fit g.allowFlip padding sizes g.freeRects 0
    { score := MaxInt, freeIdx := 0, rectIdx := 0, flipped := false }
  if best.score = MaxInt then none
  else
    let freeRect := g.freeRects.getD best.freeIdx default
    let size := sizes.getD best.rectIdx default
    let node0 : Rect :=
      { X := freeRect.X, Y := freeRect.Y, Width := size.Width, Height := size.Height,
        ID := size.ID, Flipped := false }
    let node := if best.flipped then
      { node0 with Width := node0.Height, Height := node0.Width, Flipped := true }
      else node0
    let fr1 := splitByHeuristic g.splitMethod freeRect node g.freeRects
    let fr2 := fr1.eraseIdx best.freeIdx
    let sizes2 := sizes.eraseIdx best.rectIdx
    let fr3 := if g.Merge then mergeFreeList fr2 else fr2
    let node2 := unpadRect node padding
    some ({ g with freeRects := fr3, usedArea := g.usedArea + node.Area,
                   packed := g.packed ++ [node2] }, sizes2)

/-- The packing loop of `guillotinePack.Insert`.  Every successful round
removes exactly one element of `sizes`, so `sizes.length` bounds the number
of iterations; the wrapper `gInsert` passes exactly that fuel, making this a
faithful (and executable) rendering of the `for len(sizes) > 0` loop. -/
def gInsertLoop : Nat → GState → Int → List Size → GState × List Size
  | 0, g, _, sizes => (g, sizes)
  | fuel+1, g, padding, sizes =>
    match gRound g padding sizes with
    | none => (g, sizes)
    | some (g2, sizes2) => gInsertLoop fuel g2 padding sizes2

/-- `guillotinePack.Insert` (guillotine.go): returns the final state and the
sizes that could not be packed. -/
def gInsert (g : GState) (padding : Int) (sizes : List Size) : GState × List Size :=
  gInsertLoop sizes.length g padding sizes

/-- `guillotinePack.Reset` (including `algorithmBase.Reset`; the panic guard
for non-positive extents is handled by the callers). -/
def gReset (g : GState) (width height : Int) : GState :=
  { g with maxWidth := width, maxHeight := height, usedArea := 0, packed := [],
           freeRects := [NewRect 0 0 width height] }

/-- `newGuillotine` (guillotine.go). -/
def newGuillotine (width height : Int) (heuristic : Nat) : GState :=
  gReset
    { maxWidth := 0, maxHeight := 0, packed := [], usedArea := 0, allowFlip := false,
      Merge := true, splitMethod := heuristic &&& splitMask, fit := gFitOf heuristic,
      freeRects := [] } width height

/-! ## MaxRects engine (maxrects.go) -/

/-- The `heuristicFunc` value installed by `newMaxRects`. -/
inductive MRFit where
  | bestArea
  | bottomLeft
  | contactPoint
  | bestLong
  | bestShort
deriving DecidableEq, Repr

/-- State of a `maxRects` packer (the `algorithmBase` fields are inlined;
the transient `newLastSize` index lives only inside `splitFreeNode` and is
threaded explicitly there). -/
structure MRState where
  maxWidth : Int
  maxHeight : Int
  packed : List Rect
  usedArea : Int
  allowFlip : Bool
  padding : Int
  fit : MRFit
  newFreeRects : List Rect
  freeRects : List Rect
deriving Repr

/-- Loop of `findPositionBottomLeft` (maxrects.go); the accumulator is
`(bestNode, bestY, bestX)`. -/
def findBLLoop (allowFlip : Bool) (width height : Int) :
    List Rect → Rect × Int × Int → Rect × Int × Int
  | [], acc => acc
  | f :: fs, (node, bestY, bestX) =>
    let acc1 :=
      if f.Width ≥ width ∧ f.Height ≥ height then
        let topSideY := f.Y + height
        if topSideY < bestY ∨ (topSideY = bestY ∧ f.X < bestX) then
          ({ node with X := f.X, Y := f.Y, Width := width, Height := height }, topSideY, f.X)
        else (node, bestY, bestX)
      else (node, bestY, bestX)
    let acc2 :=
      if allowFlip ∧ f.Width ≥ height ∧ f.Height ≥ width then
        let topSideY := f.Y + width
        if topSideY < acc1.2.1 ∨ (topSideY = acc1.2.1 ∧ f.X < acc1.2.2) then
          ({ acc1.1 with X := f.X, Y := f.Y, Width := height, Height := width, Flipped := true }, topSideY, f.X)
        else acc1
      else acc1
    findBLLoop allowFlip width height fs acc2

/-- `findPositionBottomLeft` (maxrects.go). -/
def findPositionBottomLeft (allowFlip : Bool) (width height : Int)
    (freeRects : List Rect) : Rect × Int × Int :=
  findBLLoop allowFlip width height freeRects (default, MaxInt, MaxInt)

/-- Loop of `findPositionBestShortSideFit` (maxrects.go); the accumulator is
`(bestNode, bestShortSideFit, bestLongSideFit)`. -/
def findBSSFLoop (allowFlip : Bool) (width height : Int) :
    List Rect → Rect × Int × Int → Rect × Int × Int
  | [], acc => acc
  | f :: fs, (node, bestShort, bestLong) =>
    let acc1 :=
      if f.Width ≥ width ∧ f.Height ≥ height then
        let shortSideFit := min (goAbs (f.Width - width)) (goAbs (f.Height - height))
        let longSideFit := max (goAbs (f.Width - width)) (goAbs (f.Height - height))
        if shortSideFit < bestShort ∨ (shortSideFit = bestShort ∧ longSideFit < bestLong) then
          ({ node with X := f.X, Y := f.Y, Width := width, Height := height },
           shortSideFit, longSideFit)
        else (node, bestShort, bestLong)
      else (node, bestShort, bestLong)
    let acc2 :=
      if allowFlip ∧ f.Width ≥ height ∧ f.Height ≥ width then
        let flippedShort := min (goAbs (f.Width - height)) (goAbs (f.Height - width))
        let flippedLong := max (goAbs (f.Width - height)) (goAbs (f.Height - width))
        if flippedShort < acc1.2.1 ∨ (flippedShort = acc1.2.1 ∧ flippedLong < acc1.2.2) then
          ({ acc1.1 with X := f.X, Y := f.Y, Width := height, Height := width, Flipped := true }, flippedShort, flippedLong)
        else acc1
      else acc1
    findBSSFLoop allowFlip width height fs acc2

/-- `findPositionBestShortSideFit` (maxrects.go). -/
def findPositionBestShortSideFit (allowFlip : Bool) (width height : Int)
    (freeRects : List Rect) : Rect × Int × Int :=
  findBSSFLoop allowFlip width height freeRects (default, MaxInt, MaxInt)

/-- Loop of `findPositionBestLongSideFit` (maxrects.go); the accumulator is
`(bestNode, bestShortSideFit, bestLongSideFit)` and the primary comparison is
on the long side, but the function returns the short-side score first, as the
source does. -/
def findBLSFLoop (allowFlip : Bool) (width height : Int) :
    List Rect → Rect × Int × Int → Rect × Int × Int
  | [], acc => acc
  | f :: fs, (node, bestShort, bestLong) =>
    let acc1 :=
      if f.Width ≥ width ∧ f.Height ≥ height then
        let shortSideFit := min (goAbs (f.Width - width)) (goAbs (f.Height - height))
        let longSideFit := max (goAbs (f.Width - width)) (goAbs (f.Height - height))
        if longSideFit < bestLong ∨ (longSideFit = bestLong ∧ shortSideFit < bestShort) then
          ({ node with X := f.X, Y := f.Y, Width := width, Height := height },
           shortSideFit, longSideFit)
        else (node, bestShort, bestLong)
      else (node, bestShort, bestLong)
    let acc2 :=
      if allowFlip ∧ f.Width ≥ height ∧ f.Height ≥ width then
        let shortSideFit := min (goAbs (f.Width - height)) (goAbs (f.Height - width))
        let longSideFit := max (goAbs (f.Width - height)) (goAbs (f.Height - width))
        if longSideFit < acc1.2.2 ∨ (longSideFit = acc1.2.2 ∧ shortSideFit < acc1.2.1) then
          ({ acc1.1 with X := f.X, Y := f.Y, Width := height, Height := width, Flipped := true }, shortSideFit, longSideFit)
        else acc1
      else acc1
    findBLSFLoop allowFlip width height fs acc2

/-- `findPositionBestLongSideFit` (maxrects.go). -/
def findPositionBestLongSideFit (allowFlip : Bool) (width height : Int)
    (freeRects : List Rect) : Rect × Int × Int :=
  findBLSFLoop allowFlip width height freeRects (default, MaxInt, MaxInt)

/-- Loop of `findPositionBestAreaFit` (maxrects.go); the accumulator is
`(bestNode, bestAreaFit, bestShortSideFit)`. -/
def findBAFLoop (allowFlip : Bool) (width height : Int) :
    List Rect → Rect × Int × Int → Rect × Int × Int
  | [], acc => acc
  | f :: fs, (node, bestArea, bestShort) =>
    let areaFit := f.Width * f.Height - width * height
    let acc1 :=
      if f.Width ≥ width ∧ f.Height ≥ height then
        let shortSideFit := min (goAbs (f.Width - width)) (goAbs (f.Height - height))
        if areaFit < bestArea ∨ (areaFit = bestArea ∧ shortSideFit < bestShort) then
          ({ node with X := f.X, Y := f.Y, Width := width, Height := height },
           areaFit, shortSideFit)
        else (node, bestArea, bestShort)
      else (node, bestArea, bestShort)
    let acc2 :=
      if allowFlip ∧ f.Width ≥ height ∧ f.Height ≥ width then
        let shortSideFit := min (goAbs (f.Width - height)) (goAbs (f.Height - width))
        if areaFit < acc1.2.1 ∨ (areaFit = acc1.2.1 ∧ shortSideFit < acc1.2.2) then
          ({ acc1.1 with X := f.X, Y := f.Y, Width := height, Height := width, Flipped := true }, areaFit, shortSideFit)
        else acc1
      else acc1
    findBAFLoop allowFlip width height fs acc2

/-- `findPositionBestAreaFit` (maxrects.go). -/
def findPositionBestAreaFit (allowFlip : Bool) (width height : Int)
    (freeRects : List Rect) : Rect × Int × Int :=
  findBAFLoop allowFlip width height freeRects (default, MaxInt, MaxInt)

/-- `maxRects.commonIntervalLength` (maxrects.go). -/
def commonIntervalLength (i1start i1end i2start i2end : Int) : Int :=
  if i1end < i2start ∨ i2end < i1start then 0
  else min i1end i2end - max i1start i2start

/-- Loop of `maxRects.contactPointScoreNode` over the packed rectangles. -/
def contactScoreLoop (x y width height : Int) : List Rect → Int → Int
  | [], score => score
  | used :: rest, score =>
    let s1 := if used.X = x + width ∨ used.X + used.Width = x then
        commonIntervalLength used.Y (used.Y + used.Height) y (y + height) else 0
    let s2 := if used.Y = y + height ∨ used.Y + used.Height = y then
        commonIntervalLength used.X (used.X + used.Width) x (x + width) else 0
    contactScoreLoop x y width height rest (score + s1 + s2)

/-- `maxRects.contactPointScoreNode` (maxrects.go). -/
def contactPointScoreNode (maxW maxH : Int) (packed : List Rect)
    (x y width height : Int) : Int :=
  let score := (if x = 0 ∨ x + width = maxW then height else 0) +
               (if y = 0 ∨ y + height = maxH then width else 0)
  contactScoreLoop x y width height packed score

/-- Loop of `findPositionContactPoint` (maxrects.go); the accumulator is
`(bestNode, bestContactScore)`. -/
def findCPLoop (allowFlip : Bool) (maxW maxH : Int) (packed : List Rect)
    (width height : Int) : List Rect → Rect × Int → Rect × Int
  | [], acc => acc
  | f :: fs, (node, bestScore) =>
    let acc1 :=
      if f.Width ≥ width ∧ f.Height ≥ height then
        let score := contactPointScoreNode maxW maxH packed f.X f.Y width height
        if score > bestScore then
          ({ node with X := f.X, Y := f.Y, Width := width, Height := height }, score)
        else (node, bestScore)
      else (node, bestScore)
    let acc2 :=
      if allowFlip ∧ f.Width ≥ height ∧ f.Height ≥ width then
        let score := contactPointScoreNode maxW maxH packed f.X f.Y height width
        if score > acc1.2 then
          ({ acc1.1 with X := f.X, Y := f.Y, Width := height, Height := width, Flipped := true }, score)
        else acc1
      else acc1
    findCPLoop allowFlip maxW maxH packed width height fs acc2

/-- `findPositionContactPoint` (maxrects.go); returns `math.MaxInt` as the
(unused) secondary score. -/
def findPositionContactPoint (allowFlip : Bool) (maxW maxH : Int)
    (packed : List Rect) (width height : Int) (freeRects : List Rect) :
    Rect × Int × Int :=
  let acc := findCPLoop allowFlip maxW maxH packed width height freeRects (default, -1)
  (acc.1, acc.2, MaxInt)

/-- Dispatch of the installed `findNode` closure (`newMaxRects`). -/
def mrFindNode (st : MRState) (width height : Int) : Rect × Int × Int :=
  match st.fit with
  | .bestArea => findPositionBestAreaFit st.allowFlip width height st.freeRects
  | .bottomLeft => findPositionBottomLeft st.allowFlip width height st.freeRects
  | .contactPoint =>
    findPositionContactPoint st.allowFlip st.maxWidth st.maxHeight st.packed
      width height st.freeRects
  | .bestLong => findPositionBestLongSideFit st.allowFlip width height st.freeRects
  | .bestShort => findPositionBestShortSideFit st.allowFlip width height st.freeRects

/-- `maxRects.scoreRect` (maxrects.go): a node of height 0 cannot be placed,
so its scores are forced to `math.MaxInt`. -/
def mrScoreRect (st : MRState) (width height : Int) : Rect × Int × Int :=
  let r := mrFindNode st width height
  if r.1.Height = 0 then (r.1, MaxInt, MaxInt) else r

/-- Loop of `maxRects.insertNewFreeRectangle` (maxrects.go).  `L` is the
`newLastSize` field: the first `L` entries are free rectangles created by the
splits of earlier free nodes within the current `placeRect`, and the entries
beyond are the strips of the split in progress.  Every iteration decreases
`L - i` by exactly one, so the wrapper's fuel `L` is exact: the fuel-0 case
coincides with the loop-exit case `i >= L`. -/
def insertNewFreeRectLoop : Nat → List Rect → Nat → Nat → Rect → List Rect × Nat
  | 0, nfr, L, _, r => (nfr ++ [r], L)
  | fuel+1, nfr, L, i, r =>
    if i < L then
      let cur := nfr.getD i default
      if cur.ContainsRect r then (nfr, L)
      else if r.ContainsRect cur then
        let L2 := L - 1
        let nfr1 := nfr.set i (nfr.getD L2 default)
        let nfr2 := (nfr1.set L2 (nfr1.getD (nfr1.length - 1) default)).dropLast
        insertNewFreeRectLoop fuel nfr2 L2 i r
      else insertNewFreeRectLoop fuel nfr L (i+1) r
    else (nfr ++ [r], L)

/-- `maxRects.insertNewFreeRectangle` (maxrects.go): returns the updated
`newFreeRects` list together with the updated `newLastSize`. -/
def insertNewFreeRect (nfr : List Rect) (L : Nat) (r : Rect) : List Rect × Nat :=
  insertNewFreeRectLoop L nfr L 0 r

/-- `maxRects.splitFreeNode` (maxrects.go): decompose `freeNode` around
`usedNode` into up to four strips, feeding each through
`insertNewFreeRectangle`; the Boolean reports whether the free node overlapped
the used node (and must be discarded by the caller). -/
def splitFreeNode (freeNode usedNode : Rect) (nfr : List Rect) : Bool × List Rect :=
  if usedNode.X ≥ freeNode.X + freeNode.Width ∨ usedNode.X + usedNode.Width ≤ freeNode.X ∨
     usedNode.Y ≥ freeNode.Y + freeNode.Height ∨ usedNode.Y + usedNode.Height ≤ freeNode.Y then
    (false, nfr)
  else
    let st0 : List Rect × Nat := (nfr, nfr.length)
    let st1 :=
      if usedNode.X < freeNode.X + freeNode.Width ∧ usedNode.X + usedNode.Width > freeNode.X then
        let stA :=
          if usedNode.Y > freeNode.Y ∧ usedNode.Y < freeNode.Y + freeNode.Height then
            insertNewFreeRect st0.1 st0.2 { freeNode with Height := usedNode.Y - freeNode.Y }
          else st0
        if usedNode.Y + usedNode.Height < freeNode.Y + freeNode.Height then
          insertNewFreeRect stA.1 stA.2
            { freeNode with Y := usedNode.Y + usedNode.Height,
                            Height := freeNode.Y + freeNode.Height - (usedNode.Y + usedNode.Height) }
        else stA
      else st0
    let st2 :=
      if usedNode.Y < freeNode.Y + freeNode.Height ∧ usedNode.Y + usedNode.Height > freeNode.Y then
        let stC :=
          if usedNode.X > freeNode.X ∧ usedNode.X < freeNode.X + freeNode.Width then
            insertNewFreeRect st1.1 st1.2 { freeNode with Width := usedNode.X - freeNode.X }
          else st1
        if usedNode.X + usedNode.Width < freeNode.X + freeNode.Width then
          insertNewFreeRect stC.1 stC.2
            { freeNode with X := usedNode.X + usedNode.Width,
                            Width := freeNode.X + freeNode.Width - (usedNode.X + usedNode.Width) }
        else stC
      else st1
    (true, st2.1)

/-- Loop of `maxRects.placeRect` (maxrects.go): split every free rectangle
against the placed node, swap-removing the ones that overlapped.  Every
iteration decreases `free.length - i` by exactly one, so the wrapper's fuel
`free.length` is exact. -/
def placeLoop : Nat → List Rect → Rect → Nat → List Rect → List Rect × List Rect
  | 0, free, _, _, nfr => (free, nfr)
  | fuel+1, free, node, i, nfr =>
    if i < free.length then
      let f := free.getD i default
      let r := splitFreeNode f node nfr
      if r.1 then
        placeLoop fuel ((free.set i (free.getD (free.length - 1) default)).dropLast) node i r.2
      else placeLoop fuel free node (i+1) r.2
    else (free, nfr)

/-- Inner loop of `maxRects.pruneFreeList` (maxrects.go): swap-remove from the
new free rectangles every entry contained in the old free rectangle `f`.
Every iteration decreases `nfr.length - j` by exactly one, so the wrapper's
fuel `nfr.length` is exact. -/
def pruneInnerLoop : Nat → Rect → List Rect → Nat → List Rect
  | 0, _, nfr, _ => nfr
  | fuel+1, f, nfr, j =>
    if j < nfr.length then
      if f.ContainsRect (nfr.getD j default) then
        pruneInnerLoop fuel f ((nfr.set j (nfr.getD (nfr.length - 1) default)).dropLast) j
      else pruneInnerLoop fuel f nfr (j+1)
    else nfr

/-- One outer iteration of `maxRects.pruneFreeList` for a fixed old free
rectangle. -/
def pruneInner (f : Rect) (nfr : List Rect) : List Rect :=
  pruneInnerLoop nfr.length f nfr 0

/-- Outer loop of `maxRects.pruneFreeList`: the old free-rectangle list is not
modified while pruning, so it is consumed structurally. -/
def pruneOuterGo : List Rect → List Rect → List Rect
  | [], nfr => nfr
  | f :: fs, nfr => pruneOuterGo fs (pruneInner f nfr)

/-- `maxRects.pruneFreeList` (maxrects.go): prune the new free rectangles
against the old ones, then merge the groups and clear the new list. -/
def pruneFreeList (free nfr : List Rect) : List Rect × List Rect :=
  (free ++ pruneOuterGo free nfr, [])

/-- `maxRects.placeRect` (maxrects.go). -/
def placeRect (st : MRState) (node : Rect) : MRState :=
  let r := placeLoop st.freeRects.length st.freeRects node 0 st.newFreeRects
  let pr := pruneFreeList r.1 r.2
  { st with freeRects := pr.1, newFreeRects := pr.2,
            usedArea := st.usedArea + node.Area }

/-- Selection loop of `maxRects.Insert` (maxrects.go): score every remaining
size (padded) and keep the lexicographically best `(score1, score2)`.  The
accumulator is `(bestNode, bestScore1, bestScore2, bestRectIndex)`, where
`none` models the `-1` sentinel. -/
def mrSelect (st : MRState) : List Size → Nat → Rect × Int × Int × Option Nat →
    Rect × Int × Int × Option Nat
  | [], _, acc => acc
  | size :: rest, i, (bestNode, b1, b2, bidx) =>
    let sz := padSize size st.padding
    let r := mrScoreRect st sz.Width sz.Height
    if r.2.1 < b1 ∨ (r.2.1 = b1 ∧ r.2.2 < b2) then
      mrSelect st rest (i+1) ({ r.1 with ID := sz.ID }, r.2.1, r.2.2, some i)
    else mrSelect st rest (i+1) (bestNode, b1, b2, bidx)

/-- One iteration of the packing loop of `maxRects.Insert`: `none` when no
size has a scoring placement (the `bestRectIndex == -1` break). -/
def mrRound (st : MRState) (sizes : List Size) : Option (MRState × List Size) :=
  match mrSelect st sizes 0 (default, MaxInt, MaxInt, none) with
  | (_, _, _, none) => none
  | (bestNode, _, _, some bi) =>
    let st2 := placeRect st bestNode
    let node2 := unpadRect bestNode st.padding
    let st3 := { st2 with packed := st2.packed ++ [node2] }
    some (st3, (sizes.set bi (sizes.getD (sizes.length - 1) default)).dropLast)

/-- The packing loop of `maxRects.Insert`; as with the other engines, every
successful round removes exactly one size, so `sizes.length` fuel is exact. -/
def mrInsertLoop : Nat → MRState → List Size → MRState × List Size
  | 0, st, sizes => (st, sizes)
  | fuel+1, st, sizes =>
    match mrRound st sizes with
    | none => (st, sizes)
    | some (st2, sizes2) => mrInsertLoop fuel st2 sizes2

/-- `maxRects.Insert` (maxrects.go). -/
def mrInsert (st : MRState) (sizes : List Size) : MRState × List Size :=
  mrInsertLoop sizes.length st sizes

/-- `maxRects.Reset` (maxrects.go), including `algorithmBase.Reset`; the
panic guard for non-positive extents is handled by the callers. -/
def mrReset (st : MRState) (width height : Int) : MRState :=
  { st with maxWidth := width, maxHeight := height, usedArea := 0, packed := [],
            newFreeRects := [], freeRects := [NewRect 0 0 width height] }

/-- Bin-fit selection of `newMaxRects` (default `BestShortSideFit`). -/
def mrFitOf (heuristic : Nat) : MRFit :=
  let f := heuristic &&& fitMask
  if f = BestAreaFit then .bestArea
  else if f = BottomLeft then .bottomLeft
  else if f = ContactPoint then .contactPoint
  else if f = BestLongSideFit then .bestLong
  else .bestShort

/-- `newMaxRects` (maxrects.go). -/
def newMaxRects (width height : Int) (heuristic : Nat) : MRState :=
  mrReset
    { maxWidth := 0, maxHeight := 0, packed := [], usedArea := 0, allowFlip := false,
      padding := 0, fit := mrFitOf heuristic, newFreeRects := [], freeRects := [] }
    width height

/-! ## Skyline engine (skyline.go) -/

/-- `skylineNode` (skyline.go). -/
structure SkyNode where
  X : Int
  Y : Int
  Width : Int
deriving DecidableEq, Repr

instance : Inhabited SkyNode := ⟨⟨0, 0, 0⟩⟩

/-- State of a `skylinePack` (the `algorithmBase` fields are inlined).  The
`wasteMap` is the dedicated `guillotinePack` instance (present only for the
`MinWaste` heuristic). -/
structure SkyState where
  maxWidth : Int
  maxHeight : Int
  packed : List Rect
  usedArea : Int
  allowFlip : Bool
  padding : Int
  levelSelect : Nat
  skyline : List SkyNode
  wasteMap : Option GState
deriving Repr

/-- The walk of `skylinePack.testFit` (skyline.go) over the segments starting
at the candidate index, accumulating the resting `y`.  The Go loop would
index past the end of the slice (a panic) if the segment widths ran out while
`widthLeft > 0`; that case returns `none` here and is unreachable under the
covering invariant proved below. -/
def fitWalk : List SkyNode → Int → Int → Int → Int → Option Int
  | [], widthLeft, y, _, _ => if widthLeft ≤ 0 then some y else none
  | s :: rest, widthLeft, y, height, maxHeight =>
    if widthLeft ≤ 0 then some y
    else
      let y2 := max y s.Y
      if y2 + height > maxHeight then none
      else fitWalk rest (widthLeft - s.Width) y2 height maxHeight

/-- `skylinePack.testFit` (skyline.go): `some y` is the Go `true` result with
the resting height written through the out-parameter. -/
def testFit (sk : List SkyNode) (maxW maxH : Int) (index : Nat)
    (width height : Int) : Option Int :=
  match sk.get? index with
  | none => none
  | some s =>
    if s.X + width > maxW then none
    else fitWalk (sk.drop index) width s.Y height maxH

/-- The walk of `skylinePack.computeWaste` (skyline.go). -/
def wasteWalk : List SkyNode → Int → Int → Int → Int
  | [], _, _, _ => 0
  | s :: rest, rectLeft, rectRight, y =>
    if s.X < rectRight then
      if s.X ≥ rectRight ∨ s.X + s.Width ≤ rectLeft then 0
      else (min rectRight (s.X + s.Width) - s.X) * (y - s.Y) +
        wasteWalk rest rectLeft rectRight y
    else 0

/-- `skylinePack.computeWaste` (skyline.go); the `height` parameter of the
source is unused there and omitted here. -/
def computeWaste (sk : List SkyNode) (index : Nat) (width y : Int) : Int :=
  match sk.get? index with
  | none => 0
  | some s => wasteWalk (sk.drop index) s.X (s.X + width) y

/-- `skylinePack.testFitWithWaste` (skyline.go): `some (y, wastedArea)`. -/
def testFitWithWaste (sk : List SkyNode) (maxW maxH : Int) (index : Nat)
    (width height : Int) : Option (Int × Int) :=
  match testFit sk maxW maxH index width height with
  | none => none
  | some y => some (y, computeWaste sk index width y)

/-- The walk of `skylinePack.addWaste` (skyline.go), producing the rectangles
deposited into the waste map, in order. -/
def wasteRectsWalk : List SkyNode → Int → Int → Int → List Rect
  | [], _, _, _ => []
  | s :: rest, rectLeft, rectRight, y =>
    if s.X < rectRight then
      if s.X ≥ rectRight ∨ s.X + s.Width ≤ rectLeft then []
      else { X := s.X, Y := s.Y, Width := min rectRight (s.X + s.Width) - s.X,
             Height := y - s.Y, ID := 0, Flipped := false } ::
        wasteRectsWalk rest rectLeft rectRight y
    else []

/-- `skylinePack.addWaste` (skyline.go) as the list of deposited rectangles;
the `height` parameter of the source is unused there and omitted here. -/
def addWasteRects (sk : List SkyNode) (index : Nat) (width y : Int) : List Rect :=
  match sk.get? index with
  | none => []
  | some s => wasteRectsWalk (sk.drop index) s.X (s.X + width) y

/-- The shrink/delete loop of `skylinePack.addLevel` (skyline.go) on the
segments behind the freshly inserted node; `prevEnd` is the right edge of the
inserted node (constant through the loop because deletions keep the inserted
node as the predecessor). -/
def consume (prevEnd : Int) : List SkyNode → List SkyNode
  | [] => []
  | s :: rest =>
    if s.X < prevEnd then
      let shrink := prevEnd - s.X
      if s.Width - shrink ≤ 0 then consume prevEnd rest
      else { X := s.X + shrink, Y := s.Y, Width := s.Width - shrink } :: rest
    else s :: rest

/-- The running pass of `skylinePack.mergeSkylines` (skyline.go): `cur` is the
segment at the current index, absorbing equal-`Y` successors. -/
def mergeSky (cur : SkyNode) : List SkyNode → List SkyNode
  | [] => [cur]
  | b :: rest =>
    if cur.Y = b.Y then mergeSky { cur with Width := cur.Width + b.Width } rest
    else cur :: mergeSky b rest

/-- `skylinePack.mergeSkylines` (skyline.go). -/
def mergeSkylines : List SkyNode → List SkyNode
  | [] => []
  | x :: xs => mergeSky x xs

/-- `skylinePack.addLevel` (skyline.go): deposit waste (MinWaste only),
insert the new segment at `index`, shrink/delete overlapped successors and
merge equal-height neighbours. -/
def addLevel (st : SkyState) (index : Nat) (rect : Rect) : SkyState :=
  let st1 :=
    match st.wasteMap with
    | none => st
    | some g => { st with wasteMap := some { g with
        freeRects := g.freeRects ++ addWasteRects st.skyline index rect.Width rect.Y } }
  let newNode : SkyNode := { X := rect.X, Y := rect.Y + rect.Height, Width := rect.Width }
  let sk2 := st.skyline.take index ++
    newNode :: consume (newNode.X + newNode.Width) (st.skyline.drop index)
  { st1 with skyline := mergeSkylines sk2 }

/-- Loop of `skylinePack.findBottomLeft` (skyline.go); the accumulator is
`(bestNode, bestHeight, bestWidth, bestIndex)` and `rem` drives the recursion
over the indices `i`. -/
def findBLSkyLoop (sk : List SkyNode) (maxW maxH : Int) (allowFlip : Bool)
    (width height : Int) : List SkyNode → Nat → Rect × Int × Int × Option Nat →
    Rect × Int × Int × Option Nat
  | [], _, acc => acc
  | _ :: rem, i, (node, bestHeight, bestWidth, bidx) =>
    let segWidth := (sk.getD i default).Width
    let acc1 :=
      match testFit sk maxW maxH i width height with
      | some y =>
        if y + height < bestHeight ∨ (y + height = bestHeight ∧ segWidth < bestWidth) then
          ({ node with X := (sk.getD i default).X, Y := y, Width := width, Height := height },
           y + height, segWidth, some i)
        else (node, bestHeight, bestWidth, bidx)
      | none => (node, bestHeight, bestWidth, bidx)
    let acc2 :=
      if allowFlip then
        match testFit sk maxW maxH i height width with
        | some y =>
          if y + width < acc1.2.1 ∨ (y + width = acc1.2.1 ∧ segWidth < acc1.2.2.1) then
            ({ acc1.1 with X := (sk.getD i default).X, Y := y, Width := height, Height := width, Flipped := true }, y + width, segWidth, some i)
          else acc1
        | none => acc1
      else acc1
    findBLSkyLoop sk maxW maxH allowFlip width height rem (i+1) acc2

/-- `skylinePack.findBottomLeft` (skyline.go). -/
def findBLSky (sk : List SkyNode) (maxW maxH : Int) (allowFlip : Bool)
    (width height : Int) : Rect × Int × Int × Option Nat :=
  findBLSkyLoop sk maxW maxH allowFlip width height sk 0 (default, MaxInt, MaxInt, none)

/-- Loop of `skylinePack.findMinWaste` (skyline.go); the accumulator is
`(bestNode, bestHeight, bestWastedArea, bestIndex)`. -/
def findMWLoop (sk : List SkyNode) (maxW maxH : Int) (allowFlip : Bool)
    (width height : Int) : List SkyNode → Nat → Rect × Int × Int × Option Nat →
    Rect × Int × Int × Option Nat
  | [], _, acc => acc
  | _ :: rem, i, (node, bestHeight, bestWasted, bidx) =>
    let acc1 :=
      match testFitWithWaste sk maxW maxH i width height with
      | some r =>
        if r.2 < bestWasted ∨ (r.2 = bestWasted ∧ r.1 + height < bestHeight) then
          ({ node with X := (sk.getD i default).X, Y := r.1, Width := width, Height := height },
           r.1 + height, r.2, some i)
        else (node, bestHeight, bestWasted, bidx)
      | none => (node, bestHeight, bestWasted, bidx)
    let acc2 :=
      if allowFlip then
        match testFitWithWaste sk maxW maxH i height width with
        | some r =>
          if r.2 < acc1.2.2.1 ∨ (r.2 = acc1.2.2.1 ∧ r.1 + width < acc1.2.1) then
            ({ acc1.1 with X := (sk.getD i default).X, Y := r.1, Width := height, Height := width, Flipped := true }, r.1 + width, r.2, some i)
          else acc1
        | none => acc1
      else acc1
    findMWLoop sk maxW maxH allowFlip width height rem (i+1) acc2

/-- `skylinePack.findMinWaste` (skyline.go). -/
def findMWSky (sk : List SkyNode) (maxW maxH : Int) (allowFlip : Bool)
    (width height : Int) : Rect × Int × Int × Option Nat :=
  findMWLoop sk maxW maxH allowFlip width height sk 0 (default, MaxInt, MaxInt, none)

/-- Selection loop of `skylinePack.Insert` (skyline.go): the accumulator is
`(bestNode, bestScore1, bestScore2, bestBinIndex, bestSizeIndex)`.  For the
MinWaste heuristic `score1` is the wasted area and `score2` the resting
height (the out-parameters are passed swapped in the source). -/
def skySelect (st : SkyState) : List Size → Nat →
    Rect × Int × Int × Option Nat × Option Nat →
    Rect × Int × Int × Option Nat × Option Nat
  | [], _, acc => acc
  | size :: rest, i, (bestNode, b1, b2, bbin, bsize) =>
    let sz := padSize size st.padding
    let cand :=
      if st.levelSelect = MinWaste then
        let r := findMWSky st.skyline st.maxWidth st.maxHeight st.allowFlip sz.Width sz.Height
        (r.1, r.2.2.1, r.2.1, r.2.2.2)
      else
        let r := findBLSky st.skyline st.maxWidth st.maxHeight st.allowFlip sz.Width sz.Height
        (r.1, r.2.1, r.2.2.1, r.2.2.2)
    let acc2 :=
      if cand.1.Height ≠ 0 then
        if cand.2.1 < b1 ∨ (cand.2.1 = b1 ∧ cand.2.2.1 < b2) then
          (cand.1, cand.2.1, cand.2.2.1, cand.2.2.2, some i)
        else (bestNode, b1, b2, bbin, bsize)
      else (bestNode, b1, b2, bbin, bsize)
    skySelect st rest (i+1) acc2

/-- One iteration of the packing loop of `skylinePack.Insert`: `none` when no
size can be placed (the `bestSizeIndex == -1` break). -/
def skyRound (st : SkyState) (sizes : List Size) : Option (SkyState × List Size) :=
  match skySelect st sizes 0 (default, MaxInt, MaxInt, none, none) with
  | (node, _, _, some binIdx, some sizeIdx) =>
    let st2 := addLevel st binIdx node
    let st3 := { st2 with usedArea := st2.usedArea + node.Area }
    let node2 := { unpadRect node st.padding with ID := (sizes.getD sizeIdx default).ID }
    some ({ st3 with packed := st3.packed ++ [node2] }, sizes.eraseIdx sizeIdx)
  | _ => none

/-- The packing loop of `skylinePack.Insert`; exact fuel as for the other
engines. -/
def skyInsertLoop : Nat → SkyState → List Size → SkyState × List Size
  | 0, st, sizes => (st, sizes)
  | fuel+1, st, sizes =>
    match skyRound st sizes with
    | none => (st, sizes)
    | some (st2, sizes2) => skyInsertLoop fuel st2 sizes2

/-- `skylinePack.Insert` (skyline.go). -/
def skyInsert (st : SkyState) (sizes : List Size) : SkyState × List Size :=
  skyInsertLoop sizes.length st sizes

/-- `skylinePack.Reset` (skyline.go), including `algorithmBase.Reset`. -/
def skyReset (st : SkyState) (width height : Int) : SkyState :=
  { st with maxWidth := width, maxHeight := height, usedArea := 0, packed := [],
            skyline := [{ X := 0, Y := 0, Width := width }],
            wasteMap := st.wasteMap.map (fun g => gReset g width height) }

/-- `newSkyline` (skyline.go). -/
def newSkyline (width height : Int) (heuristic : Nat) : SkyState :=
  let mw := heuristic &&& fitMask = MinWaste
  skyReset
    { maxWidth := 0, maxHeight := 0, packed := [], usedArea := 0, allowFlip := false,
      padding := 0,
      levelSelect := if mw then MinWaste else BottomLeft,
      skyline := [],
      wasteMap := if mw then some (newGuillotine width height BestAreaFit) else none }
    width height

/-! ## Sort comparators (sorting.go) -/

/-- `cmp.Compare` for `Int`. -/
def goCompare (x y : Int) : Int := if x < y then -1 else if x > y then 1 else 0

/-- `SortArea` (sorting.go): descending by area. -/
def SortArea (a b : Size) : Int := goCompare b.Area a.Area

/-- `SortPerimeter` (sorting.go): descending by perimeter. -/
def SortPerimeter (a b : Size) : Int := goCompare b.Perimeter a.Perimeter

/-- `SortDiff` (sorting.go): descending by width/height difference. -/
def SortDiff (a b : Size) : Int :=
  goCompare (goAbs (b.Width - b.Height)) (goAbs (a.Width - a.Height))

/-- `SortMinSide` (sorting.go): descending by shortest side. -/
def SortMinSide (a b : Size) : Int := goCompare b.MinSide a.MinSide

/-- `SortMaxSide` (sorting.go): descending by longest side. -/
def SortMaxSide (a b : Size) : Int := goCompare b.MaxSide a.MaxSide

/-- `slices.SortFunc` on sizes: sorts by the comparator.  The Go sort is an
unstable pattern-defeating quicksort; it is modelled by insertion sort, which
likewise produces a permutation ordered by the comparator. -/
def goSort (f : Size → Size → Int) (l : List Size) : List Size :=
  List.insertionSort (fun a b => f a b ≤ 0) l

/-! ## Packer orchestrator (packer.go) -/

/-- The `packAlgorithm` interface value held by a `Packer`. -/
inductive AlgoState where
  | mr : MRState → AlgoState
  | sky : SkyState → AlgoState
  | guil : GState → AlgoState

/-- `packAlgorithm.Rects`. -/
def algoRects : AlgoState → List Rect
  | .mr st => st.packed
  | .sky st => st.packed
  | .guil st => st.packed

/-- `packAlgorithm.UsedArea`. -/
def algoUsedArea : AlgoState → Int
  | .mr st => st.usedArea
  | .sky st => st.usedArea
  | .guil st => st.usedArea

/-- `packAlgorithm.MaxSize`. -/
def algoMaxSize : AlgoState → Size
  | .mr st => NewSize st.maxWidth st.maxHeight
  | .sky st => NewSize st.maxWidth st.maxHeight
  | .guil st => NewSize st.maxWidth st.maxHeight

/-- `packAlgorithm.AllowFlip`. -/
def algoAllowFlip (enabled : Bool) : AlgoState → AlgoState
  | .mr st => .mr { st with allowFlip := enabled }
  | .sky st => .sky { st with allowFlip := enabled }
  | .guil st => .guil { st with allowFlip := enabled }

/-- `packAlgorithm.Insert` as invoked by the packer, which supplies its
`Padding` field; the MaxRects and Skyline engines read the padding from their
shared state, so the packer's value is installed there first. -/
def algoInsert (a : AlgoState) (padding : Int) (sizes : List Size) :
    AlgoState × List Size :=
  match a with
  | .mr st =>
    let r := mrInsert { st with padding := padding } sizes
    (.mr r.1, r.2)
  | .sky st =>
    let r := skyInsert { st with padding := padding } sizes
    (.sky r.1, r.2)
  | .guil st =>
    let r := gInsert st padding sizes
    (.guil r.1, r.2)

/-- `packAlgorithm.Reset` without the panic guard (callers check extents). -/
def algoReset (a : AlgoState) (width height : Int) : AlgoState :=
  match a with
  | .mr st => .mr (mrReset st width height)
  | .sky st => .sky (skyReset st width height)
  | .guil st => .guil (gReset st width height)

/-- `packAlgorithm.Reset` with the `algorithmBase.Reset` panic guard:
`none` models the panic for non-positive extents. -/
def algoResetChecked (a : AlgoState) (width height : Int) : Option AlgoState :=
  if width ≤ 0 ∨ height ≤ 0 then none else some (algoReset a width height)

/-- `Packer` (packer.go). -/
structure Packer where
  unpacked : List Size
  algo : AlgoState
  sortFunc : Option (Size → Size → Int)
  sortRev : Bool
  Padding : Int
  Online : Bool

/-- Loop of `Packer.Size` (packer.go). -/
def pSizeLoop (pad : Int) : List Rect → Size → Size
  | [], size => size
  | r :: rest, size =>
    pSizeLoop pad rest
      { size with Width := max size.Width (r.Right + pad),
                  Height := max size.Height (r.Bottom + pad) }

/-- `Packer.Size` (packer.go): minimum bounding size of the packing, plus
padding on the right/bottom edge; `{0, 0}` over an empty packing. -/
def pSize (p : Packer) : Size :=
  pSizeLoop p.Padding (algoRects p.algo) ⟨0, 0, 0⟩

/-- `Packer.Insert` (packer.go). -/
def pInsert (p : Packer) (sizes : List Size) : Packer × List Size :=
  if p.Online then
    let r := algoInsert p.algo p.Padding sizes
    ({ p with algo := r.1 }, r.2)
  else
    ({ p with unpacked := p.unpacked ++ sizes }, p.unpacked ++ sizes)

/-- `Packer.Pack` (packer.go). -/
def pPack (p : Packer) : Packer × Bool :=
  if p.unpacked = [] then (p, true)
  else
    let sorted :=
      match p.sortFunc with
      | some f => if p.sortRev then goSort (fun a b => f b a) p.unpacked
                  else goSort f p.unpacked
      | none => if p.sortRev then p.unpacked.reverse else p.unpacked
    let r := algoInsert p.algo p.Padding sorted
    if r.2 = [] then ({ p with algo := r.1, unpacked := [] }, true)
    else ({ p with algo := r.1, unpacked := r.2 }, false)

/-- `Packer.Clear` (packer.go): `none` models the (unreachable in practice)
reset panic. -/
def pClear (p : Packer) : Option Packer :=
  let size := algoMaxSize p.algo
  (algoResetChecked p.algo size.Width size.Height).map
    (fun a => { p with algo := a, unpacked := [] })

/-- `Packer.RepackAll` (packer.go): gather the packed sizes into staging,
reset the algorithm to the current bounding size and re-run `Pack`; `none`
models the reset panic on a non-positive bounding size. -/
def pRepackAll (p : Packer) : Option (Packer × Bool) :=
  let staged := p.unpacked ++ (algoRects p.algo).map (fun r => (⟨r.Width, r.Height, r.ID⟩ : Size))
  let p1 := { p with unpacked := staged }
  let size := pSize p1
  (algoResetChecked p1.algo size.Width size.Height).map
    (fun a => pPack { p1 with algo := a })

/-- `Packer.Sorter` (packer.go). -/
def pSorter (p : Packer) (compare : Option (Size → Size → Int)) (reverse : Bool) :
    Packer :=
  { p with sortFunc := compare, sortRev := reverse }

/-- `Packer.AllowFlip` (packer.go). -/
def pAllowFlip (p : Packer) (enabled : Bool) : Packer :=
  { p with algo := algoAllowFlip enabled p.algo }

/-- `NewPacker` (packer.go): `none` models both the construction panic on an
unknown algorithm nibble and the reset panic on non-positive extents. -/
def pNewPacker (maxWidth maxHeight : Int) (heuristic : Nat) : Option Packer :=
  if maxWidth ≤ 0 ∨ maxHeight ≤ 0 then none
  else
    let t := heuristic &&& typeMask
    let mk : AlgoState → Packer := fun a =>
      { unpacked := [], algo := a, sortFunc := some SortArea, sortRev := false,
        Padding := 0, Online := false }
    if t = MaxRects then some (mk (.mr (newMaxRects maxWidth maxHeight heuristic)))
    else if t = Skyline then some (mk (.sky (newSkyline maxWidth maxHeight heuristic)))
    else if t = Guillotine then some (mk (.guil (newGuillotine maxWidth maxHeight heuristic)))
    else none

/-! ## Counting lemmas: every packing round appends exactly one packed
rectangle and consumes at most one staged size. -/

theorem length_dropLast_ge (l : List α) : l.length - 1 ≤ l.dropLast.length := by
  simp [List.length_dropLast]

theorem length_eraseIdx_ge (l : List α) (i : Nat) : l.length - 1 ≤ (l.eraseIdx i).length := by
  rw [List.length_eraseIdx]; split <;> omega

theorem mrRound_packed (st : MRState) (sizes : List Size) (r : MRState × List Size)
    (hr : mrRound st sizes = some r) :
    r.1.packed.length = st.packed.length + 1 ∧ sizes.length ≤ r.2.length + 1 := by
  unfold mrRound at hr
  split at hr
  · exact absurd hr (by simp)
  · rename_i bestNode s1 s2 bi heq
    simp only [Option.some.injEq] at hr
    subst hr
    refine ⟨by simp [placeRect], ?_⟩
    have := length_dropLast_ge (sizes.set bi (sizes.getD (sizes.length - 1) default))
    simp only [List.length_set] at this
    simp only []
    omega

theorem mrInsertLoop_count (fuel : Nat) (st : MRState) (sizes : List Size) :
    st.packed.length + sizes.length ≤
      (mrInsertLoop fuel st sizes).1.packed.length + (mrInsertLoop fuel st sizes).2.length := by
  induction fuel generalizing st sizes with
  | zero => simp [mrInsertLoop]
  | succ n ih =>
    simp only [mrInsertLoop]
    rcases hr : mrRound st sizes with _ | ⟨st2, sizes2⟩
    · simp [hr]
    · have h := mrRound_packed st sizes (st2, sizes2) hr
      simp only [] at h
      have := ih st2 sizes2
      simp only [hr]
      omega

theorem skyRound_packed (st : SkyState) (sizes : List Size) (r : SkyState × List Size)
    (hr : skyRound st sizes = some r) :
    r.1.packed.length = st.packed.length + 1 ∧ sizes.length ≤ r.2.length + 1 := by
  unfold skyRound at hr
  split at hr
  · rename_i node s1 s2 binIdx sizeIdx heq
    simp only [Option.some.injEq] at hr
    subst hr
    refine ⟨by simp [addLevel]; split <;> simp, ?_⟩
    have := length_eraseIdx_ge sizes sizeIdx
    simp only []
    omega
  · exact absurd hr (by simp)

theorem skyInsertLoop_count (fuel : Nat) (st : SkyState) (sizes : List Size) :
    st.packed.length + sizes.length ≤
      (skyInsertLoop fuel st sizes).1.packed.length + (skyInsertLoop fuel st sizes).2.length := by
  induction fuel generalizing st sizes with
  | zero => simp [skyInsertLoop]
  | succ n ih =>
    simp only [skyInsertLoop]
    rcases hr : skyRound st sizes with _ | ⟨st2, sizes2⟩
    · simp [hr]
    · have h := skyRound_packed st sizes (st2, sizes2) hr
      simp only [] at h
      have := ih st2 sizes2
      simp only [hr]
      omega

theorem gRound_packed (g : GState) (padding : Int) (sizes : List Size)
    (r : GState × List Size) (hr : gRound g padding sizes = some r) :
    r.1.packed.length = g.packed.length + 1 ∧ sizes.length ≤ r.2.length + 1 := by
  by_cases hs : (gOuter g.fit g.allowFlip padding sizes g.freeRects 0
      { score := MaxInt, freeIdx := 0, rectIdx := 0, flipped := false }).score = MaxInt
  · rw [gRound] at hr
    simp only [hs, if_true, reduceIte] at hr
    exact absurd hr (by simp)
  · rw [gRound] at hr
    simp only [if_neg hs, Option.some.injEq] at hr
    subst hr
    constructor
    · simp
    · have := length_eraseIdx_ge sizes (gOuter g.fit g.allowFlip padding sizes g.freeRects 0
        { score := MaxInt, freeIdx := 0, rectIdx := 0, flipped := false }).rectIdx
      simp only []
      omega

theorem gInsertLoop_count (fuel : Nat) (g : GState) (padding : Int) (sizes : List Size) :
    g.packed.length + sizes.length ≤
      (gInsertLoop fuel g padding sizes).1.packed.length +
      (gInsertLoop fuel g padding sizes).2.length := by
  induction fuel generalizing g sizes with
  | zero => simp [gInsertLoop]
  | succ n ih =>
    simp only [gInsertLoop]
    rcases hr : gRound g padding sizes with _ | ⟨g2, sizes2⟩
    · simp [hr]
    · have h := gRound_packed g padding sizes (g2, sizes2) hr
      simp only [] at h
      have := ih g2 sizes2
      simp only [hr]
      omega

theorem algoInsert_count (a : AlgoState) (padding : Int) (sizes : List Size) :
    (algoRects a).length + sizes.length ≤
      (algoRects (algoInsert a padding sizes).1).length +
      (algoInsert a padding sizes).2.length := by
  cases a with
  | mr st => simpa [algoInsert, algoRects, mrInsert] using
      mrInsertLoop_count sizes.length { st with padding := padding } sizes
  | sky st => simpa [algoInsert, algoRects, skyInsert] using
      skyInsertLoop_count sizes.length { st with padding := padding } sizes
  | guil st => simpa [algoInsert, algoRects, gInsert] using
      gInsertLoop_count sizes.length st padding sizes

/-! ## Helper lemmas for the packer-level claims -/

theorem algoRects_reset (a : AlgoState) (w h : Int) :
    algoRects (algoReset a w h) = [] := by
  cases a <;> simp [algoReset, algoRects, mrReset, skyReset, gReset]

theorem goSort_length (f : Size → Size → Int) (l : List Size) :
    (goSort f l).length = l.length :=
  (List.perm_insertionSort _ l).length_eq

theorem pSizeLoop_ge (pad : Int) (l : List Rect) (init : Size) :
    init.Width ≤ (pSizeLoop pad l init).Width ∧
    init.Height ≤ (pSizeLoop pad l init).Height := by
  induction l generalizing init with
  | nil => simp [pSizeLoop]
  | cons a l ih =>
    have h := ih { init with Width := max init.Width (a.Right + pad),
                             Height := max init.Height (a.Bottom + pad) }
    simp only [pSizeLoop]
    constructor
    · exact le_trans (le_max_left _ _) h.1
    · exact le_trans (le_max_left _ _) h.2

theorem pSizeLoop_mem (pad : Int) (l : List Rect) (init : Size) (r : Rect)
    (hr : r ∈ l) :
    r.Right + pad ≤ (pSizeLoop pad l init).Width ∧
    r.Bottom + pad ≤ (pSizeLoop pad l init).Height := by
  induction l generalizing init with
  | nil => cases hr
  | cons a l ih =>
    rcases List.mem_cons.mp hr with heq | hmem
    · subst heq
      have h := pSizeLoop_ge pad l { init with Width := max init.Width (r.Right + pad),
                                               Height := max init.Height (r.Bottom + pad) }
      exact ⟨le_trans (le_max_right _ _) h.1, le_trans (le_max_right _ _) h.2⟩
    · simp only [pSizeLoop]
      exact ih _ hmem

/-! ## Claim C3: Validate and the Guillotine worst-fit bin methods -/

/-- **C3** (code bug): the spec's validity matrix and the doc comments on
`WorstAreaFit`, `WorstShortSideFit`, `WorstLongSideFit` ("Valid With:
Guillotine") say these combinations validate, and `newGuillotine` implements
them, but `Validate` rejects all three (answering the split-method error
value, although the split nibble is valid); a valid "best" combination is
accepted for contrast. -/
theorem validate_guillotine_worst_fits :
    Validate (Guillotine ||| WorstAreaFit) = some HError.splitErr ∧
    Validate (Guillotine ||| WorstShortSideFit) = some HError.splitErr ∧
    Validate (Guillotine ||| WorstLongSideFit) = some HError.splitErr ∧
    Validate (Guillotine ||| WorstAreaFit ||| SplitMaximizeArea) = some HError.splitErr ∧
    Validate (Guillotine ||| BestAreaFit) = none := by decide

/-! ## Claim C4: the Guillotine free-list merge -/

/-- **C4** (code bug): two free rectangles sharing a full edge (same width,
same X, vertically abutting) are NOT coalesced by `mergeFreeList`: the merge
conditions of the source compare `freeRects[i]` against itself, so the pass
leaves the list unchanged. -/
theorem mergeFreeList_abutting_pair_unchanged :
    mergeFreeList [NewRect 0 0 10 5, NewRect 0 5 10 5] =
      [NewRect 0 0 10 5, NewRect 0 5 10 5] := by decide

/-! ## Claim C2: the padding round trip -/

/-- **C2** (counterexample): bin 10×10, MaxRects-BSSF, padding 1, single
input size 3×3 with ID 7.  The placement lands at the origin, and the packed
rectangle is 2×2 at (1,1), not flipped: its user-facing Width/Height are NOT
the input's 3×3. -/
theorem packed_width_changed_at_origin :
    (mrInsert { newMaxRects 10 10 (MaxRects ||| BestShortSideFit) with padding := 1 }
      [NewSizeID 7 3 3]).1.packed = [⟨1, 1, 2, 2, 7, false⟩] := by decide

/-- **C2** (amended): for a placement of the padded size at `(x, y)`, the
contraction `unpadRect` preserves the ID always, and preserves the user-facing
Width/Height exactly when the coordinate is non-zero (or the padding is not
positive); a rectangle placed at `x = 0` comes back with `Width - padding`
(and is shifted to `X = padding`), and symmetrically in Y. -/
theorem unpad_pad_roundtrip (s : Size) (padding x y : Int) (flip : Bool) :
    let node : Rect := ⟨x, y, (padSize s padding).Width, (padSize s padding).Height, s.ID, flip⟩
    (unpadRect node padding).ID = s.ID ∧ (unpadRect node padding).Flipped = flip ∧
    ((x ≠ 0 ∨ padding ≤ 0) → (unpadRect node padding).Width = s.Width ∧
      (unpadRect node padding).X = x) ∧
    ((y ≠ 0 ∨ padding ≤ 0) → (unpadRect node padding).Height = s.Height ∧
      (unpadRect node padding).Y = y) ∧
    (x = 0 ∧ 0 < padding → (unpadRect node padding).Width = s.Width - padding ∧
      (unpadRect node padding).X = padding) ∧
    (y = 0 ∧ 0 < padding → (unpadRect node padding).Height = s.Height - padding ∧
      (unpadRect node padding).Y = padding) := by
  intro node
  simp only [unpadRect, padSize, node]
  split_ifs <;> simp_all <;> omega

/-- Witness for `unpad_pad_roundtrip` at size 3×3 (ID 7), padding 1, placed
at (0, 5): the packed width comes back as 2 = 3 - 1, the height as 3. -/
theorem unpad_pad_roundtrip_witness :
    ((0 : Int) = 0 ∧ (0 : Int) < 1) ∧
    (unpadRect ⟨0, 5, (padSize ⟨3, 3, 7⟩ 1).Width, (padSize ⟨3, 3, 7⟩ 1).Height, 7, false⟩ 1).Width
      = 3 - 1 ∧
    (unpadRect ⟨0, 5, (padSize ⟨3, 3, 7⟩ 1).Width, (padSize ⟨3, 3, 7⟩ 1).Height, 7, false⟩ 1).Height
      = 3 :=
  ⟨⟨rfl, by decide⟩,
   ((unpad_pad_roundtrip ⟨3, 3, 7⟩ 1 0 5 false).2.2.2.2.1 ⟨rfl, by decide⟩).1,
   (((unpad_pad_roundtrip ⟨3, 3, 7⟩ 1 0 5 false).2.2.2.1) (Or.inl (by decide))).1⟩

/-! ## Claim C10: RepackAll on an empty packing -/

/-- **C10** (counterexample): with `Padding = 1` and nothing packed, `Size()`
is still `{0,0}` — the padding only enters per packed rectangle — so
`RepackAll` still hits the reset panic, refuting the claim's parenthetical
that `Padding ≥ 1` avoids it. -/
theorem repackall_empty_packed_padding_panics :
    pRepackAll { unpacked := [], algo := .mr (newMaxRects 10 10 (MaxRects ||| BestShortSideFit)),
                 sortFunc := some SortArea, sortRev := false, Padding := 1,
                 Online := false } = none := rfl

/-- **C10** (amended): `RepackAll` panics (returns `none`) whenever the packed
list is empty — `Size()` is `{0,0}` there, for every `Padding` — and succeeds
whenever at least one packed rectangle makes the bounding size positive. -/
theorem repackall_reset_guard (p : Packer) :
    (algoRects p.algo = [] → pSize p = ⟨0, 0, 0⟩ ∧ pRepackAll p = none) ∧
    (∀ r, r ∈ algoRects p.algo → 1 ≤ r.Right + p.Padding → 1 ≤ r.Bottom + p.Padding →
      (pRepackAll p).isSome = true) := by
  constructor
  · intro hempty
    have hsz : pSize p = ⟨0, 0, 0⟩ := by simp [pSize, hempty, pSizeLoop]
    refine ⟨hsz, ?_⟩
    simp [pRepackAll, pSize, hempty, pSizeLoop, algoResetChecked]
  · intro r hr h1 h2
    simp only [pRepackAll]
    have hw := pSizeLoop_mem p.Padding (algoRects p.algo) ⟨0, 0, 0⟩ r hr
    simp only [pSize]
    have hg : ¬ ((pSizeLoop p.Padding (algoRects p.algo) ⟨0, 0, 0⟩).Width ≤ 0 ∨
        (pSizeLoop p.Padding (algoRects p.algo) ⟨0, 0, 0⟩).Height ≤ 0) := by
      push_neg
      constructor <;> [exact lt_of_lt_of_le (by omega) hw.1; exact lt_of_lt_of_le (by omega) hw.2]
    simp [algoResetChecked, hg]

/-- Witness for `repackall_reset_guard`: the empty-packing branch at a fresh
MaxRects packer, and the success branch at a packer holding one packed 2×2
rectangle. -/
theorem repackall_reset_guard_witness :
    (pRepackAll { unpacked := [], algo := .mr (newMaxRects 10 10 0), sortFunc := some SortArea,
                  sortRev := false, Padding := 3, Online := false } = none) ∧
    ((pRepackAll { unpacked := [], algo := .mr (mrInsert (newMaxRects 4 4 0) [NewSizeID 1 2 2]).1,
                   sortFunc := some SortArea, sortRev := false, Padding := 0,
                   Online := false }).isSome = true) :=
  ⟨((repackall_reset_guard
      { unpacked := [], algo := .mr (newMaxRects 10 10 0), sortFunc := some SortArea,
        sortRev := false, Padding := 3, Online := false }).1 (by decide)).2,
   (repackall_reset_guard
      { unpacked := [], algo := .mr (mrInsert (newMaxRects 4 4 0) [NewSizeID 1 2 2]).1,
        sortFunc := some SortArea, sortRev := false, Padding := 0, Online := false }).2
     ⟨0, 0, 2, 2, 1, false⟩ (by decide) (by decide) (by decide)⟩

/-! ## Claim C9: RepackAll and the packed-rectangle count -/

/-- **C9** (counterexample): Skyline-BottomLeft packer on a 4×4 bin in online
mode.  Inserting 1×1, 3×2, 1×1 packs all three (at (0,0), (1,0) and (0,1);
bounding size 4×2).  `RepackAll` resets the algorithm to the 4×2 bounding
size and re-packs greedily: the two unit squares win the bottom-left score
first and block the 3×2, leaving only 2 packed rectangles — fewer than the 3
packed before the call. -/
theorem repackall_drops_rectangle :
    (pNewPacker 4 4 (Skyline ||| BottomLeft)).map (fun q =>
      let p0 := { q with Online := true }
      let p1 := (pInsert (pInsert (pInsert p0 [NewSizeID 1 1 1]).1
        [NewSizeID 2 3 2]).1 [NewSizeID 3 1 1]).1
      ((algoRects p1.algo).length,
       (pRepackAll p1).map (fun r => (algoRects r.1.algo).length)))
    = some (3, some 2) := by decide

/-- **C9** (amended): when the re-pack succeeds (`Pack` returns `true`),
`RepackAll` packs at least as many rectangles as were packed before; without
that proviso the count can drop, because the algorithm is reset to the
current (possibly too tight) bounding size. -/
theorem repackall_success_count (p : Packer)
    (h : (pRepackAll p).map Prod.snd = some true) :
    (algoRects p.algo).length ≤
      ((pRepackAll p).map (fun r => (algoRects r.1.algo).length)).getD 0 := by
  simp only [pRepackAll] at h ⊢
  set staged := p.unpacked ++ (algoRects p.algo).map
    (fun r => (⟨r.Width, r.Height, r.ID⟩ : Size)) with hstaged
  set p1 : Packer := { p with unpacked := staged } with hp1
  rcases hr : algoResetChecked p1.algo (pSize p1).Width (pSize p1).Height with _ | a
  · obtain ⟨a, ha1, -⟩ := by simpa using h
    have hx : algoResetChecked p1.algo (pSize p1).Width (pSize p1).Height = some a := ha1
    rw [hr] at hx
    cases hx
  · rw [hr] at h
    simp only [Option.map_some', Option.getD_some] at h ⊢
    have ha : algoRects a = [] := by
      simp only [algoResetChecked] at hr
      split at hr
      · cases hr
      · cases hr
        exact algoRects_reset _ _ _
    set q : Packer := { unpacked := staged, algo := a, sortFunc := p.sortFunc, sortRev := p.sortRev, Padding := p.Padding, Online := p.Online } with hq
    have hqu : q.unpacked = staged := rfl
    by_cases hs : staged = []
    · have hpe : algoRects p.algo = [] := by
        rcases List.append_eq_nil.mp hs with ⟨-, h2⟩
        exact List.map_eq_nil_iff.mp h2
      simp [hpe]
    · simp only [pPack, hqu, hs, if_false, reduceIte] at h ⊢
      set sorted := (match q.sortFunc with
        | some f => if q.sortRev then goSort (fun a b => f b a) staged else goSort f staged
        | none => if q.sortRev then staged.reverse else staged) with hsorted
      have hlen : sorted.length = staged.length := by
        rw [hsorted]
        show (match p.sortFunc with
          | some f => if p.sortRev = true then goSort (fun a b => f b a) staged else goSort f staged
          | none => if p.sortRev = true then staged.reverse else staged).length = staged.length
        rcases p.sortFunc with _ | f
        · by_cases hrev : p.sortRev <;> simp [hrev]
        · by_cases hrev : p.sortRev <;> simp [hrev, goSort_length]
      have hcount := algoInsert_count a p.Padding sorted
      rcases hfail : (algoInsert a p.Padding sorted).2 with _ | ⟨z, zs⟩
      · simp only [hfail, if_true, reduceIte] at h ⊢
        rw [ha, hfail] at hcount
        simp at hcount
        have hstl : (algoRects p.algo).length ≤ staged.length := by
          rw [hstaged]; simp
        omega
      · rw [hfail] at h
        simp at h

/-- A packer holding a single packed 2×2 rectangle in a 4×4 MaxRects bin,
used as the witness input of the RepackAll claims. -/
def packerWithOneRect : Packer :=
  { unpacked := []
    algo := .mr (mrInsert (newMaxRects 4 4 0) [NewSizeID 1 2 2]).1
    sortFunc := some SortArea
    sortRev := false
    Padding := 0
    Online := false }

/-- Witness for `repackall_success_count`: on `packerWithOneRect` the repack
succeeds and keeps the rectangle. -/
theorem repackall_success_count_witness :
    (pRepackAll packerWithOneRect).map Prod.snd = some true ∧
    (algoRects packerWithOneRect.algo).length ≤
      ((pRepackAll packerWithOneRect).map (fun r => (algoRects r.1.algo).length)).getD 0 :=
  ⟨by decide, repackall_success_count _ (by decide)⟩

/-! ## Claim C7: the Pack commit path -/

/-- The staging list as sorted by `Packer.Pack` before it is handed to the
algorithm (the `sorted`/fall-through branches of the source). -/
def packSorted (p : Packer) : List Size :=
  match p.sortFunc with
  | some f => if p.sortRev then goSort (fun a b => f b a) p.unpacked else goSort f p.unpacked
  | none => if p.sortRev then p.unpacked.reverse else p.unpacked

theorem sortArea_le_trans (a b c : Size) (h1 : SortArea a b ≤ 0) (h2 : SortArea b c ≤ 0) :
    SortArea a c ≤ 0 := by
  simp only [SortArea, goCompare] at *
  split_ifs at * <;> omega

theorem sortArea_le_total (a b : Size) : SortArea a b ≤ 0 ∨ SortArea b a ≤ 0 := by
  simp only [SortArea, goCompare]
  split_ifs <;> omega

/-- **C7**: behaviour of `Packer.Pack`.  An empty staging list is immediate
success with the state untouched; otherwise the staging list is sorted
(comparator with arguments swapped when the reverse flag is set; a plain
reversal when the flag is set with no comparator), the whole sorted list —
a permutation of staging — is handed to the algorithm's `Insert`, the sizes
that did not fit become the new staging, and the result is `true` iff that
remainder is empty.  The default comparator installed by `NewPacker` is
`SortArea`, which orders by area descending. -/
theorem pack_spec (p : Packer) :
    (p.unpacked = [] → pPack p = (p, true)) ∧
    (p.unpacked ≠ [] →
      (pPack p).1.unpacked = (algoInsert p.algo p.Padding (packSorted p)).2 ∧
      (pPack p).1.algo = (algoInsert p.algo p.Padding (packSorted p)).1 ∧
      ((pPack p).2 = true ↔ (algoInsert p.algo p.Padding (packSorted p)).2 = [])) ∧
    (packSorted p).Perm p.unpacked ∧
    (∀ f, p.sortFunc = some f → p.sortRev = false →
      (∀ a b c : Size, f a b ≤ 0 → f b c ≤ 0 → f a c ≤ 0) →
      (∀ a b : Size, f a b ≤ 0 ∨ f b a ≤ 0) →
      (packSorted p).Pairwise (fun a b => f a b ≤ 0)) ∧
    (∀ f, p.sortFunc = some f → p.sortRev = true →
      (∀ a b c : Size, f a b ≤ 0 → f b c ≤ 0 → f a c ≤ 0) →
      (∀ a b : Size, f a b ≤ 0 ∨ f b a ≤ 0) →
      (packSorted p).Pairwise (fun a b => f b a ≤ 0)) ∧
    (p.sortFunc = none → p.sortRev = true → packSorted p = p.unpacked.reverse) ∧
    (p.sortFunc = none → p.sortRev = false → packSorted p = p.unpacked) ∧
    (∀ a b : Size, (SortArea a b ≤ 0 ↔ b.Area ≤ a.Area) ∧
      (SortArea a b < 0 ↔ b.Area < a.Area)) ∧
    (∀ w h heur q, pNewPacker w h heur = some q →
      q.sortFunc = some SortArea ∧ q.sortRev = false ∧ q.unpacked = []) := by
  refine ⟨?_, ?_, ?_, ?_, ?_, ?_, ?_, ?_, ?_⟩
  · intro h
    simp [pPack, h]
  · intro hne
    simp only [pPack, packSorted, if_neg hne, hne, if_false, reduceIte]
    by_cases hfail : (algoInsert p.algo p.Padding (match p.sortFunc with
      | some f => if p.sortRev = true then goSort (fun a b => f b a) p.unpacked
                  else goSort f p.unpacked
      | none => if p.sortRev = true then p.unpacked.reverse else p.unpacked)).2 = []
    · simp [hfail]
    · simp [hfail]
  · unfold packSorted
    rcases p.sortFunc with _ | f
    · by_cases hrev : p.sortRev <;> simp [hrev, List.reverse_perm]
    · by_cases hrev : p.sortRev <;>
        simp only [hrev, if_true, if_false, reduceIte] <;>
        exact List.perm_insertionSort _ _
  · intro f hf hrev htrans htotal
    simp only [packSorted, hf, hrev, if_false, reduceIte]
    letI : IsTotal Size (fun a b => f a b ≤ 0) := ⟨htotal⟩
    letI : IsTrans Size (fun a b => f a b ≤ 0) := ⟨htrans⟩
    exact List.sorted_insertionSort _ _
  · intro f hf hrev htrans htotal
    simp only [packSorted, hf, hrev, if_true, reduceIte]
    letI : IsTotal Size (fun a b => f b a ≤ 0) := ⟨fun a b => (htotal b a)⟩
    letI : IsTrans Size (fun a b => f b a ≤ 0) := ⟨fun a b c h1 h2 => htrans c b a h2 h1⟩
    exact List.sorted_insertionSort _ _
  · intro hf hrev
    simp [packSorted, hf, hrev]
  · intro hf hrev
    simp [packSorted, hf, hrev]
  · intro a b
    constructor <;> (simp only [SortArea, goCompare]; split_ifs <;> omega)
  · intro w h heur q hq
    simp only [pNewPacker] at hq
    split_ifs at hq <;> simp only [Option.some.injEq] at hq
    all_goals subst hq
    all_goals exact ⟨rfl, rfl, rfl⟩

/-- A sample offline packer with two staged sizes (witness input for the
Pack claim). -/
def packerWithStaging : Packer :=
  { unpacked := [NewSizeID 1 1 1, NewSizeID 2 2 2]
    algo := .mr (newMaxRects 10 10 0)
    sortFunc := some SortArea
    sortRev := false
    Padding := 0
    Online := false }

/-- Witness for `pack_spec` on `packerWithStaging`, with the default
comparator `SortArea` (transitivity/totality discharged by the helper
lemmas). -/
theorem pack_spec_witness :
    packerWithStaging.unpacked ≠ [] ∧
    ((pPack packerWithStaging).2 = true ↔
      (algoInsert packerWithStaging.algo packerWithStaging.Padding
        (packSorted packerWithStaging)).2 = []) ∧
    (packSorted packerWithStaging).Pairwise (fun a b => SortArea a b ≤ 0) :=
  ⟨by decide,
   ((pack_spec packerWithStaging).2.1 (by decide)).2.2,
   (pack_spec packerWithStaging).2.2.2.1 SortArea rfl rfl sortArea_le_trans sortArea_le_total⟩

/-! ## Claim C8: the Skyline engine only deposits into the waste map -/

/-- Append deposited rectangles to the free list of a waste map (no-op on an
absent map, mirroring the `p.wasteMap != nil` guard). -/
def wmAppend : Option GState → List Rect → Option GState
  | none, _ => none
  | some g, d => some { g with freeRects := g.freeRects ++ d }

theorem wmAppend_nil (w : Option GState) : wmAppend w [] = w := by
  cases w <;> simp [wmAppend]

theorem wmAppend_assoc (w : Option GState) (d1 d2 : List Rect) :
    wmAppend (wmAppend w d1) d2 = wmAppend w (d1 ++ d2) := by
  cases w <;> simp [wmAppend]

/-- The rectangles deposited into the waste map by one round of
`skylinePack.Insert` (empty when nothing is placed). -/
def skyRoundDeposits (st : SkyState) (sizes : List Size) : List Rect :=
  match skySelect st sizes 0 (default, MaxInt, MaxInt, none, none) with
  | (node, _, _, some binIdx, some _) => addWasteRects st.skyline binIdx node.Width node.Y
  | _ => []

theorem skySelect_wm (st : SkyState) (w : Option GState) (sizes : List Size)
    (i : Nat) (acc : Rect × Int × Int × Option Nat × Option Nat) :
    skySelect { st with wasteMap := w } sizes i acc = skySelect st sizes i acc := by
  induction sizes generalizing i acc with
  | nil => rfl
  | cons size rest ih => simp only [skySelect, ih]

theorem addLevel_wm (st : SkyState) (w : Option GState) (index : Nat) (rect : Rect) :
    addLevel { st with wasteMap := w } index rect =
      { addLevel st index rect with
        wasteMap := wmAppend w (addWasteRects st.skyline index rect.Width rect.Y) } := by
  cases w <;> cases hsw : st.wasteMap <;> simp [addLevel, wmAppend, hsw]

theorem skyRound_wm (st : SkyState) (w : Option GState) (sizes : List Size) :
    skyRound { st with wasteMap := w } sizes =
      (skyRound st sizes).map (fun r =>
        ({ r.1 with wasteMap := wmAppend w (skyRoundDeposits st sizes) }, r.2)) := by
  simp only [skyRound, skyRoundDeposits, skySelect_wm]
  rcases hsel : skySelect st sizes 0 (default, MaxInt, MaxInt, none, none) with
    ⟨node, s1, s2, bbin, bsize⟩
  rcases bbin with _ | binIdx <;> rcases bsize with _ | sizeIdx <;>
    simp only [Option.map_none', Option.map_some', addLevel_wm]

theorem skyInsertLoop_wm (fuel : Nat) (st : SkyState) (w : Option GState)
    (sizes : List Size) :
    ∃ d : List Rect,
      skyInsertLoop fuel { st with wasteMap := w } sizes =
        ({ (skyInsertLoop fuel st sizes).1 with wasteMap := wmAppend w d },
         (skyInsertLoop fuel st sizes).2) ∧
      (skyInsertLoop fuel st sizes).1.wasteMap = wmAppend st.wasteMap d := by
  induction fuel generalizing st w sizes with
  | zero => exact ⟨[], by simp [skyInsertLoop, wmAppend_nil], by simp [skyInsertLoop, wmAppend_nil]⟩
  | succ n ih =>
    have hbase := skyRound_wm st st.wasteMap sizes
    rcases hr : skyRound st sizes with _ | ⟨st2, sizes2⟩
    · refine ⟨[], ?_, ?_⟩
      · have hrw := skyRound_wm st w sizes
        rw [hr] at hrw
        simp only [Option.map_none'] at hrw
        simp [skyInsertLoop, hr, hrw, wmAppend_nil]
      · simp [skyInsertLoop, hr, wmAppend_nil]
    · have hst2 : st2.wasteMap = wmAppend st.wasteMap (skyRoundDeposits st sizes) := by
        rw [hr] at hbase
        simp only [Option.map_some', Option.some.injEq, Prod.mk.injEq] at hbase
        exact congrArg SkyState.wasteMap hbase.1
      have hrw := skyRound_wm st w sizes
      rw [hr] at hrw
      simp only [Option.map_some'] at hrw
      obtain ⟨d2, hd2a, hd2b⟩ := ih st2 (wmAppend w (skyRoundDeposits st sizes)) sizes2
      refine ⟨skyRoundDeposits st sizes ++ d2, ?_, ?_⟩
      · simp only [skyInsertLoop, hr, hrw]
        rw [hd2a, wmAppend_assoc]
      · simp only [skyInsertLoop, hr]
        obtain ⟨d2b, hb2a, hb2b⟩ := ih st2 st2.wasteMap sizes2
        rw [hd2b, hst2, wmAppend_assoc]

/-- **C8**: the Skyline engine never reads the waste map while placing: two
runs of `Insert` from states that agree on everything except the waste map
produce identical results in every component other than the waste map (same
packed rectangles, same skyline, same did-not-fit remainder), and both waste
maps receive exactly the same deposited free rectangles, appended to their
respective free lists (append-only evolution). -/
theorem sky_insert_ignores_waste_map (st : SkyState) (w : Option GState)
    (sizes : List Size) :
    (skyInsert { st with wasteMap := w } sizes).2 = (skyInsert st sizes).2 ∧
    (skyInsert { st with wasteMap := w } sizes).1 =
      { (skyInsert st sizes).1 with
        wasteMap := (skyInsert { st with wasteMap := w } sizes).1.wasteMap } ∧
    ∃ d : List Rect,
      (skyInsert st sizes).1.wasteMap = wmAppend st.wasteMap d ∧
      (skyInsert { st with wasteMap := w } sizes).1.wasteMap = wmAppend w d := by
  obtain ⟨d, h1, h2⟩ := skyInsertLoop_wm sizes.length st w sizes
  refine ⟨?_, ?_, d, h2, ?_⟩
  · simp [skyInsert, h1]
  · simp [skyInsert, h1]
  · simp [skyInsert, h1]

/-! ## Claim C6: the skyline covering invariant -/

/-- The covering invariant of a skyline segment list: the segments abut,
starting at `x0` and ending exactly at `W`, with positive widths. -/
def covers : List SkyNode → Int → Int → Prop
  | [], x0, W => x0 = W
  | s :: rest, x0, W => s.X = x0 ∧ 1 ≤ s.Width ∧ covers rest (x0 + s.Width) W

instance coversDecidable : (l : List SkyNode) → (x0 W : Int) → Decidable (covers l x0 W)
  | [], _, _ => by unfold covers; infer_instance
  | s :: rest, x0, W => by
    unfold covers
    haveI := coversDecidable rest (x0 + s.Width) W
    infer_instance

theorem covers_sum (l : List SkyNode) (x0 W : Int) (h : covers l x0 W) :
    x0 + (l.map SkyNode.Width).sum = W := by
  induction l generalizing x0 with
  | nil => simpa [covers] using h
  | cons s rest ih =>
    obtain ⟨-, -, hrest⟩ := h
    have := ih (x0 + s.Width) hrest
    simp only [List.map_cons, List.sum_cons]
    omega

theorem covers_abut (l : List SkyNode) (x0 W : Int) (h : covers l x0 W) :
    List.Chain' (fun a b => a.X + a.Width = b.X) l ∧
    List.Chain' (fun a b => a.X < b.X) l := by
  induction l generalizing x0 with
  | nil => simp
  | cons s rest ih =>
    obtain ⟨hx, hw, hrest⟩ := h
    obtain ⟨ih1, ih2⟩ := ih (x0 + s.Width) hrest
    constructor
    · refine List.chain'_cons'.mpr ⟨?_, ih1⟩
      intro b hb
      cases rest with
      | nil => cases hb
      | cons c cs =>
        simp only [List.head?_cons, Option.mem_some_iff] at hb
        subst hb
        obtain ⟨hcx, -, -⟩ := hrest
        omega
    · refine List.chain'_cons'.mpr ⟨?_, ih2⟩
      intro b hb
      cases rest with
      | nil => cases hb
      | cons c cs =>
        simp only [List.head?_cons, Option.mem_some_iff] at hb
        subst hb
        obtain ⟨hcx, -, -⟩ := hrest
        omega

theorem covers_drop (l : List SkyNode) (x0 W : Int) (i : Nat) (s : SkyNode)
    (h : covers l x0 W) (hs : l.get? i = some s) :
    covers (l.drop i) s.X W := by
  induction l generalizing x0 i with
  | nil => cases hs
  | cons a rest ih =>
    cases i with
    | zero =>
      simp only [List.get?_cons_zero, Option.some.injEq] at hs
      obtain ⟨hx, hw, hr⟩ := h
      subst hs
      exact ⟨rfl, hw, by rw [hx]; exact hr⟩
    | succ i =>
      obtain ⟨hx, hw, hrest⟩ := h
      simpa [List.drop] using ih (x0 + a.Width) i hrest (by simpa using hs)

theorem covers_replace (l : List SkyNode) (x0 W : Int) (i : Nat) (s : SkyNode)
    (C : List SkyNode) (h : covers l x0 W) (hs : l.get? i = some s)
    (hC : covers C s.X W) :
    covers (l.take i ++ C) x0 W := by
  induction l generalizing x0 i with
  | nil => cases hs
  | cons a rest ih =>
    cases i with
    | zero =>
      simp only [List.get?_cons_zero, Option.some.injEq] at hs
      subst hs
      obtain ⟨hx, -, -⟩ := h
      simpa [List.take] using (hx ▸ hC)
    | succ i =>
      obtain ⟨hx, hw, hrest⟩ := h
      exact ⟨hx, hw, ih (x0 + a.Width) i hrest (by simpa using hs)⟩

theorem consume_covers (B : List SkyNode) (cur W e : Int) (h : covers B cur W)
    (h1 : cur ≤ e) (h2 : e ≤ W) : covers (consume e B) e W := by
  induction B generalizing cur with
  | nil =>
    simp only [covers] at h
    simp only [consume, covers]
    omega
  | cons s rest ih =>
    obtain ⟨hx, hw, hrest⟩ := h
    simp only [consume]
    by_cases hlt : s.X < e
    · simp only [if_pos hlt]
      by_cases hz : s.Width - (e - s.X) ≤ 0
      · simp only [if_pos hz]
        exact ih (cur + s.Width) hrest (by omega)
      · simp only [if_neg hz]
        refine ⟨show s.X + (e - s.X) = e by omega, show (1:Int) ≤ s.Width - (e - s.X) by omega, ?_⟩
        show covers rest (e + (s.Width - (e - s.X))) W
        rw [show e + (s.Width - (e - s.X)) = cur + s.Width by omega]
        exact hrest
    · simp only [if_neg hlt]
      refine ⟨show s.X = e by omega, hw, ?_⟩
      show covers rest (e + s.Width) W
      rw [show e + s.Width = cur + s.Width by omega]
      exact hrest

theorem mergeSky_head_spec (l : List SkyNode) (cur : SkyNode) :
    ∃ w tail, mergeSky cur l = ⟨cur.X, cur.Y, w⟩ :: tail := by
  induction l generalizing cur with
  | nil => exact ⟨cur.Width, [], rfl⟩
  | cons b rest ih =>
    simp only [mergeSky]
    by_cases hy : cur.Y = b.Y
    · simp only [if_pos hy]
      exact ih { cur with Width := cur.Width + b.Width }
    · simp only [if_neg hy]
      exact ⟨cur.Width, mergeSky b rest, rfl⟩

theorem mergeSky_covers (l : List SkyNode) (cur : SkyNode) (x0 W : Int)
    (h : covers (cur :: l) x0 W) : covers (mergeSky cur l) x0 W := by
  induction l generalizing cur x0 with
  | nil => simpa [mergeSky] using h
  | cons b rest ih =>
    obtain ⟨hx, hw, hbx, hbw, hrest⟩ := h
    simp only [mergeSky]
    by_cases hy : cur.Y = b.Y
    · simp only [if_pos hy]
      refine ih { cur with Width := cur.Width + b.Width } x0
        ⟨hx, show (1:Int) ≤ cur.Width + b.Width by omega, ?_⟩
      show covers rest (x0 + (cur.Width + b.Width)) W
      rw [show x0 + (cur.Width + b.Width) = x0 + cur.Width + b.Width by omega]
      exact hrest
    · simp only [if_neg hy]
      exact ⟨hx, hw, ih b (x0 + cur.Width) ⟨hbx, hbw, hrest⟩⟩

theorem mergeSky_chain (l : List SkyNode) (cur : SkyNode) :
    List.Chain' (fun a b => a.Y ≠ b.Y) (mergeSky cur l) := by
  induction l generalizing cur with
  | nil => simp [mergeSky]
  | cons b rest ih =>
    simp only [mergeSky]
    by_cases hy : cur.Y = b.Y
    · simp only [if_pos hy]
      exact ih { cur with Width := cur.Width + b.Width }
    · simp only [if_neg hy]
      obtain ⟨w, tail, hw⟩ := mergeSky_head_spec rest b
      rw [hw]
      refine List.chain'_cons.mpr ⟨hy, ?_⟩
      rw [← hw]
      exact ih b

theorem mergeSkylines_covers (l : List SkyNode) (x0 W : Int) (h : covers l x0 W) :
    covers (mergeSkylines l) x0 W := by
  cases l with
  | nil => simpa [mergeSkylines] using h
  | cons x xs => exact mergeSky_covers xs x x0 W h

theorem mergeSkylines_chain (l : List SkyNode) :
    List.Chain' (fun a b => a.Y ≠ b.Y) (mergeSkylines l) := by
  cases l with
  | nil => simp [mergeSkylines]
  | cons x xs => exact mergeSky_chain xs x

theorem testFit_spec (sk : List SkyNode) (maxW maxH : Int) (i : Nat) (w h y : Int)
    (ht : testFit sk maxW maxH i w h = some y) :
    ∃ s, sk.get? i = some s ∧ s.X + w ≤ maxW := by
  unfold testFit at ht
  cases hg : sk.get? i with
  | none => rw [hg] at ht; cases ht
  | some s =>
    simp only [hg] at ht
    by_cases hb : s.X + w > maxW
    · rw [if_pos hb] at ht; cases ht
    · exact ⟨s, rfl, by omega⟩

/-- A legal candidate placement on the skyline: the node sits at the X of the
segment at `idx` and `testFit` succeeds there with resting height `node.Y`. -/
def skyCand (sk : List SkyNode) (maxW maxH : Int) (node : Rect) (idx : Nat) : Prop :=
  ∃ s, sk.get? idx = some s ∧ node.X = s.X ∧
    testFit sk maxW maxH idx node.Width node.Height = some node.Y

/-- `skyCand` plus the fact that the node's dimensions are the candidate
`(w, h)` upright or flipped. -/
def skyCandWH (sk : List SkyNode) (maxW maxH w h : Int) (node : Rect) (idx : Nat) : Prop :=
  ((node.Width = w ∧ node.Height = h) ∨ (node.Width = h ∧ node.Height = w)) ∧
  skyCand sk maxW maxH node idx

/-- Invariant of the accumulator of the two skyline finder loops. -/
def skyAccOk (sk : List SkyNode) (maxW maxH w h : Int)
    (acc : Rect × Int × Int × Option Nat) : Prop :=
  (acc.2.2.2 = none → acc.1.Height = 0) ∧
  ∀ j, acc.2.2.2 = some j → skyCandWH sk maxW maxH w h acc.1 j

theorem skyGetD_of_get? (sk : List SkyNode) (i : Nat) (s : SkyNode)
    (hs : sk.get? i = some s) : sk.getD i default = s := by
  simp [List.getD_eq_getElem?_getD, ← List.get?_eq_getElem?, hs]

theorem skyCandWH_up (sk : List SkyNode) (maxW maxH : Int) (w h y : Int) (i : Nat)
    (node : Rect) (hup : testFit sk maxW maxH i w h = some y) :
    skyCandWH sk maxW maxH w h
      { node with X := (sk.getD i default).X, Y := y, Width := w, Height := h } i := by
  obtain ⟨s, hs, hXs⟩ := testFit_spec sk maxW maxH i w h y hup
  exact ⟨Or.inl ⟨rfl, rfl⟩, s, hs, congrArg SkyNode.X (skyGetD_of_get? sk i s hs), hup⟩

theorem skyCandWH_fl (sk : List SkyNode) (maxW maxH : Int) (w h y : Int) (i : Nat)
    (node : Rect) (hfl : testFit sk maxW maxH i h w = some y) :
    skyCandWH sk maxW maxH w h
      { node with X := (sk.getD i default).X, Y := y, Width := h, Height := w,
                  Flipped := true } i := by
  obtain ⟨s, hs, hXs⟩ := testFit_spec sk maxW maxH i h w y hfl
  exact ⟨Or.inr ⟨rfl, rfl⟩, s, hs, congrArg SkyNode.X (skyGetD_of_get? sk i s hs), hfl⟩

theorem skyStepUp_spec (sk : List SkyNode) (maxW maxH w h : Int) (i : Nat)
    (node : Rect) (bH bW : Int) (bidx : Option Nat)
    (hacc : skyAccOk sk maxW maxH w h (node, bH, bW, bidx)) :
    skyAccOk sk maxW maxH w h
      (match testFit sk maxW maxH i w h with
       | some y =>
         if y + h < bH ∨ (y + h = bH ∧ (sk.getD i default).Width < bW) then
           ({ node with X := (sk.getD i default).X, Y := y, Width := w, Height := h },
            y + h, (sk.getD i default).Width, some i)
         else (node, bH, bW, bidx)
       | none => (node, bH, bW, bidx)) := by
  rcases hup : testFit sk maxW maxH i w h with _ | y
  · exact hacc
  · simp only []
    split
    · refine ⟨by simp, fun j hj => ?_⟩
      simp only [Option.some.injEq] at hj
      subst hj
      exact skyCandWH_up sk maxW maxH w h y i node hup
    · exact hacc

theorem skyStepFl_spec (sk : List SkyNode) (maxW maxH w h : Int) (i : Nat)
    (flip : Bool) (acc1 : Rect × Int × Int × Option Nat)
    (hacc : skyAccOk sk maxW maxH w h acc1) :
    skyAccOk sk maxW maxH w h
      (if flip then
        match testFit sk maxW maxH i h w with
        | some y =>
          if y + w < acc1.2.1 ∨ (y + w = acc1.2.1 ∧ (sk.getD i default).Width < acc1.2.2.1) then
            ({ acc1.1 with X := (sk.getD i default).X, Y := y, Width := h, Height := w, Flipped := true }, y + w, (sk.getD i default).Width, some i)
          else acc1
        | none => acc1
       else acc1) := by
  rcases flip with _ | _
  · exact hacc
  · simp only [if_true, reduceIte]
    rcases hfl : testFit sk maxW maxH i h w with _ | y
    · exact hacc
    · simp only []
      split
      · refine ⟨by simp, fun j hj => ?_⟩
        simp only [Option.some.injEq] at hj
        subst hj
        exact skyCandWH_fl sk maxW maxH w h y i acc1.1 hfl
      · exact hacc

theorem findBLSkyLoop_spec (sk : List SkyNode) (maxW maxH : Int) (flip : Bool)
    (w h : Int) (rem : List SkyNode) (i : Nat)
    (acc : Rect × Int × Int × Option Nat)
    (hacc : skyAccOk sk maxW maxH w h acc) :
    skyAccOk sk maxW maxH w h (findBLSkyLoop sk maxW maxH flip w h rem i acc) := by
  induction rem generalizing i acc with
  | nil => exact hacc
  | cons a rem ih =>
    obtain ⟨node, bH, bW, bidx⟩ := acc
    simp only [findBLSkyLoop]
    exact ih (i+1) _
      (skyStepFl_spec sk maxW maxH w h i flip _
        (skyStepUp_spec sk maxW maxH w h i node bH bW bidx hacc))

theorem testFitWithWaste_fit (sk : List SkyNode) (maxW maxH : Int) (i : Nat)
    (w h : Int) (r : Int × Int)
    (hr : testFitWithWaste sk maxW maxH i w h = some r) :
    testFit sk maxW maxH i w h = some r.1 := by
  unfold testFitWithWaste at hr
  cases ht : testFit sk maxW maxH i w h with
  | none => rw [ht] at hr; cases hr
  | some y =>
    rw [ht] at hr
    simp only [Option.some.injEq] at hr
    subst hr
    rfl

theorem skyStepUpMW_spec (sk : List SkyNode) (maxW maxH w h : Int) (i : Nat)
    (node : Rect) (bH bWa : Int) (bidx : Option Nat)
    (hacc : skyAccOk sk maxW maxH w h (node, bH, bWa, bidx)) :
    skyAccOk sk maxW maxH w h
      (match testFitWithWaste sk maxW maxH i w h with
       | some r =>
         if r.2 < bWa ∨ (r.2 = bWa ∧ r.1 + h < bH) then
           ({ node with X := (sk.getD i default).X, Y := r.1, Width := w, Height := h },
            r.1 + h, r.2, some i)
         else (node, bH, bWa, bidx)
       | none => (node, bH, bWa, bidx)) := by
  rcases hup : testFitWithWaste sk maxW maxH i w h with _ | r
  · exact hacc
  · simp only []
    split
    · refine ⟨by simp, fun j hj => ?_⟩
      simp only [Option.some.injEq] at hj
      subst hj
      exact skyCandWH_up sk maxW maxH w h r.1 i node (testFitWithWaste_fit sk maxW maxH i w h r hup)
    · exact hacc

theorem skyStepFlMW_spec (sk : List SkyNode) (maxW maxH w h : Int) (i : Nat)
    (flip : Bool) (acc1 : Rect × Int × Int × Option Nat)
    (hacc : skyAccOk sk maxW maxH w h acc1) :
    skyAccOk sk maxW maxH w h
      (if flip then
        match testFitWithWaste sk maxW maxH i h w with
        | some r =>
          if r.2 < acc1.2.2.1 ∨ (r.2 = acc1.2.2.1 ∧ r.1 + w < acc1.2.1) then
            ({ acc1.1 with X := (sk.getD i default).X, Y := r.1, Width := h, Height := w, Flipped := true }, r.1 + w, r.2, some i)
          else acc1
        | none => acc1
       else acc1) := by
  rcases flip with _ | _
  · exact hacc
  · simp only [if_true, reduceIte]
    rcases hfl : testFitWithWaste sk maxW maxH i h w with _ | r
    · exact hacc
    · simp only []
      split
      · refine ⟨by simp, fun j hj => ?_⟩
        simp only [Option.some.injEq] at hj
        subst hj
        exact skyCandWH_fl sk maxW maxH w h r.1 i acc1.1 (testFitWithWaste_fit sk maxW maxH i h w r hfl)
      · exact hacc

theorem findMWLoop_spec (sk : List SkyNode) (maxW maxH : Int) (flip : Bool)
    (w h : Int) (rem : List SkyNode) (i : Nat)
    (acc : Rect × Int × Int × Option Nat)
    (hacc : skyAccOk sk maxW maxH w h acc) :
    skyAccOk sk maxW maxH w h (findMWLoop sk maxW maxH flip w h rem i acc) := by
  induction rem generalizing i acc with
  | nil => exact hacc
  | cons a rem ih =>
    obtain ⟨node, bH, bWa, bidx⟩ := acc
    simp only [findMWLoop]
    exact ih (i+1) _
      (skyStepFlMW_spec sk maxW maxH w h i flip _
        (skyStepUpMW_spec sk maxW maxH w h i node bH bWa bidx hacc))

theorem findBLSky_spec (sk : List SkyNode) (maxW maxH : Int) (flip : Bool)
    (w h : Int) :
    skyAccOk sk maxW maxH w h (findBLSky sk maxW maxH flip w h) :=
  findBLSkyLoop_spec sk maxW maxH flip w h sk 0 (default, MaxInt, MaxInt, none)
    ⟨fun _ => rfl, fun j hj => by cases hj⟩

theorem findMWSky_spec (sk : List SkyNode) (maxW maxH : Int) (flip : Bool)
    (w h : Int) :
    skyAccOk sk maxW maxH w h (findMWSky sk maxW maxH flip w h) :=
  findMWLoop_spec sk maxW maxH flip w h sk 0 (default, MaxInt, MaxInt, none)
    ⟨fun _ => rfl, fun j hj => by cases hj⟩

theorem padSize_pos (s : Size) (p : Int) (hw : 1 ≤ s.Width) (hh : 1 ≤ s.Height) :
    1 ≤ (padSize s p).Width ∧ 1 ≤ (padSize s p).Height := by
  unfold padSize
  split
  · exact ⟨hw, hh⟩
  · exact ⟨by show 1 ≤ s.Width + p; omega, by show 1 ≤ s.Height + p; omega⟩

/-- Invariant of the size-selection accumulator of `skylinePack.Insert`. -/
def skySelAccOk (st : SkyState) (acc : Rect × Int × Int × Option Nat × Option Nat) : Prop :=
  ∀ bin, acc.2.2.2.1 = some bin →
    (1 ≤ acc.1.Width ∧ 1 ≤ acc.1.Height) ∧
    skyCand st.skyline st.maxWidth st.maxHeight acc.1 bin

theorem skySelect_spec (st : SkyState) (sizes : List Size) (i : Nat)
    (acc : Rect × Int × Int × Option Nat × Option Nat)
    (hsz : ∀ s ∈ sizes, 1 ≤ s.Width ∧ 1 ≤ s.Height)
    (hacc : skySelAccOk st acc) :
    skySelAccOk st (skySelect st sizes i acc) := by
  induction sizes generalizing i acc with
  | nil => exact hacc
  | cons size rest ih =>
    obtain ⟨bestNode, b1, b2, bbin, bsize⟩ := acc
    simp only [skySelect]
    apply ih (i+1) _ (fun s hs => hsz s (by simp [hs]))
    have hpad := padSize_pos size st.padding (hsz size (by simp)).1 (hsz size (by simp)).2
    by_cases hLS : st.levelSelect = MinWaste <;>
      simp only [hLS, if_true, if_false, reduceIte]
    · have hfind := findMWSky_spec st.skyline st.maxWidth st.maxHeight st.allowFlip
        (padSize size st.padding).Width (padSize size st.padding).Height
      split
      · split
        · intro bin hbin
          simp only [] at hbin
          have hcand := hfind.2 bin hbin
          obtain ⟨hdims, hc⟩ := hcand
          refine ⟨?_, hc⟩
          rcases hdims with ⟨hw2, hh2⟩ | ⟨hw2, hh2⟩ <;> rw [hw2, hh2] <;>
            exact ⟨by omega, by omega⟩
        · exact hacc
      · exact hacc
    · have hfind := findBLSky_spec st.skyline st.maxWidth st.maxHeight st.allowFlip
        (padSize size st.padding).Width (padSize size st.padding).Height
      split
      · split
        · intro bin hbin
          simp only [] at hbin
          have hcand := hfind.2 bin hbin
          obtain ⟨hdims, hc⟩ := hcand
          refine ⟨?_, hc⟩
          rcases hdims with ⟨hw2, hh2⟩ | ⟨hw2, hh2⟩ <;> rw [hw2, hh2] <;>
            exact ⟨by omega, by omega⟩
        · exact hacc
      · exact hacc

theorem addLevel_skyline (st : SkyState) (index : Nat) (rect : Rect) :
    (addLevel st index rect).skyline =
      mergeSkylines (st.skyline.take index ++
        (⟨rect.X, rect.Y + rect.Height, rect.Width⟩ : SkyNode) ::
        consume (rect.X + rect.Width) (st.skyline.drop index)) := by
  unfold addLevel
  cases st.wasteMap <;> rfl

theorem addLevel_maxWidth (st : SkyState) (index : Nat) (rect : Rect) :
    (addLevel st index rect).maxWidth = st.maxWidth := by
  unfold addLevel
  cases st.wasteMap <;> rfl

theorem addLevel_inv (st : SkyState) (node : Rect) (binIdx : Nat)
    (hcov : covers st.skyline 0 st.maxWidth) (hwpos : 1 ≤ node.Width)
    (hcand : skyCand st.skyline st.maxWidth st.maxHeight node binIdx) :
    covers (addLevel st binIdx node).skyline 0 st.maxWidth ∧
    List.Chain' (fun a b => a.Y ≠ b.Y) (addLevel st binIdx node).skyline := by
  obtain ⟨s, hs, hx, ht⟩ := hcand
  obtain ⟨s2, hs2, hbound⟩ := testFit_spec _ _ _ _ _ _ _ ht
  rw [hs] at hs2
  injection hs2 with hs2
  subst hs2
  have hdrop := covers_drop st.skyline 0 st.maxWidth binIdx s hcov hs
  have hcons := consume_covers (st.skyline.drop binIdx) s.X st.maxWidth
    (node.X + node.Width) hdrop (by omega) (by omega)
  have hC : covers ((⟨node.X, node.Y + node.Height, node.Width⟩ : SkyNode) ::
      consume (node.X + node.Width) (st.skyline.drop binIdx)) s.X st.maxWidth := by
    refine ⟨by simpa using hx, hwpos, ?_⟩
    show covers _ (s.X + node.Width) st.maxWidth
    rw [show s.X + node.Width = node.X + node.Width by omega]
    exact hcons
  have hrepl := covers_replace st.skyline 0 st.maxWidth binIdx s _ hcov hs hC
  rw [addLevel_skyline]
  exact ⟨mergeSkylines_covers _ _ _ hrepl, mergeSkylines_chain _⟩

theorem skyRound_inv (st : SkyState) (sizes : List Size) (st2 : SkyState)
    (sizes2 : List Size) (hr : skyRound st sizes = some (st2, sizes2))
    (hsz : ∀ s ∈ sizes, 1 ≤ s.Width ∧ 1 ≤ s.Height)
    (hcov : covers st.skyline 0 st.maxWidth) :
    covers st2.skyline 0 st2.maxWidth ∧
    List.Chain' (fun a b => a.Y ≠ b.Y) st2.skyline ∧
    st2.maxWidth = st.maxWidth ∧
    (∀ s ∈ sizes2, 1 ≤ s.Width ∧ 1 ≤ s.Height) := by
  unfold skyRound at hr
  split at hr
  · rename_i node s1 s2 binIdx sizeIdx heq
    simp only [Option.some.injEq, Prod.mk.injEq] at hr
    obtain ⟨hst2, hsizes2⟩ := hr
    have hsel := skySelect_spec st sizes 0 (default, MaxInt, MaxInt, none, none) hsz
      (fun bin hbin => by cases hbin)
    rw [heq] at hsel
    obtain ⟨⟨hwp, -⟩, hcand⟩ := hsel binIdx rfl
    have hinv := addLevel_inv st node binIdx hcov hwp hcand
    have hsky : st2.skyline = (addLevel st binIdx node).skyline := by
      rw [← hst2]
    have hmw : st2.maxWidth = st.maxWidth := by
      rw [← hst2]
      exact addLevel_maxWidth st binIdx node
    refine ⟨?_, ?_, hmw, ?_⟩
    · rw [hsky, hmw]
      exact hinv.1
    · rw [hsky]
      exact hinv.2
    · intro s hs
      apply hsz
      rw [← hsizes2] at hs
      exact (List.eraseIdx_sublist sizes sizeIdx).subset hs
  · cases hr

theorem skyInsertLoop_inv (fuel : Nat) (st : SkyState) (sizes : List Size)
    (hsz : ∀ s ∈ sizes, 1 ≤ s.Width ∧ 1 ≤ s.Height)
    (hcov : covers st.skyline 0 st.maxWidth)
    (hch : List.Chain' (fun a b => a.Y ≠ b.Y) st.skyline) :
    covers (skyInsertLoop fuel st sizes).1.skyline 0 (skyInsertLoop fuel st sizes).1.maxWidth ∧
    List.Chain' (fun a b => a.Y ≠ b.Y) (skyInsertLoop fuel st sizes).1.skyline := by
  induction fuel generalizing st sizes with
  | zero => exact ⟨hcov, hch⟩
  | succ n ih =>
    rcases hr : skyRound st sizes with _ | ⟨st2, sizes2⟩
    · simpa [skyInsertLoop, hr] using ⟨hcov, hch⟩
    · obtain ⟨h1, h2, h3, h4⟩ := skyRound_inv st sizes st2 sizes2 hr hsz hcov
      simpa [skyInsertLoop, hr] using ih st2 sizes2 h4 h1 h2

/-- Skyline-engine states reachable from a fresh (or reset) engine by
`Insert` calls and configuration changes; inserted sizes satisfy the data
model requirement of positive dimensions. -/
inductive SkyReach : SkyState → Prop where
  | new : ∀ (width height : Int) (heuristic : Nat), 1 ≤ width → 1 ≤ height →
      SkyReach (newSkyline width height heuristic)
  | reset : ∀ st (width height : Int), SkyReach st → 1 ≤ width → 1 ≤ height →
      SkyReach (skyReset st width height)
  | insert : ∀ st sizes, SkyReach st → (∀ s ∈ sizes, 1 ≤ s.Width ∧ 1 ≤ s.Height) →
      SkyReach (skyInsert st sizes).1
  | allowFlip : ∀ st b, SkyReach st → SkyReach { st with allowFlip := b }
  | padding : ∀ st p, SkyReach st → SkyReach { st with padding := p }

theorem skyReach_inv (st : SkyState) (h : SkyReach st) :
    covers st.skyline 0 st.maxWidth ∧
    List.Chain' (fun a b => a.Y ≠ b.Y) st.skyline := by
  induction h with
  | new width height heuristic hw hh =>
    refine ⟨⟨rfl, hw, ?_⟩, ?_⟩
    · show (0 : Int) + width = width
      ring
    · show List.Chain' _ [(⟨0, 0, width⟩ : SkyNode)]
      exact List.chain'_singleton _
  | reset st width height hst hw hh ih =>
    refine ⟨⟨rfl, hw, ?_⟩, ?_⟩
    · show (0 : Int) + width = width
      ring
    · show List.Chain' _ [(⟨0, 0, width⟩ : SkyNode)]
      exact List.chain'_singleton _
  | insert st sizes hst hsz ih =>
    exact skyInsertLoop_inv sizes.length st sizes hsz ih.1 ih.2
  | allowFlip st b hst ih => exact ih
  | padding st p hst ih => exact ih

/-- **C6**: in every Skyline-engine state reachable from `Reset` by `Insert`
calls, the skyline is sorted by strictly increasing X, adjacent segments abut
exactly (`X + Width` of one is the `X` of the next: no gaps, no overlap), the
segment widths sum to exactly `maxWidth`, and no two adjacent segments share
the same Y (the merge invariant). -/
theorem skyline_invariant (st : SkyState) (h : SkyReach st) :
    (st.skyline.map SkyNode.Width).sum = st.maxWidth ∧
    List.Chain' (fun a b => a.X + a.Width = b.X) st.skyline ∧
    List.Chain' (fun a b => a.X < b.X) st.skyline ∧
    List.Chain' (fun a b => a.Y ≠ b.Y) st.skyline := by
  obtain ⟨hcov, hch⟩ := skyReach_inv st h
  obtain ⟨habut, hsort⟩ := covers_abut st.skyline 0 st.maxWidth hcov
  have hsum := covers_sum st.skyline 0 st.maxWidth hcov
  exact ⟨by omega, habut, hsort, hch⟩

/-- Witness state for the skyline invariant: two 10×10 rectangles inserted
into a 30×10 Skyline-BottomLeft engine. -/
def skylineWitnessState : SkyState :=
  (skyInsert (newSkyline 30 10 (Skyline ||| BottomLeft))
    [NewSizeID 1 10 10, NewSizeID 2 10 10]).1

/-- Witness for `skyline_invariant`, discharging reachability with a concrete
construction-then-insert derivation. -/
theorem skyline_invariant_witness :
    (skylineWitnessState.skyline.map SkyNode.Width).sum = skylineWitnessState.maxWidth ∧
    List.Chain' (fun a b => a.X + a.Width = b.X) skylineWitnessState.skyline ∧
    List.Chain' (fun a b => a.X < b.X) skylineWitnessState.skyline ∧
    List.Chain' (fun a b => a.Y ≠ b.Y) skylineWitnessState.skyline :=
  skyline_invariant skylineWitnessState
    (SkyReach.insert _ _ (SkyReach.new 30 10 (Skyline ||| BottomLeft)
      (by decide) (by decide)) (by decide))

/-! ## MaxRects free-list non-containment (C5) -/

/-- Neither rectangle contains the other. -/
def noContain (a b : Rect) : Prop := ¬ a.ContainsRect b ∧ ¬ b.ContainsRect a

theorem noContain_symm : Symmetric noContain := fun _ _ h => ⟨h.2, h.1⟩

/-- `n` is a sub-rectangle of `f` that is strictly smaller in at least one
dimension (the shape of every strip produced by `splitFreeNode`). -/
def subStrip (f n : Rect) : Prop :=
  f.ContainsRect n ∧ (n.Width < f.Width ∨ n.Height < f.Height)

theorem containsRect_trans (a b c : Rect) (h1 : a.ContainsRect b)
    (h2 : b.ContainsRect c) : a.ContainsRect c := by
  unfold Rect.ContainsRect at h1 h2 ⊢
  omega

/-! ## Non-overlap of packed rectangles (C1) -/

/-- The regions of the two rectangles are disjoint (their intersection is
empty or degenerate). -/
def RDisj (a b : Rect) : Prop :=
  min (a.X + a.Width) (b.X + b.Width) ≤ max a.X b.X ∨
  min (a.Y + a.Height) (b.Y + b.Height) ≤ max a.Y b.Y

theorem rdisj_symm : Symmetric RDisj := by
  intro a b h
  unfold RDisj at h ⊢
  omega

theorem rdisj_of_sub (a b a' : Rect) (h : RDisj a b) (hs : a.ContainsRect a') :
    RDisj a' b := by
  unfold RDisj at h ⊢
  unfold Rect.ContainsRect at hs
  omega

theorem intersect_area_zero (a b : Rect) (h : RDisj a b) :
    (a.Intersect b).Area = 0 := by
  unfold Rect.Intersect Rect.Area RDisj at *
  dsimp only
  split
  · rename_i hc
    dsimp only
    rcases h with h | h
    · rw [show min (a.X + a.Width) (b.X + b.Width) - max a.X b.X = 0 by omega]
      ring
    · rw [show min (a.Y + a.Height) (b.Y + b.Height) - max a.Y b.Y = 0 by omega]
      ring
  · rfl

theorem unpadRect_sub (r : Rect) (p : Int) : r.ContainsRect (unpadRect r p) := by
  simp only [unpadRect, Rect.ContainsRect]
  by_cases hp : p ≤ 0
  · rw [if_pos hp]
    omega
  · rw [if_neg hp]
    by_cases hx : r.X = 0
    · rw [if_pos hx]
      try dsimp only
      by_cases hy : r.Y = 0
      · rw [if_pos hy]
        try dsimp only
        omega
      · rw [if_neg hy]
        try dsimp only
        omega
    · rw [if_neg hx]
      try dsimp only
      by_cases hy : r.Y = 0
      · rw [if_pos hy]
        try dsimp only
        omega
      · rw [if_neg hy]
        try dsimp only
        omega

theorem padSize_mono (s : Size) (p : Int) :
    s.Width ≤ (padSize s p).Width ∧ s.Height ≤ (padSize s p).Height := by
  unfold padSize
  split <;> (try dsimp only) <;> omega

theorem forall₂_exists_right {R : Rect → Rect → Prop} :
    ∀ {l P : List Rect}, List.Forall₂ R l P → ∀ b ∈ l, ∃ u ∈ P, R b u := by
  intro l P h
  induction h with
  | nil => intro b hb; cases hb
  | cons hru htail ih =>
    intro b hb
    rcases List.mem_cons.mp hb with h | h
    · subst h
      exact ⟨_, List.mem_cons_self _ _, hru⟩
    · obtain ⟨u, hu, hr⟩ := ih b h
      exact ⟨u, List.mem_cons_of_mem _ hu, hr⟩

theorem pairwise_area0 (l P : List Rect)
    (hf : List.Forall₂ (fun r u => u.ContainsRect r) l P)
    (hp : P.Pairwise RDisj) :
    l.Pairwise (fun a b => (a.Intersect b).Area = 0) := by
  induction hf with
  | nil => exact List.Pairwise.nil
  | cons hru htail ih =>
    rename_i r u l' P'
    rw [List.pairwise_cons] at hp ⊢
    refine ⟨?_, ih hp.2⟩
    intro b hb
    obtain ⟨u', hu', hr'⟩ := forall₂_exists_right htail b hb
    have h1 : RDisj r u' := rdisj_of_sub u u' r (hp.1 u' hu') hru
    have h2 : RDisj b r := rdisj_of_sub u' r b (rdisj_symm h1) hr'
    exact intersect_area_zero r b (rdisj_symm h2)

theorem takeSet_le {α : Type} : ∀ (l : List α) (i j : Nat) (v : α), i ≤ j →
    (l.set j v).take i = l.take i
  | [], _, _, _, _ => by simp
  | _ :: _, i, 0, v, h => by
    have : i = 0 := Nat.le_zero.mp h
    simp [this]
  | _ :: _, 0, _+1, _, _ => by simp
  | a :: t, i+1, j+1, v, h => by
    simp only [List.set_cons_succ, List.take_succ_cons]
    rw [takeSet_le t i j v (Nat.succ_le_succ_iff.mp h)]

theorem dropSet_cons {α : Type} : ∀ (l : List α) (i : Nat) (v : α), i < l.length →
    (l.set i v).drop i = v :: l.drop (i+1)
  | [], _, _, h => by simp at h
  | _ :: _, 0, _, _ => by simp
  | a :: t, i+1, v, h => by
    simp only [List.set_cons_succ, List.drop_succ_cons]
    exact dropSet_cons t i v (by simpa using h)

theorem getD_mem {α : Type} [Inhabited α] (l : List α) (i : Nat) (h : i < l.length) :
    l.getD i default ∈ l := by
  rw [List.getD_eq_getElem _ _ h]
  exact List.getElem_mem h

theorem getD_drop_mem {α : Type} [Inhabited α] (l : List α) (L k : Nat)
    (h : L + k < l.length) :
    l.getD (L + k) default ∈ l.drop L := by
  have h1 : k < (l.drop L).length := by
    rw [List.length_drop]
    omega
  have h2 : (l.drop L).getD k default = l.getD (L + k) default := by
    rw [List.getD_eq_getElem _ _ h1, List.getD_eq_getElem _ _ h]
    exact List.getElem_drop _
  rw [← h2]
  exact getD_mem _ _ h1

theorem getD_cons_perm {α : Type} [Inhabited α] : ∀ (l : List α) (j : Nat),
    j < l.length → (l.getD j default :: l.eraseIdx j).Perm l
  | [], _, h => by simp at h
  | a :: t, 0, _ => by simp
  | a :: t, j+1, h => by
    simp only [List.getD_cons_succ, List.eraseIdx_cons_succ]
    exact (List.Perm.swap a (t.getD j default) (t.eraseIdx j)).trans
      ((getD_cons_perm t j (by simpa using h)).cons a)

theorem swapRem_perm {α : Type} [Inhabited α] : ∀ (l : List α) (i : Nat),
    i < l.length →
    ((l.set i (l.getD (l.length - 1) default)).dropLast).Perm (l.eraseIdx i)
  | [], _, h => by simp at h
  | [a], 0, _ => by simp
  | [a], i+1, h => by simp at h
  | a :: b :: t, 0, _ => by
    have hlen : (a :: b :: t).length - 1 = t.length + 1 := by simp
    rw [hlen]
    simp only [List.getD_cons_succ, List.set_cons_zero, List.eraseIdx_cons_zero]
    rw [List.dropLast_cons₂]
    have hne : (b :: t) ≠ [] := by simp
    have hg : (b :: t).getD t.length default = (b :: t).getLast hne := by
      rw [List.getD_eq_getElem _ _ (by simp), List.getLast_eq_getElem]
      simp
    rw [hg]
    have hp := (List.perm_append_singleton ((b :: t).getLast hne) (b :: t).dropLast).symm
    rw [List.dropLast_append_getLast hne] at hp
    exact hp
  | a :: b :: t, i+1, h => by
    have hlen : (a :: b :: t).length - 1 = (b :: t).length - 1 + 1 := by simp
    rw [hlen]
    simp only [List.getD_cons_succ, List.set_cons_succ, List.eraseIdx_cons_succ]
    obtain ⟨c, u, hcu⟩ : ∃ c u,
        (b :: t).set i ((b :: t).getD ((b :: t).length - 1) default) = c :: u := by
      cases i <;> exact ⟨_, _, rfl⟩
    rw [hcu, List.dropLast_cons₂, ← hcu]
    exact (swapRem_perm (b :: t) i (by simpa using h)).cons a

theorem eraseIdx_set_perm {α : Type} [Inhabited α] : ∀ (l : List α) (i j : Nat),
    i ≤ j → j < l.length →
    ((l.set i (l.getD j default)).eraseIdx j).Perm (l.eraseIdx i)
  | [], _, _, _, h => by simp at h
  | a :: t, 0, 0, _, _ => by simp
  | a :: t, 0, j+1, _, h => by
    simp only [List.getD_cons_succ, List.set_cons_zero, List.eraseIdx_cons_succ,
      List.eraseIdx_cons_zero]
    exact getD_cons_perm t j (by simpa using h)
  | a :: t, i+1, 0, hij, _ => by omega
  | a :: t, i+1, j+1, hij, h => by
    simp only [List.getD_cons_succ, List.set_cons_succ, List.eraseIdx_cons_succ]
    exact (eraseIdx_set_perm t i j (by omega) (by simpa using h)).cons a

theorem insertExit (nfr : List Rect) (L : Nat) (r : Rect) (hL : L ≤ nfr.length)
    (hpnc : nfr.Pairwise noContain) (hall : ∀ s ∈ nfr, noContain s r) :
    L ≤ (nfr ++ [r]).length ∧ (nfr ++ [r]).Pairwise noContain ∧
    (∀ n ∈ nfr ++ [r], n ∈ nfr ∨ n = r) ∧
    (∀ s ∈ (nfr ++ [r]).drop L, s ∈ nfr.drop L ∨ s = r) := by
  refine ⟨by simp; omega, ?_, ?_, ?_⟩
  · rw [List.pairwise_append]
    refine ⟨hpnc, List.pairwise_singleton _ _, fun a ha b hb => ?_⟩
    rw [List.mem_singleton] at hb
    subst hb
    exact hall a ha
  · intro x hx
    rcases List.mem_append.mp hx with h | h
    · exact .inl h
    · exact .inr (List.mem_singleton.mp h)
  · intro s hs
    rw [List.drop_append_of_le_length hL] at hs
    rcases List.mem_append.mp hs with h | h
    · exact .inl h
    · exact .inr (List.mem_singleton.mp h)

theorem insertNewFreeRectLoop_spec : ∀ (fuel : Nat) (nfr : List Rect) (L i : Nat)
    (r : Rect), fuel = L - i → i ≤ L → L ≤ nfr.length →
    nfr.Pairwise noContain →
    (∀ s ∈ nfr.drop L, noContain s r) →
    (∀ s ∈ nfr.take i, noContain s r) →
    (insertNewFreeRectLoop fuel nfr L i r).2 ≤
      (insertNewFreeRectLoop fuel nfr L i r).1.length ∧
    (insertNewFreeRectLoop fuel nfr L i r).1.Pairwise noContain ∧
    (∀ n ∈ (insertNewFreeRectLoop fuel nfr L i r).1, n ∈ nfr ∨ n = r) ∧
    (∀ s ∈ (insertNewFreeRectLoop fuel nfr L i r).1.drop
        (insertNewFreeRectLoop fuel nfr L i r).2, s ∈ nfr.drop L ∨ s = r) := by
  intro fuel
  induction fuel with
  | zero =>
    intro nfr L i r hfuel hiL hL hpnc hsuf htake
    have hieq : i = L := by omega
    subst hieq
    have hall : ∀ s ∈ nfr, noContain s r := by
      intro s hs
      rw [← List.take_append_drop i nfr] at hs
      rcases List.mem_append.mp hs with h | h
      · exact htake s h
      · exact hsuf s h
    exact insertExit nfr i r hL hpnc hall
  | succ m ih =>
    intro nfr L i r hfuel hiL hL hpnc hsuf htake
    by_cases hi : i < L
    · simp only [insertNewFreeRectLoop]
      rw [if_pos hi]
      by_cases hc1 : (nfr.getD i default).ContainsRect r
      · rw [if_pos hc1]
        exact ⟨hL, hpnc, fun n hn => .inl hn, fun s hs => .inl hs⟩
      · rw [if_neg hc1]
        by_cases hc2 : r.ContainsRect (nfr.getD i default)
        · rw [if_pos hc2]
          set L2 := L - 1 with hL2
          set nfr1 := nfr.set i (nfr.getD L2 default) with hnfr1
          set nfr2 := (nfr1.set L2 (nfr1.getD (nfr1.length - 1) default)).dropLast
            with hnfr2
          have hlen1 : nfr1.length = nfr.length := by
            rw [hnfr1, List.length_set]
          have hL2lt : L2 < nfr.length := by omega
          have hlen2 : nfr2.length = nfr.length - 1 := by
            rw [hnfr2, List.length_dropLast, List.length_set, hlen1]
          have hperm : nfr2.Perm (nfr.eraseIdx i) := by
            rw [hnfr2]
            exact (swapRem_perm nfr1 L2 (by omega)).trans
              (eraseIdx_set_perm nfr i L2 (by omega) hL2lt)
          have hpnc2 : nfr2.Pairwise noContain :=
            (hperm.pairwise_iff @noContain_symm).mpr
              (List.Pairwise.sublist (List.eraseIdx_sublist nfr i) hpnc)
          have hmem2 : ∀ x ∈ nfr2, x ∈ nfr := fun x hx =>
            (List.eraseIdx_sublist nfr i).subset (hperm.subset hx)
          have htake2 : nfr2.take i = nfr.take i := by
            rw [hnfr2, List.dropLast_eq_take, List.take_take]
            rw [List.length_set, hlen1, Nat.min_eq_left (by omega)]
            rw [takeSet_le _ i L2 _ (by omega), takeSet_le _ i i _ (le_refl i)]
          have hdropmem : ∀ s ∈ nfr2.drop L2, s ∈ nfr.drop L := by
            intro s hs
            rw [hnfr2, List.dropLast_eq_take, List.drop_take] at hs
            by_cases hLlen : L < nfr.length
            · have hs2 := List.mem_of_mem_take hs
              rw [dropSet_cons _ L2 _ (by omega)] at hs2
              rw [List.drop_set_of_lt _ _ (by omega : i < L2 + 1)] at hs2
              rw [show L2 + 1 = L by omega] at hs2
              rcases List.mem_cons.mp hs2 with hc | hmem
              · have hceq : nfr1.getD (nfr1.length - 1) default =
                    nfr.getD (nfr.length - 1) default := by
                  rw [hlen1, hnfr1, List.getD_eq_getElem?_getD,
                    List.getD_eq_getElem?_getD, List.getElem?_set_ne (by omega)]
                  exact (List.getD_eq_getElem?_getD _ _ _).symm
                rw [hc, hceq, show nfr.length - 1 = L + (nfr.length - 1 - L) by omega]
                exact getD_drop_mem nfr L _ (by omega)
              · exact hmem
            · exfalso
              rw [show (nfr1.set L2 (nfr1.getD (nfr1.length - 1) default)).length -
                  1 - L2 = 0 by rw [List.length_set, hlen1]; omega] at hs
              simp at hs
          have hrec := ih nfr2 L2 i r (by omega) (by omega) (by omega) hpnc2
            (fun s hs => hsuf s (hdropmem s hs))
            (by rw [htake2]; exact htake)
          refine ⟨hrec.1, hrec.2.1, ?_, ?_⟩
          · intro x hx
            rcases hrec.2.2.1 x hx with h | h
            · exact .inl (hmem2 x h)
            · exact .inr h
          · intro s hs
            rcases hrec.2.2.2 s hs with h | h
            · exact .inl (hdropmem s h)
            · exact .inr h
        · rw [if_neg hc2]
          have hi' : i < nfr.length := by omega
          have htake' : ∀ s ∈ nfr.take (i+1), noContain s r := by
            intro s hs
            rw [List.take_succ] at hs
            rcases List.mem_append.mp hs with h | h
            · exact htake s h
            · rw [List.getElem?_eq_getElem hi'] at h
              simp only [Option.toList_some, List.mem_singleton] at h
              subst h
              have hg : nfr.getD i default = nfr[i] := List.getD_eq_getElem _ _ hi'
              exact ⟨by rw [← hg]; exact hc1, by rw [← hg]; exact hc2⟩
          exact ih nfr L (i+1) r (by omega) (by omega) hL hpnc hsuf htake'
    · simp only [insertNewFreeRectLoop]
      rw [if_neg hi]
      have hieq : i = L := by omega
      subst hieq
      have hall : ∀ s ∈ nfr, noContain s r := by
        intro s hs
        rw [← List.take_append_drop i nfr] at hs
        rcases List.mem_append.mp hs with h | h
        · exact htake s h
        · exact hsuf s h
      exact insertExit nfr i r hL hpnc hall

theorem insertNewFreeRect_spec (nfr : List Rect) (L : Nat) (r : Rect)
    (hL : L ≤ nfr.length) (hpnc : nfr.Pairwise noContain)
    (hsuf : ∀ s ∈ nfr.drop L, noContain s r) :
    (insertNewFreeRect nfr L r).2 ≤ (insertNewFreeRect nfr L r).1.length ∧
    (insertNewFreeRect nfr L r).1.Pairwise noContain ∧
    (∀ n ∈ (insertNewFreeRect nfr L r).1, n ∈ nfr ∨ n = r) ∧
    (∀ s ∈ (insertNewFreeRect nfr L r).1.drop (insertNewFreeRect nfr L r).2,
      s ∈ nfr.drop L ∨ s = r) :=
  insertNewFreeRectLoop_spec L nfr L 0 r (by omega) (by omega) hL hpnc hsuf
    (by simp)

/-- Invariant carried through the strip insertions of one `splitFreeNode`
call: `nfr` is the incoming new-free list, `S` the strips offered so far. -/
def splitInv (nfr S : List Rect) (p : List Rect × Nat) : Prop :=
  p.2 ≤ p.1.length ∧ p.1.Pairwise noContain ∧
  (∀ n ∈ p.1, n ∈ nfr ∨ n ∈ S) ∧ (∀ s ∈ p.1.drop p.2, s ∈ S)

theorem splitInv_step (nfr S : List Rect) (p : List Rect × Nat) (c : Prop)
    [Decidable c] (str : Rect) (hinv : splitInv nfr S p)
    (hnc : ∀ s ∈ S, noContain s str) :
    splitInv nfr (S ++ [str]) (if c then insertNewFreeRect p.1 p.2 str else p) := by
  obtain ⟨h1, h2, h3, h4⟩ := hinv
  split
  · have hspec := insertNewFreeRect_spec p.1 p.2 str h1 h2
      (fun s hs => hnc s (h4 s hs))
    refine ⟨hspec.1, hspec.2.1, ?_, ?_⟩
    · intro n hn
      rcases hspec.2.2.1 n hn with h | h
      · rcases h3 n h with h' | h'
        · exact .inl h'
        · exact .inr (List.mem_append.mpr (.inl h'))
      · exact .inr (List.mem_append.mpr (.inr (List.mem_singleton.mpr h)))
    · intro s hs
      rcases hspec.2.2.2 s hs with h | h
      · exact List.mem_append.mpr (.inl (h4 s h))
      · exact List.mem_append.mpr (.inr (List.mem_singleton.mpr h))
  · refine ⟨h1, h2, ?_, ?_⟩
    · intro n hn
      rcases h3 n hn with h | h
      · exact .inl h
      · exact .inr (List.mem_append.mpr (.inl h))
    · intro s hs
      exact List.mem_append.mpr (.inl (h4 s hs))

/-- The four candidate strips of one `splitFreeNode` decomposition (top,
bottom, left, right of the used node inside the free node). -/
def stripTop (f node : Rect) : Rect := { f with Height := node.Y - f.Y }

/-- See `stripTop`. -/
def stripBot (f node : Rect) : Rect :=
  { f with Y := node.Y + node.Height, Height := f.Y + f.Height - (node.Y + node.Height) }

/-- See `stripTop`. -/
def stripLeft (f node : Rect) : Rect := { f with Width := node.X - f.X }

/-- See `stripTop`. -/
def stripRight (f node : Rect) : Rect :=
  { f with X := node.X + node.Width, Width := f.X + f.Width - (node.X + node.Width) }

/-- Region disjointness in the exact shape of the early-return guard of
`splitFreeNode` (the free node does not overlap the used node). -/
def splitNoOv (f node : Rect) : Prop :=
  node.X ≥ f.X + f.Width ∨ node.X + node.Width ≤ f.X ∨
  node.Y ≥ f.Y + f.Height ∨ node.Y + node.Height ≤ f.Y

theorem splitFreeNode_spec (f node : Rect) (nfr : List Rect)
    (hpnc : nfr.Pairwise noContain) :
    (splitFreeNode f node nfr).2.Pairwise noContain ∧
    (∀ n ∈ (splitFreeNode f node nfr).2, n ∈ nfr ∨ (subStrip f n ∧ RDisj n node)) := by
  simp only [splitFreeNode]
  by_cases hearly : node.X ≥ f.X + f.Width ∨ node.X + node.Width ≤ f.X ∨
      node.Y ≥ f.Y + f.Height ∨ node.Y + node.Height ≤ f.Y
  · rw [if_pos hearly]
    exact ⟨hpnc, fun n hn => .inl hn⟩
  · rw [if_neg hearly]
    push_neg at hearly
    obtain ⟨hx1, hx2, hy1, hy2⟩ := hearly
    rw [if_pos (show node.X < f.X + f.Width ∧ node.X + node.Width > f.X from
      ⟨hx1, hx2⟩)]
    rw [if_pos (show node.Y < f.Y + f.Height ∧ node.Y + node.Height > f.Y from
      ⟨hy1, hy2⟩)]
    have sT : subStrip f (stripTop f node) := by
      unfold subStrip Rect.ContainsRect stripTop
      dsimp only
      omega
    have sB : subStrip f (stripBot f node) := by
      unfold subStrip Rect.ContainsRect stripBot
      dsimp only
      omega
    have sL : subStrip f (stripLeft f node) := by
      unfold subStrip Rect.ContainsRect stripLeft
      dsimp only
      omega
    have sR : subStrip f (stripRight f node) := by
      unfold subStrip Rect.ContainsRect stripRight
      dsimp only
      omega
    have rT : RDisj (stripTop f node) node := by
      unfold RDisj stripTop
      dsimp only
      omega
    have rB : RDisj (stripBot f node) node := by
      unfold RDisj stripBot
      dsimp only
      omega
    have rL : RDisj (stripLeft f node) node := by
      unfold RDisj stripLeft
      dsimp only
      omega
    have rR : RDisj (stripRight f node) node := by
      unfold RDisj stripRight
      dsimp only
      omega
    have nTB : noContain (stripTop f node) (stripBot f node) := by
      unfold noContain Rect.ContainsRect stripTop stripBot
      dsimp only
      omega
    have nTL : noContain (stripTop f node) (stripLeft f node) := by
      unfold noContain Rect.ContainsRect stripTop stripLeft
      dsimp only
      omega
    have nBL : noContain (stripBot f node) (stripLeft f node) := by
      unfold noContain Rect.ContainsRect stripBot stripLeft
      dsimp only
      omega
    have nTR : noContain (stripTop f node) (stripRight f node) := by
      unfold noContain Rect.ContainsRect stripTop stripRight
      dsimp only
      omega
    have nBR : noContain (stripBot f node) (stripRight f node) := by
      unfold noContain Rect.ContainsRect stripBot stripRight
      dsimp only
      omega
    have nLR : noContain (stripLeft f node) (stripRight f node) := by
      unfold noContain Rect.ContainsRect stripLeft stripRight
      dsimp only
      omega
    have i0 : splitInv nfr [] (nfr, nfr.length) :=
      ⟨by simp, hpnc, fun n hn => .inl hn, by simp⟩
    have iA := splitInv_step nfr [] (nfr, nfr.length)
      (node.Y > f.Y ∧ node.Y < f.Y + f.Height) (stripTop f node) i0 (by simp)
    have iB := splitInv_step nfr ([] ++ [stripTop f node]) _
      (node.Y + node.Height < f.Y + f.Height) (stripBot f node) iA
      (by
        intro s hs
        simp only [List.nil_append, List.mem_singleton] at hs
        subst hs
        exact nTB)
    have iC := splitInv_step nfr ([] ++ [stripTop f node] ++ [stripBot f node]) _
      (node.X > f.X ∧ node.X < f.X + f.Width) (stripLeft f node) iB
      (by
        intro s hs
        simp only [List.nil_append, List.mem_append, List.mem_singleton] at hs
        rcases hs with hs | hs <;> subst hs
        · exact nTL
        · exact nBL)
    have iD := splitInv_step nfr
      ([] ++ [stripTop f node] ++ [stripBot f node] ++ [stripLeft f node]) _
      (node.X + node.Width < f.X + f.Width) (stripRight f node) iC
      (by
        intro s hs
        simp only [List.nil_append, List.mem_append, List.mem_singleton] at hs
        rcases hs with (hs | hs) | hs <;> subst hs
        · exact nTR
        · exact nBR
        · exact nLR)
    refine ⟨iD.2.1, ?_⟩
    intro n hn
    rcases iD.2.2.1 n hn with h | h
    · exact .inl h
    · right
      simp only [List.nil_append, List.mem_append, List.mem_singleton] at h
      rcases h with ((h | h) | h) | h <;> subst h
      · exact ⟨sT, rT⟩
      · exact ⟨sB, rB⟩
      · exact ⟨sL, rL⟩
      · exact ⟨sR, rR⟩

theorem placeLoop_spec : ∀ (fuel : Nat) (free : List Rect) (node : Rect) (i : Nat)
    (nfr F0 : List Rect), fuel = free.length - i → i ≤ free.length →
    free.Pairwise noContain → (∀ x ∈ free, x ∈ F0) →
    nfr.Pairwise noContain → (∀ n ∈ nfr, ∃ g ∈ F0, subStrip g n) →
    (placeLoop fuel free node i nfr).1.Pairwise noContain ∧
    (∀ x ∈ (placeLoop fuel free node i nfr).1, x ∈ F0) ∧
    (placeLoop fuel free node i nfr).2.Pairwise noContain ∧
    (∀ n ∈ (placeLoop fuel free node i nfr).2, ∃ g ∈ F0, subStrip g n) := by
  intro fuel
  induction fuel with
  | zero =>
    intro free node i nfr F0 _ _ h1 h2 h3 h4
    exact ⟨h1, h2, h3, h4⟩
  | succ m ih =>
    intro free node i nfr F0 hfuel hile h1 h2 h3 h4
    by_cases hi : i < free.length
    · simp only [placeLoop]
      rw [if_pos hi]
      have hsp := splitFreeNode_spec (free.getD i default) node nfr h3
      have hstrip2 : ∀ n ∈ (splitFreeNode (free.getD i default) node nfr).2,
          ∃ g ∈ F0, g.ContainsRect n ∧ (n.Width < g.Width ∨ n.Height < g.Height) := by
        intro n hn
        rcases hsp.2 n hn with h | h
        · exact h4 n h
        · exact ⟨free.getD i default, h2 _ (getD_mem free i hi), h.1⟩
      by_cases hb : (splitFreeNode (free.getD i default) node nfr).1 = true
      · rw [if_pos hb]
        have hperm := swapRem_perm free i hi
        exact ih _ node i _ F0
          (by rw [List.length_dropLast, List.length_set]; omega)
          (by rw [List.length_dropLast, List.length_set]; omega)
          ((hperm.pairwise_iff @noContain_symm).mpr
            (List.Pairwise.sublist (List.eraseIdx_sublist free i) h1))
          (fun x hx => h2 x ((List.eraseIdx_sublist free i).subset (hperm.subset hx)))
          hsp.1 hstrip2
      · rw [if_neg hb]
        exact ih free node (i+1) _ F0 (by omega) (by omega) h1 h2 hsp.1 hstrip2
    · simp only [placeLoop]
      rw [if_neg hi]
      exact ⟨h1, h2, h3, h4⟩

theorem pruneInnerLoop_spec : ∀ (fuel : Nat) (f : Rect) (nfr : List Rect) (j : Nat),
    fuel = nfr.length - j → j ≤ nfr.length →
    nfr.Pairwise noContain → (∀ s ∈ nfr.take j, ¬ f.ContainsRect s) →
    (pruneInnerLoop fuel f nfr j).Pairwise noContain ∧
    (∀ s ∈ pruneInnerLoop fuel f nfr j, s ∈ nfr) ∧
    (∀ s ∈ pruneInnerLoop fuel f nfr j, ¬ f.ContainsRect s) := by
  intro fuel
  induction fuel with
  | zero =>
    intro f nfr j hfuel hj hpnc htake
    have hjl : nfr.length ≤ j := by omega
    rw [List.take_of_length_le hjl] at htake
    exact ⟨hpnc, fun s hs => hs, htake⟩
  | succ m ih =>
    intro f nfr j hfuel hj hpnc htake
    by_cases hjlt : j < nfr.length
    · simp only [pruneInnerLoop]
      rw [if_pos hjlt]
      by_cases hc : f.ContainsRect (nfr.getD j default)
      · rw [if_pos hc]
        have hperm := swapRem_perm nfr j hjlt
        have htake2 : ((nfr.set j (nfr.getD (nfr.length - 1) default)).dropLast).take j
            = nfr.take j := by
          rw [List.dropLast_eq_take, List.take_take, List.length_set,
            Nat.min_eq_left (by omega), takeSet_le _ j j _ (le_refl j)]
        have hrec := ih f _ j
          (by rw [List.length_dropLast, List.length_set]; omega)
          (by rw [List.length_dropLast, List.length_set]; omega)
          ((hperm.pairwise_iff @noContain_symm).mpr
            (List.Pairwise.sublist (List.eraseIdx_sublist nfr j) hpnc))
          (by rw [htake2]; exact htake)
        refine ⟨hrec.1, ?_, hrec.2.2⟩
        intro s hs
        exact (List.eraseIdx_sublist nfr j).subset (hperm.subset (hrec.2.1 s hs))
      · rw [if_neg hc]
        have htake' : ∀ s ∈ nfr.take (j+1), ¬ f.ContainsRect s := by
          intro s hs
          rw [List.take_succ] at hs
          rcases List.mem_append.mp hs with h | h
          · exact htake s h
          · rw [List.getElem?_eq_getElem hjlt] at h
            simp only [Option.toList_some, List.mem_singleton] at h
            subst h
            rw [← List.getD_eq_getElem nfr default hjlt]
            exact hc
        exact ih f nfr (j+1) (by omega) (by omega) hpnc htake'
    · simp only [pruneInnerLoop]
      rw [if_neg hjlt]
      have hjl : nfr.length ≤ j := by omega
      rw [List.take_of_length_le hjl] at htake
      exact ⟨hpnc, fun s hs => hs, htake⟩

theorem pruneOuterGo_spec : ∀ (free nfr : List Rect), nfr.Pairwise noContain →
    (pruneOuterGo free nfr).Pairwise noContain ∧
    (∀ s ∈ pruneOuterGo free nfr, s ∈ nfr) ∧
    (∀ f ∈ free, ∀ s ∈ pruneOuterGo free nfr, ¬ f.ContainsRect s)
  | [], nfr, hpnc => ⟨hpnc, fun s hs => hs, fun f hf => by cases hf⟩
  | f :: fs, nfr, hpnc => by
    have hinner := pruneInnerLoop_spec nfr.length f nfr 0 (by omega) (by omega)
      hpnc (by simp)
    have hrec := pruneOuterGo_spec fs (pruneInner f nfr) hinner.1
    refine ⟨hrec.1, ?_, ?_⟩
    · intro s hs
      exact hinner.2.1 s (hrec.2.1 s hs)
    · intro g hg s hs
      rcases List.mem_cons.mp hg with h | h
      · subst h
        exact hinner.2.2 s (hrec.2.1 s hs)
      · exact hrec.2.2 g h s hs

theorem freeRects_append_pnc (F0 free2 nfr2 : List Rect)
    (hF0 : F0.Pairwise noContain)
    (h1 : free2.Pairwise noContain) (h2 : ∀ x ∈ free2, x ∈ F0)
    (h3 : nfr2.Pairwise noContain)
    (h4 : ∀ n ∈ nfr2, ∃ g ∈ F0, subStrip g n)
    (h5 : ∀ f ∈ free2, ∀ n ∈ nfr2, ¬ f.ContainsRect n) :
    (free2 ++ nfr2).Pairwise noContain := by
  rw [List.pairwise_append]
  refine ⟨h1, h3, ?_⟩
  intro x hx n hn
  refine ⟨h5 x hx n hn, fun hcon => ?_⟩
  obtain ⟨g, hg, hgc, hstrict⟩ := h4 n hn
  by_cases hxg : x = g
  · subst hxg
    unfold Rect.ContainsRect at hgc hcon
    omega
  · exact (hF0.forall noContain_symm (h2 x hx) hg hxg).2
      (containsRect_trans g n x hgc hcon)

theorem placeRect_spec (st : MRState) (node : Rect)
    (hpnc : st.freeRects.Pairwise noContain) (hnfr : st.newFreeRects = []) :
    (placeRect st node).freeRects.Pairwise noContain ∧
    (placeRect st node).newFreeRects = [] := by
  have hmain := placeLoop_spec st.freeRects.length st.freeRects node 0
    st.newFreeRects st.freeRects (by omega) (by omega) hpnc (fun x h => h)
    (by rw [hnfr]; exact List.Pairwise.nil)
    (by rw [hnfr]; intro n hn; simp at hn)
  obtain ⟨q1, q2, q3, q4⟩ := hmain
  set r := placeLoop st.freeRects.length st.freeRects node 0 st.newFreeRects with hr
  have hpr := pruneOuterGo_spec r.1 r.2 q3
  refine ⟨?_, rfl⟩
  show (r.1 ++ pruneOuterGo r.1 r.2).Pairwise noContain
  exact freeRects_append_pnc st.freeRects r.1 (pruneOuterGo r.1 r.2) hpnc q1 q2
    hpr.1 (fun n hn => q4 n (hpr.2.1 n hn)) hpr.2.2

theorem mrRound_inv (st : MRState) (sizes : List Size) (st2 : MRState)
    (sizes2 : List Size) (hr : mrRound st sizes = some (st2, sizes2))
    (hpnc : st.freeRects.Pairwise noContain) (hnfr : st.newFreeRects = []) :
    st2.freeRects.Pairwise noContain ∧ st2.newFreeRects = [] := by
  unfold mrRound at hr
  split at hr
  · cases hr
  · rename_i bestNode s1 s2 bi heq
    simp only [Option.some.injEq, Prod.mk.injEq] at hr
    obtain ⟨hst2, hsizes2⟩ := hr
    have hp := placeRect_spec st bestNode hpnc hnfr
    constructor
    · rw [← hst2]
      exact hp.1
    · rw [← hst2]
      exact hp.2

theorem mrInsertLoop_inv : ∀ (fuel : Nat) (st : MRState) (sizes : List Size),
    st.freeRects.Pairwise noContain → st.newFreeRects = [] →
    (mrInsertLoop fuel st sizes).1.freeRects.Pairwise noContain ∧
    (mrInsertLoop fuel st sizes).1.newFreeRects = []
  | 0, st, sizes, h1, h2 => ⟨h1, h2⟩
  | fuel+1, st, sizes, h1, h2 => by
    rcases hr : mrRound st sizes with _ | ⟨st2, sizes2⟩
    · simpa [mrInsertLoop, hr] using (⟨h1, h2⟩ :
        st.freeRects.Pairwise noContain ∧ st.newFreeRects = [])
    · have h := mrRound_inv st sizes st2 sizes2 hr h1 h2
      simpa [mrInsertLoop, hr] using mrInsertLoop_inv fuel st2 sizes2 h.1 h.2

/-- MaxRects-engine states reachable from a fresh (or reset) engine by
`Insert` calls and configuration changes. -/
inductive MRReach : MRState → Prop where
  | new : ∀ (width height : Int) (heuristic : Nat),
      MRReach (newMaxRects width height heuristic)
  | reset : ∀ st (width height : Int), MRReach st → MRReach (mrReset st width height)
  | insert : ∀ st sizes, MRReach st → MRReach (mrInsert st sizes).1
  | allowFlip : ∀ st b, MRReach st → MRReach { st with allowFlip := b }
  | padding : ∀ st p, MRReach st → MRReach { st with padding := p }

theorem mrReach_inv (st : MRState) (h : MRReach st) :
    st.freeRects.Pairwise noContain ∧ st.newFreeRects = [] := by
  induction h with
  | new width height heuristic => exact ⟨List.pairwise_singleton _ _, rfl⟩
  | reset st width height hst ih => exact ⟨List.pairwise_singleton _ _, rfl⟩
  | insert st sizes hst ih => exact mrInsertLoop_inv sizes.length st sizes ih.1 ih.2
  | allowFlip st b hst ih => exact ih
  | padding st p hst ih => exact ih

/-- **C5**: in every MaxRects-engine state reachable from `Reset` by `Insert`
calls (each of whose placements runs `placeRect` followed by
`pruneFreeList`), no free rectangle is contained in any other free rectangle
of the list.  New strips are checked against each other by
`insertNewFreeRectangle`, against the surviving old rectangles by
`pruneFreeList`, and a new strip can never contain a surviving old rectangle
because it is strictly smaller than the (removed) free rectangle it was cut
from. -/
theorem maxrects_no_free_containment (st : MRState) (h : MRReach st) :
    st.freeRects.Pairwise (fun a b => ¬ a.ContainsRect b ∧ ¬ b.ContainsRect a) :=
  (mrReach_inv st h).1

/-- Witness state for the MaxRects free-list invariant: two sizes inserted
into a fresh 10×10 MaxRects-BSSF engine. -/
def mrWitnessState : MRState :=
  (mrInsert (newMaxRects 10 10 (MaxRects ||| BestShortSideFit))
    [NewSizeID 1 3 3, NewSizeID 2 4 4]).1

/-- Witness for `maxrects_no_free_containment`, discharging reachability with
a concrete construction-then-insert derivation. -/
theorem maxrects_no_free_containment_witness :
    mrWitnessState.freeRects.Pairwise
      (fun a b => ¬ a.ContainsRect b ∧ ¬ b.ContainsRect a) :=
  maxrects_no_free_containment mrWitnessState
    (MRReach.insert _ _ (MRReach.new 10 10 (MaxRects ||| BestShortSideFit)))


/-- The node produced by a MaxRects position finder: either the zero node
(height 0, nothing fits) or a corner placement inside some free rectangle. -/
def mrNodeOk (free : List Rect) (node : Rect) : Prop :=
  node.Height = 0 ∨ ∃ fr ∈ free, node.X = fr.X ∧ node.Y = fr.Y ∧
    node.Width ≤ fr.Width ∧ node.Height ≤ fr.Height

theorem findBLLoop_nodeOk (allowFlip : Bool) (width height : Int)
    (free : List Rect) : ∀ (l : List Rect) (acc : Rect × Int × Int),
    (∀ f ∈ l, f ∈ free) → mrNodeOk free acc.1 →
    mrNodeOk free (findBLLoop allowFlip width height l acc).1
  | [], _, _, hacc => hacc
  | f :: fs, (node, bY, bX), hl, hacc => by
    simp only [findBLLoop]
    apply findBLLoop_nodeOk allowFlip width height free fs _
      (fun g hg => hl g (List.mem_cons_of_mem f hg))
    have hf : f ∈ free := hl f (List.mem_cons_self f fs)
    split_ifs <;>
      first
        | exact hacc
        | (refine .inr ⟨f, hf, ?_, ?_, ?_, ?_⟩ <;> dsimp only <;> omega)

theorem findBSSFLoop_nodeOk (allowFlip : Bool) (width height : Int)
    (free : List Rect) : ∀ (l : List Rect) (acc : Rect × Int × Int),
    (∀ f ∈ l, f ∈ free) → mrNodeOk free acc.1 →
    mrNodeOk free (findBSSFLoop allowFlip width height l acc).1
  | [], _, _, hacc => hacc
  | f :: fs, (node, b1, b2), hl, hacc => by
    simp only [findBSSFLoop]
    apply findBSSFLoop_nodeOk allowFlip width height free fs _
      (fun g hg => hl g (List.mem_cons_of_mem f hg))
    have hf : f ∈ free := hl f (List.mem_cons_self f fs)
    split_ifs <;>
      first
        | exact hacc
        | (refine .inr ⟨f, hf, ?_, ?_, ?_, ?_⟩ <;> dsimp only <;> omega)

theorem findBLSFLoop_nodeOk (allowFlip : Bool) (width height : Int)
    (free : List Rect) : ∀ (l : List Rect) (acc : Rect × Int × Int),
    (∀ f ∈ l, f ∈ free) → mrNodeOk free acc.1 →
    mrNodeOk free (findBLSFLoop allowFlip width height l acc).1
  | [], _, _, hacc => hacc
  | f :: fs, (node, b1, b2), hl, hacc => by
    simp only [findBLSFLoop]
    apply findBLSFLoop_nodeOk allowFlip width height free fs _
      (fun g hg => hl g (List.mem_cons_of_mem f hg))
    have hf : f ∈ free := hl f (List.mem_cons_self f fs)
    split_ifs <;>
      first
        | exact hacc
        | (refine .inr ⟨f, hf, ?_, ?_, ?_, ?_⟩ <;> dsimp only <;> omega)

theorem findBAFLoop_nodeOk (allowFlip : Bool) (width height : Int)
    (free : List Rect) : ∀ (l : List Rect) (acc : Rect × Int × Int),
    (∀ f ∈ l, f ∈ free) → mrNodeOk free acc.1 →
    mrNodeOk free (findBAFLoop allowFlip width height l acc).1
  | [], _, _, hacc => hacc
  | f :: fs, (node, b1, b2), hl, hacc => by
    simp only [findBAFLoop]
    apply findBAFLoop_nodeOk allowFlip width height free fs _
      (fun g hg => hl g (List.mem_cons_of_mem f hg))
    have hf : f ∈ free := hl f (List.mem_cons_self f fs)
    split_ifs <;>
      first
        | exact hacc
        | (refine .inr ⟨f, hf, ?_, ?_, ?_, ?_⟩ <;> dsimp only <;> omega)

theorem findCPLoop_nodeOk (allowFlip : Bool) (maxW maxH : Int)
    (packed : List Rect) (width height : Int) (free : List Rect) :
    ∀ (l : List Rect) (acc : Rect × Int),
    (∀ f ∈ l, f ∈ free) → mrNodeOk free acc.1 →
    mrNodeOk free (findCPLoop allowFlip maxW maxH packed width height l acc).1
  | [], _, _, hacc => hacc
  | f :: fs, (node, b1), hl, hacc => by
    simp only [findCPLoop]
    apply findCPLoop_nodeOk allowFlip maxW maxH packed width height free fs _
      (fun g hg => hl g (List.mem_cons_of_mem f hg))
    have hf : f ∈ free := hl f (List.mem_cons_self f fs)
    split_ifs <;>
      first
        | exact hacc
        | (refine .inr ⟨f, hf, ?_, ?_, ?_, ?_⟩ <;> dsimp only <;> omega)

theorem mrFindNode_nodeOk (st : MRState) (width height : Int) :
    mrNodeOk st.freeRects (mrFindNode st width height).1 := by
  have hinit : mrNodeOk st.freeRects (default : Rect) := .inl rfl
  unfold mrFindNode
  cases st.fit
  · exact findBAFLoop_nodeOk _ _ _ _ _ _ (fun f hf => hf) hinit
  · exact findBLLoop_nodeOk _ _ _ _ _ _ (fun f hf => hf) hinit
  · exact findCPLoop_nodeOk _ _ _ _ _ _ _ _ _ (fun f hf => hf) hinit
  · exact findBLSFLoop_nodeOk _ _ _ _ _ _ (fun f hf => hf) hinit
  · exact findBSSFLoop_nodeOk _ _ _ _ _ _ (fun f hf => hf) hinit

theorem mrScoreRect_nodeOk (st : MRState) (width height : Int)
    (hs : (mrScoreRect st width height).2.1 ≠ MaxInt) :
    ∃ fr ∈ st.freeRects, (mrScoreRect st width height).1.X = fr.X ∧
      (mrScoreRect st width height).1.Y = fr.Y ∧
      (mrScoreRect st width height).1.Width ≤ fr.Width ∧
      (mrScoreRect st width height).1.Height ≤ fr.Height := by
  unfold mrScoreRect at hs ⊢
  by_cases hz : (mrFindNode st width height).1.Height = 0
  · rw [if_pos hz] at hs
    exact absurd rfl hs
  · rw [if_neg hz] at hs ⊢
    rcases mrFindNode_nodeOk st width height with h | h
    · exact absurd h hz
    · exact h

theorem mrScoreRect_fst (st : MRState) (width height : Int) :
    (mrScoreRect st width height).1 = (mrFindNode st width height).1 := by
  simp only [mrScoreRect]
  split <;> rfl

theorem mrNodeOk_id (free : List Rect) (node : Rect) (i : Int)
    (h : mrNodeOk free node) : mrNodeOk free { node with ID := i } := by
  rcases h with h | ⟨fr, hfr, h1, h2, h3, h4⟩
  · exact .inl h
  · exact .inr ⟨fr, hfr, h1, h2, h3, h4⟩

theorem mrSelect_nodeOk (st : MRState) : ∀ (sizes : List Size) (i : Nat)
    (acc : Rect × Int × Int × Option Nat),
    (∀ j, acc.2.2.2 = some j → mrNodeOk st.freeRects acc.1) →
    (∀ j, (mrSelect st sizes i acc).2.2.2 = some j →
      mrNodeOk st.freeRects (mrSelect st sizes i acc).1)
  | [], _, _, hacc => hacc
  | size :: rest, i, (bestNode, b1, b2, bidx), hacc => by
    simp only [mrSelect]
    split
    · apply mrSelect_nodeOk st rest (i+1)
      intro j _
      have h := mrFindNode_nodeOk st (padSize size st.padding).Width
        (padSize size st.padding).Height
      rw [← mrScoreRect_fst] at h
      exact mrNodeOk_id _ _ _ h
    · exact mrSelect_nodeOk st rest (i+1) _ hacc

/-- The region of a zero-height rectangle is empty, so it is disjoint from
everything. -/
theorem rdisj_height0 (a b : Rect) (h : a.Height = 0) : RDisj a b := by
  unfold RDisj
  omega

theorem rdisj_of_noOv (f node : Rect) (h : splitNoOv f node) : RDisj f node := by
  unfold splitNoOv at h
  unfold RDisj
  omega

theorem splitFreeNode_false_guard (f node : Rect) (nfr : List Rect)
    (h : (splitFreeNode f node nfr).1 = false) : splitNoOv f node := by
  by_cases hg : node.X ≥ f.X + f.Width ∨ node.X + node.Width ≤ f.X ∨
      node.Y ≥ f.Y + f.Height ∨ node.Y + node.Height ≤ f.Y
  · exact hg
  · exfalso
    rw [show (splitFreeNode f node nfr).1 = true by
      simp only [splitFreeNode]
      rw [if_neg hg]] at h
    cases h

theorem placeLoopC1 : ∀ (fuel : Nat) (free : List Rect) (node : Rect) (i : Nat)
    (nfr : List Rect), fuel = free.length - i → i ≤ free.length →
    nfr.Pairwise noContain →
    (∀ n ∈ nfr, RDisj n node) →
    (∀ x ∈ free.take i, splitNoOv x node) →
    (∀ x ∈ (placeLoop fuel free node i nfr).1, splitNoOv x node) ∧
    (∀ n ∈ (placeLoop fuel free node i nfr).2, RDisj n node) := by
  intro fuel
  induction fuel with
  | zero =>
    intro free node i nfr hfuel hile hpnc hnd htake
    have : free.length ≤ i := by omega
    rw [List.take_of_length_le this] at htake
    exact ⟨htake, hnd⟩
  | succ m ih =>
    intro free node i nfr hfuel hile hpnc hnd htake
    by_cases hi : i < free.length
    · simp only [placeLoop]
      rw [if_pos hi]
      have hsp := splitFreeNode_spec (free.getD i default) node nfr hpnc
      have hnd2 : ∀ n ∈ (splitFreeNode (free.getD i default) node nfr).2,
          RDisj n node := by
        intro n hn
        rcases hsp.2 n hn with h | h
        · exact hnd n h
        · exact h.2
      by_cases hb : (splitFreeNode (free.getD i default) node nfr).1 = true
      · rw [if_pos hb]
        have htake2 : ((free.set i (free.getD (free.length - 1) default)).dropLast).take i
            = free.take i := by
          rw [List.dropLast_eq_take, List.take_take, List.length_set,
            Nat.min_eq_left (by omega), takeSet_le _ i i _ (le_refl i)]
        exact ih _ node i _
          (by rw [List.length_dropLast, List.length_set]; omega)
          (by rw [List.length_dropLast, List.length_set]; omega)
          hsp.1 hnd2 (by rw [htake2]; exact htake)
      · rw [if_neg hb]
        have hguard : splitNoOv (free.getD i default) node :=
          splitFreeNode_false_guard _ _ _ (by simpa using hb)
        have htake' : ∀ x ∈ free.take (i+1), splitNoOv x node := by
          intro x hx
          rw [List.take_succ] at hx
          rcases List.mem_append.mp hx with h | h
          · exact htake x h
          · rw [List.getElem?_eq_getElem hi] at h
            simp only [Option.toList_some, List.mem_singleton] at h
            subst h
            rw [← List.getD_eq_getElem free default hi]
            exact hguard
        exact ih free node (i+1) _ (by omega) (by omega) hsp.1 hnd2 htake'
    · simp only [placeLoop]
      rw [if_neg hi]
      have : free.length ≤ i := by omega
      rw [List.take_of_length_le this] at htake
      exact ⟨htake, hnd⟩

/-- Ghost invariant of the MaxRects engine for the non-overlap claim: the
(padded) footprints of the placed nodes are pairwise disjoint, each stored
packed rectangle sits inside its footprint, and every free rectangle is
disjoint from every footprint. -/
def MRGhost (st : MRState) : Prop :=
  ∃ P : List Rect,
    List.Forall₂ (fun r u => u.ContainsRect r) st.packed P ∧
    P.Pairwise RDisj ∧
    ∀ fr ∈ st.freeRects, ∀ u ∈ P, RDisj fr u

theorem placeRectC1 (st : MRState) (node : Rect) (P : List Rect)
    (hpnc : st.freeRects.Pairwise noContain) (hnfr : st.newFreeRects = [])
    (hfr : ∀ fr ∈ st.freeRects, ∀ u ∈ P, RDisj fr u) :
    ∀ fr' ∈ (placeRect st node).freeRects,
      (∀ u ∈ P, RDisj fr' u) ∧ RDisj fr' node := by
  have hmain := placeLoop_spec st.freeRects.length st.freeRects node 0
    st.newFreeRects st.freeRects (by omega) (by omega) hpnc (fun x h => h)
    (by rw [hnfr]; exact List.Pairwise.nil)
    (by rw [hnfr]; intro n hn; simp at hn)
  obtain ⟨q1, q2, q3, q4⟩ := hmain
  have hc1 := placeLoopC1 st.freeRects.length st.freeRects node 0
    st.newFreeRects (by omega) (by omega)
    (by rw [hnfr]; exact List.Pairwise.nil)
    (by rw [hnfr]; intro n hn; simp at hn)
    (by intro x hx; simp at hx)
  set r := placeLoop st.freeRects.length st.freeRects node 0 st.newFreeRects with hrdef
  have hpr := pruneOuterGo_spec r.1 r.2 q3
  intro fr' hfr'
  have hfr'2 : fr' ∈ r.1 ++ pruneOuterGo r.1 r.2 := hfr'
  rcases List.mem_append.mp hfr'2 with h | h
  · refine ⟨fun u hu => hfr fr' (q2 fr' h) u hu, rdisj_of_noOv _ _ (hc1.1 fr' h)⟩
  · have hmem := hpr.2.1 fr' h
    obtain ⟨g, hg, hsub⟩ := q4 fr' hmem
    refine ⟨fun u hu => rdisj_of_sub g u fr' (hfr g hg u hu) hsub.1, hc1.2 fr' hmem⟩

theorem forall₂_append_single {R : Rect → Rect → Prop} :
    ∀ {l P : List Rect}, List.Forall₂ R l P → ∀ {a b : Rect}, R a b →
    List.Forall₂ R (l ++ [a]) (P ++ [b]) := by
  intro l P h
  induction h with
  | nil => exact fun hab => List.Forall₂.cons hab List.Forall₂.nil
  | cons hx _ ih => exact fun hab => List.Forall₂.cons hx (ih hab)

theorem mrRoundC1 (st : MRState) (sizes : List Size) (st2 : MRState)
    (sizes2 : List Size) (hr : mrRound st sizes = some (st2, sizes2))
    (hpnc : st.freeRects.Pairwise noContain) (hnfr : st.newFreeRects = [])
    (hg : MRGhost st) : MRGhost st2 := by
  obtain ⟨P, hf2, hpw, hfd⟩ := hg
  unfold mrRound at hr
  split at hr
  · cases hr
  · rename_i bestNode s1 s2 bi heq
    simp only [Option.some.injEq, Prod.mk.injEq] at hr
    obtain ⟨hst2, hsizes2⟩ := hr
    have hsel := mrSelect_nodeOk st sizes 0 (default, MaxInt, MaxInt, none)
      (fun j hj => by cases hj)
    rw [heq] at hsel
    have hok : mrNodeOk st.freeRects bestNode := hsel bi rfl
    have hnode_all : ∀ u ∈ P, RDisj u bestNode := by
      intro u hu
      rcases hok with h0 | ⟨fr, hfr, h1, h2, h3, h4⟩
      · exact rdisj_symm (rdisj_height0 bestNode u h0)
      · have hcont : fr.ContainsRect bestNode := by
          unfold Rect.ContainsRect
          omega
        exact rdisj_symm (rdisj_of_sub fr u bestNode (hfd fr hfr u hu) hcont)
    have hplace := placeRectC1 st bestNode P hpnc hnfr hfd
    have hplaceM := placeRect_spec st bestNode hpnc hnfr
    refine ⟨P ++ [bestNode], ?_, ?_, ?_⟩
    · rw [← hst2]
      show List.Forall₂ _ (st.packed ++ [unpadRect bestNode st.padding]) _
      exact forall₂_append_single hf2 (unpadRect_sub bestNode st.padding)
    · rw [List.pairwise_append]
      refine ⟨hpw, List.pairwise_singleton _ _, ?_⟩
      intro u hu b hb
      rw [List.mem_singleton] at hb
      subst hb
      exact hnode_all u hu
    · intro fr' hfr' u hu
      have hfr'2 : fr' ∈ (placeRect st bestNode).freeRects := by
        rw [← hst2] at hfr'
        exact hfr'
      rcases List.mem_append.mp hu with h | h
      · exact (hplace fr' hfr'2).1 u h
      · rw [List.mem_singleton] at h
        subst h
        exact (hplace fr' hfr'2).2

theorem mrInsertLoopC1 : ∀ (fuel : Nat) (st : MRState) (sizes : List Size),
    st.freeRects.Pairwise noContain → st.newFreeRects = [] → MRGhost st →
    MRGhost (mrInsertLoop fuel st sizes).1
  | 0, st, sizes, _, _, hg => hg
  | fuel+1, st, sizes, h1, h2, hg => by
    rcases hr : mrRound st sizes with _ | ⟨st2, sizes2⟩
    · simpa [mrInsertLoop, hr] using hg
    · have hinv := mrRound_inv st sizes st2 sizes2 hr h1 h2
      have hg2 := mrRoundC1 st sizes st2 sizes2 hr h1 h2 hg
      simpa [mrInsertLoop, hr] using
        mrInsertLoopC1 fuel st2 sizes2 hinv.1 hinv.2 hg2

/-! ### Guillotine engine: non-overlap ghost invariant -/

theorem getD_of_get? {α : Type} [Inhabited α] (l : List α) (i : Nat) (a : α)
    (h : l.get? i = some a) : l.getD i default = a := by
  simp [List.getD_eq_getElem?_getD, ← List.get?_eq_getElem?, h]

/-- The selection of `guillotinePack.Insert` points at a free rectangle and a
size whose padded form fits it (in the orientation recorded by `flipped`). -/
def gCand (free : List Rect) (sizes : List Size) (padding : Int)
    (best : GBest) : Prop :=
  ∃ fr, free.get? best.freeIdx = some fr ∧
  ∃ size, sizes.get? best.rectIdx = some size ∧
    (best.flipped = false →
      (padSize size padding).Width ≤ fr.Width ∧
      (padSize size padding).Height ≤ fr.Height) ∧
    (best.flipped = true →
      (padSize size padding).Height ≤ fr.Width ∧
      (padSize size padding).Width ≤ fr.Height)

theorem gInner_spec (fit : GFit) (allowFlip : Bool) (padding : Int)
    (free : List Rect) (sizes : List Size) (freeRect : Rect) (i : Nat)
    (hfr : free.get? i = some freeRect) :
    ∀ (l : List Size) (j : Nat) (best : GBest), sizes.drop j = l →
    (best.score ≠ MaxInt → gCand free sizes padding best) →
    ((gInner fit allowFlip padding freeRect i l j best).score ≠ MaxInt →
      gCand free sizes padding (gInner fit allowFlip padding freeRect i l j best))
  | [], _, best, _, hbest => hbest
  | size :: rest, j, best, hdrop, hbest => by
    have hj : sizes.get? j = some size := by
      have := List.get?_drop sizes j 0
      rw [hdrop] at this
      simpa using this.symm
    have hrest : sizes.drop (j+1) = rest := by
      have : sizes.drop (j+1) = (sizes.drop j).drop 1 := by
        rw [List.drop_drop]
      rw [this, hdrop]
      rfl
    simp only [gInner]
    split_ifs <;>
      first
        | (intro _
           refine ⟨freeRect, hfr, size, hj, fun hc => ?_, fun hc => ?_⟩ <;>
             first
               | (simp at hc
                  done)
               | (constructor <;> omega))
        | (apply gInner_spec fit allowFlip padding free sizes freeRect i hfr rest
             (j+1) _ hrest
           first
             | exact hbest
             | (intro _
                refine ⟨freeRect, hfr, size, hj, fun hc => ?_, fun hc => ?_⟩ <;>
                  first
                    | (simp at hc
                       done)
                    | (constructor <;> omega)))

theorem gOuter_spec (fit : GFit) (allowFlip : Bool) (padding : Int)
    (free : List Rect) (sizes : List Size) :
    ∀ (l : List Rect) (i : Nat) (best : GBest), free.drop i = l →
    (best.score ≠ MaxInt → gCand free sizes padding best) →
    ((gOuter fit allowFlip padding sizes l i best).score ≠ MaxInt →
      gCand free sizes padding (gOuter fit allowFlip padding sizes l i best))
  | [], _, best, _, hbest => hbest
  | f :: fs, i, best, hdrop, hbest => by
    have hi : free.get? i = some f := by
      have := List.get?_drop free i 0
      rw [hdrop] at this
      simpa using this.symm
    have hrest : free.drop (i+1) = fs := by
      have : free.drop (i+1) = (free.drop i).drop 1 := by
        rw [List.drop_drop]
      rw [this, hdrop]
      rfl
    have hin := gInner_spec fit allowFlip padding free sizes f i hi sizes 0 best
      rfl hbest
    simp only [gOuter]
    exact gOuter_spec fit allowFlip padding free sizes fs (i+1) _ hrest hin

theorem splitAlongAxis_spec (fr node : Rect) (dir : Bool) (l : List Rect)
    (hx : node.X = fr.X) (hy : node.Y = fr.Y) (hw : node.Width ≤ fr.Width)
    (hh : node.Height ≤ fr.Height) (hw0 : 0 ≤ node.Width)
    (hh0 : 0 ≤ node.Height) :
    ∃ S, splitAlongAxis fr node dir l = l ++ S ∧ S.Pairwise RDisj ∧
      ∀ x ∈ S, (0 < x.Width ∧ 0 < x.Height) ∧ fr.ContainsRect x ∧ RDisj x node := by
  simp only [splitAlongAxis]
  cases dir <;>
    (simp only [Bool.false_eq_true, if_false, if_true]
     split_ifs <;>
      [(rw [List.append_assoc, List.singleton_append]
        refine ⟨_, rfl, ?_, ?_⟩
        · refine List.pairwise_cons.mpr ⟨?_, List.pairwise_singleton _ _⟩
          intro b hb
          rw [List.mem_singleton] at hb
          subst hb
          unfold RDisj
          dsimp only
          omega
        · intro x hxm
          simp only [List.mem_cons, List.not_mem_nil, or_false] at hxm
          unfold Rect.ContainsRect RDisj
          rcases hxm with h | h
          · subst h
            dsimp only
            refine ⟨⟨by omega, by omega⟩, ⟨?_, ?_, ?_, ?_⟩, ?_⟩ <;> omega
          · subst h
            dsimp only
            refine ⟨⟨by omega, by omega⟩, ⟨?_, ?_, ?_, ?_⟩, ?_⟩ <;> omega);
       (refine ⟨_, rfl, List.pairwise_singleton _ _, ?_⟩
        intro x hxm
        rw [List.mem_singleton] at hxm
        subst hxm
        unfold Rect.ContainsRect RDisj
        dsimp only
        refine ⟨⟨by omega, by omega⟩, ⟨?_, ?_, ?_, ?_⟩, ?_⟩ <;> omega);
       (refine ⟨_, rfl, List.pairwise_singleton _ _, ?_⟩
        intro x hxm
        rw [List.mem_singleton] at hxm
        subst hxm
        unfold Rect.ContainsRect RDisj
        dsimp only
        refine ⟨⟨by omega, by omega⟩, ⟨?_, ?_, ?_, ?_⟩, ?_⟩ <;> omega);
       refine ⟨[], by simp, List.Pairwise.nil, fun x hx => absurd hx (by simp)⟩])

theorem get?_lt_length {α : Type} (l : List α) (n : Nat) (a : α)
    (h : l.get? n = some a) : n < l.length := by
  rw [List.get?_eq_getElem?] at h
  exact (List.getElem?_eq_some_iff.mp h).1

/-- Ghost invariant of the Guillotine engine for the non-overlap claim: the
free rectangles are pairwise disjoint, have positive extents, and are
disjoint from the pairwise-disjoint footprints of the placed nodes, each of
which hosts its stored packed rectangle. -/
def GGhost (g : GState) : Prop :=
  ∃ P : List Rect,
    List.Forall₂ (fun r u => u.ContainsRect r) g.packed P ∧
    P.Pairwise RDisj ∧
    g.freeRects.Pairwise RDisj ∧
    ∀ fr ∈ g.freeRects, (0 < fr.Width ∧ 0 < fr.Height) ∧ ∀ u ∈ P, RDisj fr u

theorem gPlaceGhost (g : GState) (padding : Int) (P : List Rect) (fr nd : Rect)
    (idx : Nat) (hfri : g.freeRects.get? idx = some fr)
    (hf2 : List.Forall₂ (fun r u => u.ContainsRect r) g.packed P)
    (hpw : P.Pairwise RDisj) (hfw : g.freeRects.Pairwise RDisj)
    (hfd : ∀ x ∈ g.freeRects, (0 < x.Width ∧ 0 < x.Height) ∧ ∀ u ∈ P, RDisj x u)
    (hnx : nd.X = fr.X) (hny : nd.Y = fr.Y) (hnw : nd.Width ≤ fr.Width)
    (hnh : nd.Height ≤ fr.Height) (hnw1 : 1 ≤ nd.Width) (hnh1 : 1 ≤ nd.Height) :
    List.Forall₂ (fun r u => u.ContainsRect r)
      (g.packed ++ [unpadRect nd padding]) (P ++ [nd]) ∧
    (P ++ [nd]).Pairwise RDisj ∧
    (if g.Merge then
        mergeFreeList ((splitByHeuristic g.splitMethod fr nd g.freeRects).eraseIdx idx)
      else (splitByHeuristic g.splitMethod fr nd g.freeRects).eraseIdx idx).Pairwise RDisj ∧
    ∀ x ∈ (if g.Merge then
        mergeFreeList ((splitByHeuristic g.splitMethod fr nd g.freeRects).eraseIdx idx)
      else (splitByHeuristic g.splitMethod fr nd g.freeRects).eraseIdx idx),
      (0 < x.Width ∧ 0 < x.Height) ∧ ∀ u ∈ P ++ [nd], RDisj x u := by
  obtain ⟨dir, hdir⟩ : ∃ d, splitByHeuristic g.splitMethod fr nd g.freeRects =
      splitAlongAxis fr nd d g.freeRects := ⟨_, rfl⟩
  obtain ⟨S, hS, hSpw, hSmem⟩ := splitAlongAxis_spec fr nd dir g.freeRects
    hnx hny hnw hnh (by omega) (by omega)
  have hidx : idx < g.freeRects.length := get?_lt_length _ _ _ hfri
  have hFR2 : (splitByHeuristic g.splitMethod fr nd g.freeRects).eraseIdx idx =
      g.freeRects.eraseIdx idx ++ S := by
    rw [hdir, hS, List.eraseIdx_append_of_lt_length hidx]
  have hperm : (fr :: g.freeRects.eraseIdx idx).Perm g.freeRects := by
    have h := getD_cons_perm g.freeRects idx hidx
    rw [getD_of_get? _ _ _ hfri] at h
    exact h
  have hfrP := (hperm.pairwise_iff @rdisj_symm).mpr hfw
  rw [List.pairwise_cons] at hfrP
  have hfrmem : fr ∈ g.freeRects := List.get?_mem hfri
  have hcont : fr.ContainsRect nd := by
    unfold Rect.ContainsRect
    omega
  have hErasedSub : ∀ x ∈ g.freeRects.eraseIdx idx, x ∈ g.freeRects :=
    fun x hx => (List.eraseIdx_sublist _ _).subset hx
  have hFR2pw : (g.freeRects.eraseIdx idx ++ S).Pairwise RDisj := by
    rw [List.pairwise_append]
    refine ⟨hfrP.2, hSpw, ?_⟩
    intro x hx s hs
    exact rdisj_symm (rdisj_of_sub fr x s (hfrP.1 x hx) (hSmem s hs).2.1)
  have hFR2fd : ∀ x ∈ g.freeRects.eraseIdx idx ++ S,
      (0 < x.Width ∧ 0 < x.Height) ∧ ∀ u ∈ P ++ [nd], RDisj x u := by
    intro x hx
    rcases List.mem_append.mp hx with h | h
    · refine ⟨(hfd x (hErasedSub x h)).1, ?_⟩
      intro u hu
      rcases List.mem_append.mp hu with h' | h'
      · exact (hfd x (hErasedSub x h)).2 u h'
      · rw [List.mem_singleton] at h'
        subst h'
        exact rdisj_symm (rdisj_of_sub fr x u (hfrP.1 x h) hcont)
    · refine ⟨(hSmem x h).1, ?_⟩
      intro u hu
      rcases List.mem_append.mp hu with h' | h'
      · exact rdisj_of_sub fr u x ((hfd fr hfrmem).2 u h') (hSmem x h).2.1
      · rw [List.mem_singleton] at h'
        subst h'
        exact (hSmem x h).2.2
  have hFR3 : (if g.Merge then
      mergeFreeList ((splitByHeuristic g.splitMethod fr nd g.freeRects).eraseIdx idx)
    else (splitByHeuristic g.splitMethod fr nd g.freeRects).eraseIdx idx) =
      g.freeRects.eraseIdx idx ++ S := by
    rw [hFR2]
    split
    · exact mergeFreeList_noop _ (fun r hr => by
        have := (hFR2fd r hr).1
        omega)
    · rfl
  rw [hFR3]
  refine ⟨forall₂_append_single hf2 (unpadRect_sub nd padding), ?_, hFR2pw, hFR2fd⟩
  rw [List.pairwise_append]
  refine ⟨hpw, List.pairwise_singleton _ _, ?_⟩
  intro u hu b hb
  rw [List.mem_singleton] at hb
  rw [hb]
  exact rdisj_symm (rdisj_of_sub fr u nd ((hfd fr hfrmem).2 u hu) hcont)

theorem gRoundC1 (g : GState) (padding : Int) (sizes : List Size) (g2 : GState)
    (sizes2 : List Size) (hr : gRound g padding sizes = some (g2, sizes2))
    (hsz : ∀ s ∈ sizes, 1 ≤ s.Width ∧ 1 ≤ s.Height)
    (hg : GGhost g) :
    GGhost g2 ∧ ∀ s ∈ sizes2, 1 ≤ s.Width ∧ 1 ≤ s.Height := by
  obtain ⟨P, hf2, hpw, hfw, hfd⟩ := hg
  simp only [gRound] at hr
  set best := gOuter g.fit g.allowFlip padding sizes g.freeRects 0
    { score := MaxInt, freeIdx := 0, rectIdx := 0, flipped := false } with hbest
  by_cases hbs : best.score = MaxInt
  · rw [if_pos hbs] at hr
    cases hr
  · rw [if_neg hbs] at hr
    have hcand := gOuter_spec g.fit g.allowFlip padding g.freeRects sizes
      g.freeRects 0 _ rfl (fun h => absurd rfl h) hbs
    obtain ⟨fr, hfri, size, hszi, hup, hfl⟩ := hcand
    have hfrd : g.freeRects.getD best.freeIdx default = fr := getD_of_get? _ _ _ hfri
    have hszd : sizes.getD best.rectIdx default = size := getD_of_get? _ _ _ hszi
    rw [hfrd, hszd] at hr
    have hsmem : size ∈ sizes := List.get?_mem hszi
    have hszWH := hsz size hsmem
    have hpm := padSize_mono size padding
    simp only [Option.some.injEq, Prod.mk.injEq] at hr
    obtain ⟨hg2, hs2⟩ := hr
    have hsz2 : ∀ s ∈ sizes2, 1 ≤ s.Width ∧ 1 ≤ s.Height := by
      intro s hs
      apply hsz
      rw [← hs2] at hs
      exact (List.eraseIdx_sublist sizes best.rectIdx).subset hs
    refine ⟨?_, hsz2⟩
    by_cases hbf : best.flipped = true
    · rw [if_pos hbf] at hg2
      have hplace := gPlaceGhost g padding P fr
        { X := fr.X, Y := fr.Y, Width := size.Height, Height := size.Width,
          ID := size.ID, Flipped := true }
        best.freeIdx hfri hf2 hpw hfw hfd
        rfl rfl (by have := hfl hbf; dsimp only; omega)
        (by have := hfl hbf; dsimp only; omega)
        (by dsimp only; omega) (by dsimp only; omega)
      rw [← hg2]
      exact ⟨P ++ [_], hplace.1, hplace.2.1, hplace.2.2.1, hplace.2.2.2⟩
    · rw [if_neg hbf] at hg2
      have hplace := gPlaceGhost g padding P fr
        { X := fr.X, Y := fr.Y, Width := size.Width, Height := size.Height,
          ID := size.ID, Flipped := false }
        best.freeIdx hfri hf2 hpw hfw hfd
        rfl rfl
        (by have := hup (by simpa using hbf); dsimp only; omega)
        (by have := hup (by simpa using hbf); dsimp only; omega)
        (by dsimp only; omega) (by dsimp only; omega)
      rw [← hg2]
      exact ⟨P ++ [_], hplace.1, hplace.2.1, hplace.2.2.1, hplace.2.2.2⟩

theorem gInsertLoopC1 : ∀ (fuel : Nat) (g : GState) (padding : Int)
    (sizes : List Size), (∀ s ∈ sizes, 1 ≤ s.Width ∧ 1 ≤ s.Height) → GGhost g →
    GGhost (gInsertLoop fuel g padding sizes).1
  | 0, g, _, _, _, hg => hg
  | fuel+1, g, padding, sizes, hsz, hg => by
    rcases hr : gRound g padding sizes with _ | ⟨g2, sizes2⟩
    · simpa [gInsertLoop, hr] using hg
    · have h := gRoundC1 g padding sizes g2 sizes2 hr hsz hg
      simpa [gInsertLoop, hr] using
        gInsertLoopC1 fuel g2 padding sizes2 h.2 h.1

/-! ### Skyline engine: non-overlap ghost invariant -/

/-- The X-extents of rectangle `p` and segment `s` overlap. -/
def XOv (p : Rect) (s : SkyNode) : Prop :=
  p.X < s.X + s.Width ∧ s.X < p.X + p.Width

instance (p : Rect) (s : SkyNode) : Decidable (XOv p s) := by
  unfold XOv
  infer_instance

/-- Every packed footprint lies on or below every skyline segment it
horizontally overlaps. -/
def SkyAbove (P : List Rect) (sk : List SkyNode) : Prop :=
  ∀ p ∈ P, ∀ s ∈ sk, XOv p s → p.Y + p.Height ≤ s.Y

theorem covers_mem_ge : ∀ (l : List SkyNode) (x0 W : Int), covers l x0 W →
    ∀ s ∈ l, x0 ≤ s.X
  | [], _, _, _ => fun s hs => absurd hs (List.not_mem_nil s)
  | a :: rest, x0, W, ⟨hx, hw, hr⟩ => fun s hs => by
    rcases List.mem_cons.mp hs with h | h
    · subst h
      omega
    · have := covers_mem_ge rest (x0 + a.Width) W hr s h
      omega

theorem covers_exists : ∀ (l : List SkyNode) (x0 W : Int), covers l x0 W →
    ∀ x, x0 ≤ x → x < W → ∃ s ∈ l, s.X ≤ x ∧ x < s.X + s.Width
  | [], x0, W, hcov => by
    intro x h1 h2
    exfalso
    simp only [covers] at hcov
    omega
  | a :: rest, x0, W, ⟨hx, hw, hr⟩ => by
    intro x h1 h2
    by_cases hlt : x < x0 + a.Width
    · exact ⟨a, List.mem_cons_self _ _, by omega, by omega⟩
    · obtain ⟨s, hs, h3, h4⟩ := covers_exists rest (x0 + a.Width) W hr x (by omega) h2
      exact ⟨s, List.mem_cons_of_mem _ hs, h3, h4⟩

theorem covers_take_end : ∀ (l : List SkyNode) (x0 W : Int) (i : Nat)
    (si : SkyNode), covers l x0 W → l.get? i = some si →
    ∀ s ∈ l.take i, s.X + s.Width ≤ si.X
  | _, _, _, 0, _, _, _ => fun s hs => by simp at hs
  | [], _, _, _+1, _, _, hsi => by cases hsi
  | a :: rest, x0, W, i+1, si, ⟨hx, hw, hr⟩, hsi => by
    intro s hs
    have hsi' : rest.get? i = some si := by simpa using hsi
    simp only [List.take_succ_cons, List.mem_cons] at hs
    rcases hs with h | h
    · subst h
      have := covers_mem_ge rest (x0 + s.Width) W hr si (List.get?_mem hsi')
      omega
    · exact covers_take_end rest (x0 + a.Width) W i si hr hsi' s h

theorem fitWalk_above : ∀ (l : List SkyNode) (wl y0 h maxH cx W y : Int),
    covers l cx W → fitWalk l wl y0 h maxH = some y →
    y0 ≤ y ∧ ∀ s ∈ l, s.X < cx + wl → s.Y ≤ y
  | [], wl, y0, h, maxH, cx, W, y, hcov, hw => by
    simp only [fitWalk] at hw
    by_cases hwl : wl ≤ 0
    · rw [if_pos hwl] at hw
      injection hw with hw
      subst hw
      exact ⟨le_refl _, fun s hs => absurd hs (List.not_mem_nil s)⟩
    · rw [if_neg hwl] at hw
      cases hw
  | a :: rest, wl, y0, h, maxH, cx, W, y, hcov, hw => by
    simp only [fitWalk] at hw
    by_cases hwl : wl ≤ 0
    · rw [if_pos hwl] at hw
      injection hw with hw
      subst hw
      refine ⟨le_refl _, ?_⟩
      intro s hs hx
      have := covers_mem_ge (a :: rest) cx W hcov s hs
      omega
    · rw [if_neg hwl] at hw
      obtain ⟨h1c, h2c, h3c⟩ := hcov
      by_cases hmh : max y0 a.Y + h > maxH
      · rw [if_pos hmh] at hw
        cases hw
      · rw [if_neg hmh] at hw
        have ih := fitWalk_above rest (wl - a.Width) (max y0 a.Y) h maxH
          (cx + a.Width) W y h3c hw
        refine ⟨le_trans (le_max_left y0 a.Y) ih.1, ?_⟩
        intro s hs hx
        rcases List.mem_cons.mp hs with h' | h'
        · subst h'
          exact le_trans (le_max_right y0 s.Y) ih.1
        · exact ih.2 s h' (by omega)

theorem consume_sub (e : Int) : ∀ (l : List SkyNode), ∀ s' ∈ consume e l,
    ∃ s ∈ l, s'.Y = s.Y ∧ s.X ≤ s'.X ∧ s'.X + s'.Width ≤ s.X + s.Width
  | [] => fun s' hs' => absurd hs' (by simp [consume])
  | s :: rest => by
    intro s' hs'
    simp only [consume] at hs'
    split_ifs at hs' with h1 h2
    · obtain ⟨t, ht, h⟩ := consume_sub e rest s' hs'
      exact ⟨t, List.mem_cons_of_mem _ ht, h⟩
    · rcases List.mem_cons.mp hs' with h | h
      · rw [h]
        exact ⟨s, List.mem_cons_self _ _, rfl, by dsimp only; omega,
          by dsimp only; omega⟩
      · exact ⟨s', List.mem_cons_of_mem _ h, rfl, le_refl _, le_refl _⟩
    · rcases List.mem_cons.mp hs' with h | h
      · rw [h]
        exact ⟨s, List.mem_cons_self _ _, rfl, le_refl _, le_refl _⟩
      · exact ⟨s', List.mem_cons_of_mem _ h, rfl, le_refl _, le_refl _⟩

theorem mergeSky_above (p : Rect) (hpw : 1 ≤ p.Width) :
    ∀ (l : List SkyNode) (cur : SkyNode),
    List.Chain' (fun a b => a.X + a.Width = b.X) (cur :: l) →
    (∀ s ∈ cur :: l, XOv p s → p.Y + p.Height ≤ s.Y) →
    ∀ s' ∈ mergeSky cur l, XOv p s' → p.Y + p.Height ≤ s'.Y
  | [], cur, _, h => by
    intro s' hs'
    simp only [mergeSky, List.mem_singleton] at hs'
    rw [hs']
    exact h cur (List.mem_cons_self _ _)
  | b :: rest, cur, hch, h => by
    simp only [mergeSky]
    by_cases hy : cur.Y = b.Y
    · rw [if_pos hy]
      obtain ⟨hcb, hbrest⟩ := List.chain'_cons.mp hch
      apply mergeSky_above p hpw rest { cur with Width := cur.Width + b.Width }
      · cases rest with
        | nil => exact List.chain'_singleton _
        | cons c cs =>
          obtain ⟨hbc, hcrest⟩ := List.chain'_cons.mp hbrest
          exact List.chain'_cons.mpr ⟨by dsimp only; omega, hcrest⟩
      · intro s hs hov
        rcases List.mem_cons.mp hs with hmg | hmem
        · subst hmg
          unfold XOv at hov
          dsimp only at hov ⊢
          by_cases hsplit : p.X < cur.X + cur.Width
          · exact h cur (List.mem_cons_self _ _) ⟨hsplit, hov.2⟩
          · have hb := h b (List.mem_cons_of_mem _ (List.mem_cons_self _ _))
              ⟨by omega, by omega⟩
            omega
        · exact h s (List.mem_cons_of_mem _ (List.mem_cons_of_mem _ hmem)) hov
    · rw [if_neg hy]
      intro s' hs'
      rcases List.mem_cons.mp hs' with h' | h'
      · rw [h']
        exact h cur (List.mem_cons_self _ _)
      · exact mergeSky_above p hpw rest b (List.chain'_cons.mp hch).2
          (fun s hs hov => h s (List.mem_cons_of_mem _ hs) hov) s' h'

theorem mergeSkylines_above (p : Rect) (hpw : 1 ≤ p.Width) (l : List SkyNode)
    (hch : List.Chain' (fun a b => a.X + a.Width = b.X) l)
    (h : ∀ s ∈ l, XOv p s → p.Y + p.Height ≤ s.Y) :
    ∀ s' ∈ mergeSkylines l, XOv p s' → p.Y + p.Height ≤ s'.Y := by
  cases l with
  | nil =>
    intro s' hs'
    simp [mergeSkylines] at hs'
  | cons x xs => exact mergeSky_above p hpw xs x hch h

theorem placed_above (sk : List SkyNode) (maxW maxH : Int) (node p : Rect)
    (binIdx : Nat) (hcov : covers sk 0 maxW)
    (hcand : skyCand sk maxW maxH node binIdx)
    (habp : ∀ s ∈ sk, XOv p s → p.Y + p.Height ≤ s.Y)
    (hpw : 1 ≤ p.Width) (hnw : 1 ≤ node.Width)
    (hov : p.X < node.X + node.Width ∧ node.X < p.X + p.Width) :
    p.Y + p.Height ≤ node.Y := by
  obtain ⟨sidx, hsi, hx, ht⟩ := hcand
  unfold testFit at ht
  simp only [hsi] at ht
  by_cases hgw : sidx.X + node.Width > maxW
  · rw [if_pos hgw] at ht
    cases ht
  · rw [if_neg hgw] at ht
    have hdcov : covers (sk.drop binIdx) sidx.X maxW :=
      covers_drop sk 0 maxW binIdx sidx hcov hsi
    have hfw := fitWalk_above (sk.drop binIdx) node.Width sidx.Y node.Height
      maxH sidx.X maxW node.Y hdcov ht
    have hsidx0 : 0 ≤ sidx.X := covers_mem_ge sk 0 maxW hcov sidx (List.get?_mem hsi)
    have hx0 : 0 ≤ max p.X node.X := by omega
    have hxW : max p.X node.X < maxW := by omega
    obtain ⟨s, hsmem, hsx1, hsx2⟩ := covers_exists sk 0 maxW hcov
      (max p.X node.X) hx0 hxW
    have hTD : s ∈ sk.take binIdx ∨ s ∈ sk.drop binIdx := by
      rw [← List.take_append_drop binIdx sk] at hsmem
      exact List.mem_append.mp hsmem
    rcases hTD with hT | hD
    · have := covers_take_end sk 0 maxW binIdx sidx hcov hsi s hT
      omega
    · have hsY : s.Y ≤ node.Y := hfw.2 s hD (by omega)
      have hxov : XOv p s := ⟨by omega, by omega⟩
      exact le_trans (habp s hsmem hxov) hsY

theorem containsRect_setID (a b : Rect) (i : Int) (h : a.ContainsRect b) :
    a.ContainsRect { b with ID := i } := by
  unfold Rect.ContainsRect at h ⊢
  dsimp only
  omega

theorem addLevel_above (st : SkyState) (node : Rect) (binIdx : Nat)
    (P : List Rect) (hcov : covers st.skyline 0 st.maxWidth)
    (hcand : skyCand st.skyline st.maxWidth st.maxHeight node binIdx)
    (hab : SkyAbove P st.skyline)
    (hPdim : ∀ p ∈ P, 1 ≤ p.Width ∧ 1 ≤ p.Height)
    (hw1 : 1 ≤ node.Width) (hh0 : 0 ≤ node.Height) :
    SkyAbove (P ++ [node]) (addLevel st binIdx node).skyline := by
  obtain ⟨sidx, hsi, hx, ht⟩ := hcand
  have hmaxw : node.X + node.Width ≤ st.maxWidth := by
    obtain ⟨s2, hs2, hb⟩ := testFit_spec _ _ _ _ _ _ _ ht
    rw [hsi] at hs2
    injection hs2 with hs2
    subst hs2
    omega
  have hdrop := covers_drop st.skyline 0 st.maxWidth binIdx sidx hcov hsi
  have hcons := consume_covers (st.skyline.drop binIdx) sidx.X st.maxWidth
    (node.X + node.Width) hdrop (by omega) (by omega)
  have hC : covers ((⟨node.X, node.Y + node.Height, node.Width⟩ : SkyNode) ::
      consume (node.X + node.Width) (st.skyline.drop binIdx)) sidx.X st.maxWidth := by
    refine ⟨by simpa using hx, hw1, ?_⟩
    show covers _ (sidx.X + node.Width) st.maxWidth
    rw [show sidx.X + node.Width = node.X + node.Width by omega]
    exact hcons
  have hrepl := covers_replace st.skyline 0 st.maxWidth binIdx sidx _ hcov hsi hC
  have hchain := (covers_abut _ 0 st.maxWidth hrepl).1
  rw [addLevel_skyline]
  intro p hp s' hs' hov'
  have hpw : 1 ≤ p.Width := by
    rcases List.mem_append.mp hp with h | h
    · exact (hPdim p h).1
    · rw [List.mem_singleton] at h
      rw [h]
      exact hw1
  refine mergeSkylines_above p hpw _ hchain ?_ s' hs' hov'
  intro s hs hov
  have hsTD : s ∈ st.skyline.take binIdx ∨
      s = (⟨node.X, node.Y + node.Height, node.Width⟩ : SkyNode) ∨
      s ∈ consume (node.X + node.Width) (st.skyline.drop binIdx) := by
    rcases List.mem_append.mp hs with h | h
    · exact .inl h
    · rcases List.mem_cons.mp h with h' | h'
      · exact .inr (.inl h')
      · exact .inr (.inr h')
  rcases List.mem_append.mp hp with hpP | hpN
  · -- old packed footprint
    rcases hsTD with hT | hNew | hCons
    · exact hab p hpP s (List.mem_of_mem_take hT) hov
    · rw [hNew] at hov ⊢
      have := placed_above st.skyline st.maxWidth st.maxHeight node p binIdx
        hcov ⟨sidx, hsi, hx, ht⟩ (hab p hpP) (hPdim p hpP).1 hw1
        ⟨hov.1, hov.2⟩
      dsimp only
      omega
    · obtain ⟨t, htm, hty, htx1, htx2⟩ := consume_sub _ _ s hCons
      have htsky : t ∈ st.skyline := by
        have := List.drop_subset binIdx st.skyline
        exact this htm
      have : XOv p t := ⟨by unfold XOv at hov; omega, by unfold XOv at hov; omega⟩
      rw [hty]
      exact hab p hpP t htsky this
  · -- the freshly placed node
    rw [List.mem_singleton] at hpN
    rw [hpN] at hov ⊢
    rcases hsTD with hT | hNew | hCons
    · have := covers_take_end st.skyline 0 st.maxWidth binIdx sidx hcov hsi s hT
      unfold XOv at hov
      omega
    · rw [hNew]
    · have hge := covers_mem_ge _ _ _ hcons s hCons
      unfold XOv at hov
      omega

theorem sky_node_disj (sk : List SkyNode) (maxW maxH : Int) (node : Rect)
    (binIdx : Nat) (P : List Rect) (hcov : covers sk 0 maxW)
    (hcand : skyCand sk maxW maxH node binIdx) (hab : SkyAbove P sk)
    (hPdim : ∀ p ∈ P, 1 ≤ p.Width ∧ 1 ≤ p.Height) (hnw : 1 ≤ node.Width) :
    ∀ p ∈ P, RDisj p node := by
  intro p hp
  by_cases hov : p.X < node.X + node.Width ∧ node.X < p.X + p.Width
  · have := placed_above sk maxW maxH node p binIdx hcov hcand (hab p hp)
      (hPdim p hp).1 hnw hov
    unfold RDisj
    omega
  · unfold RDisj
    omega

/-- Ghost invariant of the Skyline engine for the non-overlap claim: the
padded footprints of the placed nodes are pairwise disjoint, have positive
extents, host their stored packed rectangles, and all lie below the skyline
wherever they horizontally overlap it. -/
def SkyGhost (st : SkyState) : Prop :=
  ∃ P : List Rect,
    List.Forall₂ (fun r u => u.ContainsRect r) st.packed P ∧
    P.Pairwise RDisj ∧
    (∀ p ∈ P, 1 ≤ p.Width ∧ 1 ≤ p.Height) ∧
    SkyAbove P st.skyline

theorem addLevel_packed (st : SkyState) (index : Nat) (rect : Rect) :
    (addLevel st index rect).packed = st.packed := by
  unfold addLevel
  cases st.wasteMap <;> rfl

theorem skyRoundC1 (st : SkyState) (sizes : List Size) (st2 : SkyState)
    (sizes2 : List Size) (hr : skyRound st sizes = some (st2, sizes2))
    (hsz : ∀ s ∈ sizes, 1 ≤ s.Width ∧ 1 ≤ s.Height)
    (hcov : covers st.skyline 0 st.maxWidth) (hg : SkyGhost st) :
    SkyGhost st2 := by
  obtain ⟨P, hf2, hpw, hdim, hab⟩ := hg
  unfold skyRound at hr
  split at hr
  · rename_i node s1 s2 binIdx sizeIdx heq
    simp only [Option.some.injEq, Prod.mk.injEq] at hr
    obtain ⟨hst2, hsizes2⟩ := hr
    have hsel := skySelect_spec st sizes 0 (default, MaxInt, MaxInt, none, none)
      hsz (fun bin hbin => by cases hbin)
    rw [heq] at hsel
    obtain ⟨⟨hwp, hhp⟩, hcand⟩ := hsel binIdx rfl
    have hwp' : 1 ≤ node.Width := hwp
    have hhp' : 1 ≤ node.Height := hhp
    refine ⟨P ++ [node], ?_, ?_, ?_, ?_⟩
    · rw [← hst2]
      dsimp only
      rw [addLevel_packed]
      exact forall₂_append_single hf2
        (containsRect_setID _ _ _ (unpadRect_sub node st.padding))
    · rw [List.pairwise_append]
      refine ⟨hpw, List.pairwise_singleton _ _, ?_⟩
      intro u hu b hb
      rw [List.mem_singleton] at hb
      rw [hb]
      exact sky_node_disj st.skyline st.maxWidth st.maxHeight node binIdx P
        hcov hcand hab hdim hwp' u hu
    · intro u hu
      rcases List.mem_append.mp hu with h | h
      · exact hdim u h
      · rw [List.mem_singleton] at h
        rw [h]
        exact ⟨hwp', hhp'⟩
    · have hsky : st2.skyline = (addLevel st binIdx node).skyline := by
        rw [← hst2]
      rw [hsky]
      exact addLevel_above st node binIdx P hcov hcand hab hdim hwp'
        (le_trans zero_le_one hhp')
  · cases hr

theorem skyInsertLoopC1 : ∀ (fuel : Nat) (st : SkyState) (sizes : List Size),
    (∀ s ∈ sizes, 1 ≤ s.Width ∧ 1 ≤ s.Height) →
    covers st.skyline 0 st.maxWidth → SkyGhost st →
    SkyGhost (skyInsertLoop fuel st sizes).1
  | 0, st, sizes, _, _, hg => hg
  | fuel+1, st, sizes, hsz, hcov, hg => by
    rcases hr : skyRound st sizes with _ | ⟨st2, sizes2⟩
    · simpa [skyInsertLoop, hr] using hg
    · obtain ⟨h1, h2, h3, h4⟩ := skyRound_inv st sizes st2 sizes2 hr hsz hcov
      have hg2 := skyRoundC1 st sizes st2 sizes2 hr hsz hcov hg
      simpa [skyInsertLoop, hr] using skyInsertLoopC1 fuel st2 sizes2 h4 h1 hg2

/-! ### Packer orchestrator: the non-overlap invariant across engines -/

theorem swapRem_subset {α : Type} [Inhabited α] (l : List α) (i : Nat) :
    ∀ x ∈ (l.set i (l.getD (l.length - 1) default)).dropLast, x ∈ l := by
  intro x hx
  have h1 : x ∈ l.set i (l.getD (l.length - 1) default) :=
    (List.dropLast_sublist _).subset hx
  rcases List.mem_or_eq_of_mem_set h1 with h | h
  · exact h
  · cases l with
    | nil => simp at h1
    | cons a t =>
      rw [h]
      exact getD_mem (a :: t) ((a :: t).length - 1) (by simp)

theorem mrRound_sizes (st : MRState) (sizes : List Size) (st2 : MRState)
    (sizes2 : List Size) (hr : mrRound st sizes = some (st2, sizes2)) :
    ∀ x ∈ sizes2, x ∈ sizes := by
  unfold mrRound at hr
  split at hr
  · cases hr
  · simp only [Option.some.injEq, Prod.mk.injEq] at hr
    intro x hx
    rw [← hr.2] at hx
    exact swapRem_subset sizes _ x hx

theorem mrInsertLoop_sizes : ∀ (fuel : Nat) (st : MRState) (sizes : List Size),
    ∀ x ∈ (mrInsertLoop fuel st sizes).2, x ∈ sizes
  | 0, _, _ => fun _ hx => hx
  | fuel+1, st, sizes => by
    rcases hr : mrRound st sizes with _ | ⟨st2, sizes2⟩
    · simp only [mrInsertLoop, hr]
      exact fun _ hx => hx
    · simp only [mrInsertLoop, hr]
      exact fun x hx => mrRound_sizes st sizes st2 sizes2 hr x
        (mrInsertLoop_sizes fuel st2 sizes2 x hx)

theorem gRound_sizes (g : GState) (padding : Int) (sizes : List Size)
    (g2 : GState) (sizes2 : List Size)
    (hr : gRound g padding sizes = some (g2, sizes2)) :
    ∀ x ∈ sizes2, x ∈ sizes := by
  simp only [gRound] at hr
  by_cases hbs : (gOuter g.fit g.allowFlip padding sizes g.freeRects 0
      { score := MaxInt, freeIdx := 0, rectIdx := 0, flipped := false }).score = MaxInt
  · rw [if_pos hbs] at hr
    cases hr
  · rw [if_neg hbs] at hr
    simp only [Option.some.injEq, Prod.mk.injEq] at hr
    intro x hx
    rw [← hr.2] at hx
    exact (List.eraseIdx_sublist sizes _).subset hx

theorem gInsertLoop_sizes : ∀ (fuel : Nat) (g : GState) (padding : Int)
    (sizes : List Size), ∀ x ∈ (gInsertLoop fuel g padding sizes).2, x ∈ sizes
  | 0, _, _, _ => fun _ hx => hx
  | fuel+1, g, padding, sizes => by
    rcases hr : gRound g padding sizes with _ | ⟨g2, sizes2⟩
    · simp only [gInsertLoop, hr]
      exact fun _ hx => hx
    · simp only [gInsertLoop, hr]
      exact fun x hx => gRound_sizes g padding sizes g2 sizes2 hr x
        (gInsertLoop_sizes fuel g2 padding sizes2 x hx)

theorem skyRound_sizes (st : SkyState) (sizes : List Size) (st2 : SkyState)
    (sizes2 : List Size) (hr : skyRound st sizes = some (st2, sizes2)) :
    ∀ x ∈ sizes2, x ∈ sizes := by
  unfold skyRound at hr
  split at hr
  · simp only [Option.some.injEq, Prod.mk.injEq] at hr
    intro x hx
    rw [← hr.2] at hx
    exact (List.eraseIdx_sublist sizes _).subset hx
  · cases hr

theorem skyInsertLoop_sizes : ∀ (fuel : Nat) (st : SkyState) (sizes : List Size),
    ∀ x ∈ (skyInsertLoop fuel st sizes).2, x ∈ sizes
  | 0, _, _ => fun _ hx => hx
  | fuel+1, st, sizes => by
    rcases hr : skyRound st sizes with _ | ⟨st2, sizes2⟩
    · simp only [skyInsertLoop, hr]
      exact fun _ hx => hx
    · simp only [skyInsertLoop, hr]
      exact fun x hx => skyRound_sizes st sizes st2 sizes2 hr x
        (skyInsertLoop_sizes fuel st2 sizes2 x hx)

/-- The per-engine non-overlap invariant carried by the packer's algorithm
state: each engine keeps its ghost footprint list, plus the structural
invariants its insertion loop needs (free-list non-containment for MaxRects,
the covering skyline for Skyline). -/
def AlgoC1Inv : AlgoState → Prop
  | .mr st => st.freeRects.Pairwise noContain ∧ st.newFreeRects = [] ∧ MRGhost st
  | .sky st => covers st.skyline 0 st.maxWidth ∧
      List.Chain' (fun a b => a.Y ≠ b.Y) st.skyline ∧ SkyGhost st
  | .guil g => GGhost g

theorem algoInsertC1 (a : AlgoState) (padding : Int) (sizes : List Size)
    (hsz : ∀ s ∈ sizes, 1 ≤ s.Width ∧ 1 ≤ s.Height) (h : AlgoC1Inv a) :
    AlgoC1Inv (algoInsert a padding sizes).1 ∧
    ∀ s ∈ (algoInsert a padding sizes).2, 1 ≤ s.Width ∧ 1 ≤ s.Height := by
  cases a with
  | mr st =>
    obtain ⟨h1, h2, h3⟩ := h
    have h1' : ({ st with padding := padding } : MRState).freeRects.Pairwise noContain := h1
    have h2' : ({ st with padding := padding } : MRState).newFreeRects = [] := h2
    have h3' : MRGhost { st with padding := padding } := h3
    exact ⟨⟨(mrInsertLoop_inv sizes.length _ sizes h1' h2').1,
            (mrInsertLoop_inv sizes.length _ sizes h1' h2').2,
            mrInsertLoopC1 sizes.length _ sizes h1' h2' h3'⟩,
           fun s hs => hsz s (mrInsertLoop_sizes sizes.length _ sizes s hs)⟩
  | sky st =>
    obtain ⟨h1, h2, h3⟩ := h
    have h1' : covers ({ st with padding := padding } : SkyState).skyline 0
        ({ st with padding := padding } : SkyState).maxWidth := h1
    have h2' : List.Chain' (fun a b => a.Y ≠ b.Y)
        ({ st with padding := padding } : SkyState).skyline := h2
    have h3' : SkyGhost { st with padding := padding } := h3
    exact ⟨⟨(skyInsertLoop_inv sizes.length _ sizes hsz h1' h2').1,
            (skyInsertLoop_inv sizes.length _ sizes hsz h1' h2').2,
            skyInsertLoopC1 sizes.length _ sizes hsz h1' h3'⟩,
           fun s hs => hsz s (skyInsertLoop_sizes sizes.length _ sizes s hs)⟩
  | guil g =>
    exact ⟨gInsertLoopC1 sizes.length g padding sizes hsz h,
           fun s hs => hsz s (gInsertLoop_sizes sizes.length g padding sizes s hs)⟩

theorem algoAllowFlipC1 (a : AlgoState) (b : Bool) (h : AlgoC1Inv a) :
    AlgoC1Inv (algoAllowFlip b a) := by
  cases a with
  | mr st => exact h
  | sky st => exact h
  | guil g => exact h

/-- The packer-level invariant: the engine invariant plus positive dimensions
of every staged (not yet packed) size. -/
def PackerC1Inv (p : Packer) : Prop :=
  AlgoC1Inv p.algo ∧ ∀ s ∈ p.unpacked, 1 ≤ s.Width ∧ 1 ≤ s.Height

/-- Packer states reachable from `NewPacker` by `Insert` and `Pack` calls and
configuration changes (sorter, flipping, padding, online mode); inserted
sizes satisfy the data model requirement of positive dimensions. -/
inductive PReach : Packer → Prop where
  | new : ∀ (width height : Int) (heuristic : Nat) (p : Packer),
      pNewPacker width height heuristic = some p → PReach p
  | insert : ∀ p sizes, PReach p →
      (∀ s ∈ sizes, 1 ≤ s.Width ∧ 1 ≤ s.Height) → PReach (pInsert p sizes).1
  | pack : ∀ p, PReach p → PReach (pPack p).1
  | sorter : ∀ p c r, PReach p → PReach (pSorter p c r)
  | allowFlip : ∀ p b, PReach p → PReach (pAllowFlip p b)
  | padding : ∀ p pad, PReach p → PReach { p with Padding := pad }
  | online : ∀ p b, PReach p → PReach { p with Online := b }

theorem pNewPackerC1 (width height : Int) (heuristic : Nat) (p : Packer)
    (h : pNewPacker width height heuristic = some p) : PackerC1Inv p := by
  simp only [pNewPacker] at h
  by_cases hwh : width ≤ 0 ∨ height ≤ 0
  · rw [if_pos hwh] at h
    exact Option.noConfusion h
  rw [if_neg hwh] at h
  by_cases h1 : heuristic &&& typeMask = MaxRects
  · rw [if_pos h1] at h
    simp only [Option.some.injEq] at h
    rw [← h]
    refine ⟨⟨?_, rfl, [], List.Forall₂.nil, List.Pairwise.nil,
        fun fr _ u hu => absurd hu (List.not_mem_nil u)⟩,
      fun s hs => absurd hs (List.not_mem_nil s)⟩
    show ([NewRect 0 0 width height] : List Rect).Pairwise noContain
    exact List.pairwise_singleton _ _
  rw [if_neg h1] at h
  by_cases h2 : heuristic &&& typeMask = Skyline
  · rw [if_pos h2] at h
    simp only [Option.some.injEq] at h
    rw [← h]
    refine ⟨⟨?_, ?_, [], List.Forall₂.nil, List.Pairwise.nil,
        fun u hu => absurd hu (List.not_mem_nil u),
        fun q hq => absurd hq (List.not_mem_nil q)⟩,
      fun s hs => absurd hs (List.not_mem_nil s)⟩
    · show covers [(⟨0, 0, width⟩ : SkyNode)] 0 width
      refine ⟨rfl, by show (1 : Int) ≤ width; omega, ?_⟩
      show (0 : Int) + width = width
      ring
    · show List.Chain' _ [(⟨0, 0, width⟩ : SkyNode)]
      exact List.chain'_singleton _
  rw [if_neg h2] at h
  by_cases h3 : heuristic &&& typeMask = Guillotine
  · rw [if_pos h3] at h
    simp only [Option.some.injEq] at h
    rw [← h]
    refine ⟨⟨[], List.Forall₂.nil, List.Pairwise.nil, ?_, ?_⟩,
      fun s hs => absurd hs (List.not_mem_nil s)⟩
    · show ([NewRect 0 0 width height] : List Rect).Pairwise RDisj
      exact List.pairwise_singleton _ _
    · intro fr hfr
      have hm : fr ∈ ([NewRect 0 0 width height] : List Rect) := hfr
      rw [List.mem_singleton] at hm
      rw [hm]
      exact ⟨⟨by show (0 : Int) < width; omega, by show (0 : Int) < height; omega⟩,
        fun u hu => absurd hu (List.not_mem_nil u)⟩
  rw [if_neg h3] at h
  exact Option.noConfusion h

theorem pInsertC1 (p : Packer) (sizes : List Size)
    (hsz : ∀ s ∈ sizes, 1 ≤ s.Width ∧ 1 ≤ s.Height) (h : PackerC1Inv p) :
    PackerC1Inv (pInsert p sizes).1 := by
  obtain ⟨ha, hu⟩ := h
  unfold pInsert
  by_cases ho : p.Online
  · rw [if_pos ho]
    exact ⟨(algoInsertC1 p.algo p.Padding sizes hsz ha).1, hu⟩
  · rw [if_neg ho]
    refine ⟨ha, ?_⟩
    intro s hs
    rcases List.mem_append.mp hs with hm | hm
    · exact hu s hm
    · exact hsz s hm

/-- The staged list as sorted by `Packer.Pack` before it is handed to the
algorithm (packer.go). -/
def pSorted (p : Packer) : List Size :=
  match p.sortFunc with
  | some f => if p.sortRev then goSort (fun a b => f b a) p.unpacked
              else goSort f p.unpacked
  | none => if p.sortRev then p.unpacked.reverse else p.unpacked

theorem pPack_eq (p : Packer) (he : ¬ p.unpacked = []) :
    pPack p = (if (algoInsert p.algo p.Padding (pSorted p)).2 = []
      then ({ p with algo := (algoInsert p.algo p.Padding (pSorted p)).1,
                     unpacked := [] }, true)
      else ({ p with algo := (algoInsert p.algo p.Padding (pSorted p)).1,
                     unpacked := (algoInsert p.algo p.Padding (pSorted p)).2 }, false)) := by
  unfold pPack
  rw [if_neg he]
  rfl

theorem pSorted_sizes (p : Packer)
    (hu : ∀ s ∈ p.unpacked, 1 ≤ s.Width ∧ 1 ≤ s.Height) :
    ∀ s ∈ pSorted p, 1 ≤ s.Width ∧ 1 ≤ s.Height := by
  unfold pSorted
  rcases hsf : p.sortFunc with _ | f <;> simp only [hsf]
  · split_ifs
    · intro s hs
      exact hu s (List.mem_reverse.mp hs)
    · exact hu
  · split_ifs
    · intro s hs
      exact hu s ((List.perm_insertionSort _ p.unpacked).mem_iff.mp hs)
    · intro s hs
      exact hu s ((List.perm_insertionSort _ p.unpacked).mem_iff.mp hs)

theorem pPackC1 (p : Packer) (h : PackerC1Inv p) : PackerC1Inv (pPack p).1 := by
  obtain ⟨ha, hu⟩ := h
  by_cases he : p.unpacked = []
  · unfold pPack
    rw [if_pos he]
    exact ⟨ha, hu⟩
  · have hs := pSorted_sizes p hu
    rw [pPack_eq p he]
    by_cases hr2 : (algoInsert p.algo p.Padding (pSorted p)).2 = []
    · rw [if_pos hr2]
      exact ⟨(algoInsertC1 p.algo p.Padding (pSorted p) hs ha).1,
        fun s hs2 => absurd hs2 (List.not_mem_nil s)⟩
    · rw [if_neg hr2]
      exact ⟨(algoInsertC1 p.algo p.Padding (pSorted p) hs ha).1,
        (algoInsertC1 p.algo p.Padding (pSorted p) hs ha).2⟩

theorem pReachC1 (p : Packer) (h : PReach p) : PackerC1Inv p := by
  induction h with
  | new width height heuristic p hnew => exact pNewPackerC1 width height heuristic p hnew
  | insert p sizes hp hsz ih => exact pInsertC1 p sizes hsz ih
  | pack p hp ih => exact pPackC1 p ih
  | sorter p c r hp ih => exact ⟨ih.1, ih.2⟩
  | allowFlip p b hp ih => exact ⟨algoAllowFlipC1 p.algo b ih.1, ih.2⟩
  | padding p pad hp ih => exact ⟨ih.1, ih.2⟩
  | online p b hp ih => exact ⟨ih.1, ih.2⟩

/-- **C1**: for every algorithm (MaxRects, Skyline, Guillotine), every
heuristic, every padding value, and every sequence of `Insert`/`Pack` calls
(over sizes with positive dimensions, the package's data model), any two
distinct rectangles in the packed list have an intersection of area 0: their
padding-expanded footprints are pairwise disjoint. -/
theorem packed_no_overlap (p : Packer) (h : PReach p) :
    (algoRects p.algo).Pairwise (fun a b => (a.Intersect b).Area = 0) := by
  have hinv := (pReachC1 p h).1
  cases halgo : p.algo with
  | mr st =>
    rw [halgo] at hinv
    obtain ⟨-, -, P, hf2, hpw, -⟩ := hinv
    exact pairwise_area0 st.packed P hf2 hpw
  | sky st =>
    rw [halgo] at hinv
    obtain ⟨-, -, P, hf2, hpw, -⟩ := hinv
    exact pairwise_area0 st.packed P hf2 hpw
  | guil g =>
    rw [halgo] at hinv
    obtain ⟨P, hf2, hpw, -⟩ := hinv
    exact pairwise_area0 g.packed P hf2 hpw

/-- Witness for `packed_no_overlap`: a fresh 10×10 MaxRects packer, one size
inserted and packed, with reachability discharged by the constructors. -/
theorem packed_no_overlap_witness :
    (algoRects (pPack (pInsert
      { unpacked := [], algo := .mr (newMaxRects 10 10 (MaxRects ||| BestShortSideFit)),
        sortFunc := some SortArea, sortRev := false, Padding := 0, Online := false }
      [NewSizeID 1 4 4]).1).1.algo).Pairwise
      (fun a b => (a.Intersect b).Area = 0) :=
  packed_no_overlap _
    (PReach.pack _ (PReach.insert _ [NewSizeID 1 4 4]
      (PReach.new 10 10 (MaxRects ||| BestShortSideFit) _ rfl)
      (by decide)))

end Rectpack
